import Mathlib

/-!
A reference-counting garbage collector: `gc_details.h`, `gc_pointer.h`, `gc_iterator.h`.

Shallow embedding of the class templates `PtrDetails<T>`, `Pointer<T, size>` and `Iter<T>`.

Modelling conventions.

* An address (`T *`) is an integer counted in elements of `T`; `0` is `NULL`.
* `unsigned` and `int` are 32 bits wide: `refcount++` and `refcount--` are computed modulo
  `2^32`, an `int` converted to `unsigned` is reduced modulo `2^32`, and a `size_t` or
  `ptrdiff_t` returned as `int` is reduced modulo `2^32` into `-2^31 .. 2^31 - 1`.
* `std::list<PtrDetails<T>>` is a `List PtrDetails`; a list iterator is a position in the
  list, `refContainer.end()` is `none`.
* The static members `refContainer` and `first` of one instantiation `Pointer<T, size>`,
  the live `Pointer` objects and the trace of `delete` / `delete[]` calls make up a `State`.
  A `Pointer` object is named by its position in `State.handles`; a destroyed object leaves
  `none` at its position, so that names are never reused.
* The template argument `size` is an explicit `Int` argument.
* A reachable state is the result of `run` on a list of public operations from `State.init`;
  `runWithin` keeps to states with fewer than `2^32` live `Pointer` objects, `runBelow`
  moreover to construct, assign and destroy operations (no explicit `collect`, `shutdown`).
-/

namespace GC

/-! ## `gc_details.h` -/

/-- Number of values of the type `unsigned`. -/
def UINT_MOD : Nat := 4294967296

/-- Conversion of an `int` to `unsigned`. -/
def toUnsigned (z : Int) : Nat := (z % 4294967296).toNat

/-- Conversion of a wider integer value (`size_t`, `ptrdiff_t`) to `int`: the value is
reduced modulo `2^32` into the range `-2^31 .. 2^31 - 1`. -/
def toIntWrap (z : Int) : Int := (z + 2147483648) % 4294967296 - 2147483648

/-- The class `PtrDetails<T>`. -/
structure PtrDetails where
  refcount : Nat
  memPtr : Int
  isArray : Bool
  arraySize : Nat
deriving DecidableEq, Repr

/-- The constructor `PtrDetails(T *ptr, unsigned int size)`. -/
def PtrDetails.ctor (ptr : Int) (size : Nat) : PtrDetails :=
  { refcount := 1, memPtr := ptr, isArray := decide (size > 0), arraySize := size }

/-- The statement `p->refcount++` on an `unsigned`. -/
def PtrDetails.incr (p : PtrDetails) : PtrDetails :=
  { p with refcount := (p.refcount + 1) % UINT_MOD }

/-- The statement `p->refcount--` on an `unsigned`: `0` wraps to `2^32 - 1`. -/
def PtrDetails.decr (p : PtrDetails) : PtrDetails :=
  { p with refcount := if p.refcount = 0 then UINT_MOD - 1 else p.refcount - 1 }

/-! ## `gc_pointer.h`: the registry -/

/-- The fields `addr`, `isArray`, `arraySize` of a `Pointer<T, size>` object. -/
structure Pointer where
  addr : Int
  isArray : Bool
  arraySize : Nat
deriving DecidableEq, Repr

/-- One deallocation performed by `collect`: `delete p` or `delete[] p`. -/
inductive Dealloc where
  | scalarDelete (p : Int)
  | arrayDelete (p : Int)
deriving DecidableEq, Repr

/-- `Pointer::findPtrInfo`: the position of the first record whose `memPtr` is `ptr`,
or `none` for `refContainer.end()`. -/
def findPtrInfo : List PtrDetails → Int → Option Nat
  | [], _ => none
  | p :: rest, ptr =>
    if p.memPtr = ptr then some 0 else (findPtrInfo rest ptr).map (fun i => i + 1)

/-- Apply `f` to the record at position `i` (a write through a list iterator). -/
def updateAt (f : PtrDetails → PtrDetails) : List PtrDetails → Nat → List PtrDetails
  | [], _ => []
  | p :: rest, 0 => f p :: rest
  | p :: rest, i + 1 => p :: updateAt f rest i

/-- Result of one run of `collect`: the records left in `refContainer`, the returned
flag `memFreed`, and the deallocations performed, in order. -/
structure Sweep where
  kept : List PtrDetails
  memFreed : Bool
  log : List Dealloc
deriving DecidableEq, Repr

/-- The `while (p != refContainer.end())` loop of `Pointer::collect`. `scanned` holds the
records before the iterator `p`, the list argument the records from `p` on. -/
def collectLoop (scanned : List PtrDetails) (memFreed : Bool) (log : List Dealloc) :
    List PtrDetails → Sweep
  | [] => { kept := scanned, memFreed := memFreed, log := log }
  | p :: rest =>
    if p.refcount ≤ 0 then
      collectLoop scanned true
        (log ++ [if p.isArray then Dealloc.arrayDelete p.memPtr
                 else Dealloc.scalarDelete p.memPtr]) rest
    else
      collectLoop (scanned ++ [p]) memFreed log rest

/-- `Pointer::collect` on the registry. -/
def collectRegistry (reg : List PtrDetails) : Sweep :=
  collectLoop [] false [] reg

/-- `Pointer::refContainerSize`: `static int refContainerSize() { return refContainer.size(); }`,
the number of records converted to `int`. -/
def refContainerSize (reg : List PtrDetails) : Int := toIntWrap reg.length

/-- Registry part of `Pointer::Pointer(T *t)`. -/
def ctorAddrRegistry (size : Int) (reg : List PtrDetails) (t : Int) : List PtrDetails :=
  if t ≠ 0 then
    match findPtrInfo reg t with
    | some p => updateAt PtrDetails.incr reg p
    | none => reg ++ [PtrDetails.ctor t (toUnsigned size)]
  else reg

/-- Registry part of the copy constructor `Pointer::Pointer(const Pointer &ob)`. -/
def ctorCopyRegistry (reg : List PtrDetails) (ob : Pointer) : List PtrDetails :=
  match findPtrInfo reg ob.addr with
  | some p => updateAt PtrDetails.incr reg p
  | none => reg

/-- The statements of `Pointer::~Pointer` before the call of `collect`. -/
def dtorRelease (reg : List PtrDetails) (this : Pointer) : List PtrDetails :=
  if this.addr ≠ 0 then
    match findPtrInfo reg this.addr with
    | some p => updateAt PtrDetails.decr reg p
    | none => reg
  else reg

/-- The statements of `Pointer::operator=(T *t)` before the call of `collect`. -/
def assignAddrRelease (size : Int) (reg : List PtrDetails) (this : Pointer) (t : Int) :
    List PtrDetails :=
  let reg1 :=
    if this.addr ≠ 0 then
      match findPtrInfo reg this.addr with
      | some p => updateAt PtrDetails.decr reg p
      | none => reg
    else reg
  if t ≠ 0 then
    match findPtrInfo reg1 t with
    | some p => updateAt PtrDetails.incr reg1 p
    | none => reg1 ++ [PtrDetails.ctor t (toUnsigned size)]
  else reg1

/-- The statements of `Pointer::operator=(Pointer &rv)` for `this != &rv`, before the
call of `collect`. -/
def assignPointerRelease (reg : List PtrDetails) (this rv : Pointer) : List PtrDetails :=
  let reg1 :=
    if this.addr ≠ 0 then
      match findPtrInfo reg this.addr with
      | some p => updateAt PtrDetails.decr reg p
      | none => reg
    else reg
  if rv.addr ≠ 0 then
    match findPtrInfo reg1 rv.addr with
    | some p => updateAt PtrDetails.incr reg1 p
    | none => reg1
  else reg1

/-- The loop of `Pointer::shutdown` that sets every reference count to zero. -/
def zeroAll (reg : List PtrDetails) : List PtrDetails :=
  reg.map (fun p => { p with refcount := 0 })

/-! ## `gc_pointer.h`: the operations on the whole state -/

/-- The static members of `Pointer<T, size>`, the live `Pointer` objects and the trace of
deallocations. `exitHooks` counts the calls `atexit(shutdown)`. -/
structure State where
  refContainer : List PtrDetails
  first : Bool
  exitHooks : Nat
  handles : List (Option Pointer)
  deallocs : List Dealloc
deriving DecidableEq, Repr

/-- The state at program start: empty `refContainer`, `first = true`, no `Pointer`. -/
def State.init : State :=
  { refContainer := [], first := true, exitHooks := 0, handles := [], deallocs := [] }

/-- The live `Pointer` object named `i`, if any. -/
def State.handle (s : State) (i : Nat) : Option Pointer := s.handles.getD i none

/-- The statements `if (first) atexit(shutdown); first = false;`. -/
def registerExit (s : State) : State :=
  { s with exitHooks := if s.first then s.exitHooks + 1 else s.exitHooks, first := false }

/-- `Pointer::collect`: sweeps `refContainer`, returns the new state and `memFreed`. -/
def collect (s : State) : State × Bool :=
  let r := collectRegistry s.refContainer
  ({ s with refContainer := r.kept, deallocs := s.deallocs ++ r.log }, r.memFreed)

/-- The constructor `Pointer::Pointer()`. -/
def constructEmpty (s : State) : State :=
  let s1 := registerExit s
  { s1 with handles := s1.handles ++ [some { addr := 0, isArray := false, arraySize := 0 }] }

/-- The constructor `Pointer::Pointer(T *t)`. -/
def constructAddr (size : Int) (s : State) (t : Int) : State :=
  let s1 := registerExit s
  { s1 with
    refContainer := ctorAddrRegistry size s1.refContainer t
    handles := s1.handles ++
      [some { addr := t, isArray := decide (size > 0), arraySize := toUnsigned size }] }

/-- The copy constructor `Pointer::Pointer(const Pointer &ob)`. -/
def copyConstruct (s : State) (ob : Pointer) : State :=
  { s with
    refContainer := ctorCopyRegistry s.refContainer ob
    handles := s.handles ++
      [some { addr := ob.addr, isArray := ob.isArray, arraySize := ob.arraySize }] }

/-- The destructor `Pointer::~Pointer` of the object named `i` with fields `this`. -/
def destroy (s : State) (i : Nat) (this : Pointer) : State :=
  (collect { s with
    refContainer := dtorRelease s.refContainer this
    handles := s.handles.set i none }).1

/-- `Pointer::operator=(T *t)` on the object named `i` with fields `this`. -/
def assignAddr (size : Int) (s : State) (i : Nat) (this : Pointer) (t : Int) : State :=
  (collect { s with
    refContainer := assignAddrRelease size s.refContainer this t
    handles := s.handles.set i (some { this with addr := t }) }).1

/-- `Pointer::operator=(Pointer &rv)` on the object named `i` with fields `this`; the
argument is the object named `j` with fields `rv`. `this == &rv` is `i = j`. -/
def assignPointer (s : State) (i : Nat) (this : Pointer) (j : Nat) (rv : Pointer) : State :=
  if i = j then s
  else
    (collect { s with
      refContainer := assignPointerRelease s.refContainer this rv
      handles := s.handles.set i
        (some { addr := rv.addr, isArray := rv.isArray, arraySize := rv.arraySize }) }).1

/-- `Pointer::shutdown`. -/
def shutdown (s : State) : State :=
  if refContainerSize s.refContainer = 0 then s
  else (collect { s with refContainer := zeroAll s.refContainer }).1

/-- The public operations of `Pointer<T, size>` that change the state. -/
inductive Op where
  | constructEmpty
  | constructAddr (t : Int)
  | copyConstruct (ob : Nat)
  | destroy (i : Nat)
  | assignAddr (i : Nat) (t : Int)
  | assignPointer (i j : Nat)
  | collect
  | shutdown
deriving DecidableEq, Repr

/-- One operation. The result is `none` when the operation names a `Pointer` object that
is not live (such a call is not a program). -/
def step (size : Int) (s : State) : Op → Option State
  | Op.constructEmpty => some (constructEmpty s)
  | Op.constructAddr t => some (constructAddr size s t)
  | Op.copyConstruct ob =>
    match s.handle ob with
    | some o => some (copyConstruct s o)
    | none => none
  | Op.destroy i =>
    match s.handle i with
    | some this => some (destroy s i this)
    | none => none
  | Op.assignAddr i t =>
    match s.handle i with
    | some this => some (assignAddr size s i this t)
    | none => none
  | Op.assignPointer i j =>
    match s.handle i, s.handle j with
    | some this, some rv => some (assignPointer s i this j rv)
    | _, _ => none
  | Op.collect => some (collect s).1
  | Op.shutdown => some (shutdown s)

/-- Run a sequence of operations from a state. -/
def run (size : Int) : State → List Op → Option State
  | s, [] => some s
  | s, op :: ops =>
    match step size s op with
    | some s1 => run size s1 ops
    | none => none

/-- The operations that construct, assign or destroy a `Pointer` object (all but the
explicit calls of `collect` and `shutdown`). -/
def Op.isLifecycle : Op → Bool
  | Op.collect => false
  | Op.shutdown => false
  | _ => true

/-- The registry at the moment `~Pointer`, `operator=(T *)` or `operator=(Pointer &)`
calls `collect`; `none` for the other operations, for a self-assignment (which returns
before) and for a call on an object that is not live. -/
def releaseRegistry (size : Int) (s : State) : Op → Option (List PtrDetails)
  | Op.destroy i =>
    match s.handle i with
    | some this => some (dtorRelease s.refContainer this)
    | none => none
  | Op.assignAddr i t =>
    match s.handle i with
    | some this => some (assignAddrRelease size s.refContainer this t)
    | none => none
  | Op.assignPointer i j =>
    if i = j then none
    else
      match s.handle i, s.handle j with
      | some this, some rv => some (assignPointerRelease s.refContainer this rv)
      | _, _ => none
  | _ => none

/-- Number of live `Pointer` objects. -/
def liveCount (hs : List (Option Pointer)) : Nat :=
  (hs.filter (fun o => o.isSome)).length

/-- Number of live `Pointer` objects whose `addr` is `a`. -/
def liveAt (hs : List (Option Pointer)) (a : Int) : Nat :=
  (hs.filter (fun o => decide (∃ h, o = some h ∧ h.addr = a))).length

/-- The state after `n` objects `Pointer<T, 0>` have been constructed from the address `1`
(see `run_replicate_constructAddr`). -/
def sameAddrState (n : Nat) : State :=
  { refContainer := [{ refcount := n % UINT_MOD, memPtr := 1, isArray := false, arraySize := 0 }]
    first := false
    exitHooks := 1
    handles := List.replicate n (some { addr := 1, isArray := false, arraySize := 0 })
    deallocs := [] }

/-- The state after `n ≥ 1` objects `Pointer<T, 0>` have been constructed from the pairwise
distinct addresses `1, ..., n`, in this order (see `run_distinctOps`). -/
def distinctState (n : Nat) : State :=
  { refContainer := (List.range n).map
      (fun (k : Nat) => { refcount := 1, memPtr := (k : Int) + 1, isArray := false, arraySize := 0 })
    first := false
    exitHooks := 1
    handles := (List.range n).map
      (fun (k : Nat) => some { addr := (k : Int) + 1, isArray := false, arraySize := 0 })
    deallocs := [] }

/-- The operations `Pointer<T, 0> p1(1), p2(2), ..., pn(n);`. -/
def distinctOps (n : Nat) : List Op :=
  (List.range n).map (fun (k : Nat) => Op.constructAddr ((k : Int) + 1))

/-- The registry `reg` records the counts `c`: record addresses are pairwise distinct and
non-null, each record's `refcount` is the count of its address, and every non-null address
with a positive count has a record. -/
def Tracks (reg : List PtrDetails) (c : Int → Nat) : Prop :=
  (reg.map PtrDetails.memPtr).Nodup ∧
  (∀ r ∈ reg, r.memPtr ≠ 0 ∧ r.refcount = c r.memPtr) ∧
  (∀ a, a ≠ 0 → 1 ≤ c a → ∃ r ∈ reg, r.memPtr = a)

/-- The invariant of the states between two operations: the registry records, for each
address, the number of live `Pointer` objects holding it, and no record has `refcount = 0`. -/
def RefInv (s : State) : Prop :=
  Tracks s.refContainer (liveAt s.handles) ∧ ∀ r ∈ s.refContainer, 1 ≤ r.refcount

/-- The state after `Pointer<T, 0> a(1), b(a), c(2);` (objects named `0`, `1`, `2`). -/
def demoState : State :=
  { refContainer := [{ refcount := 2, memPtr := 1, isArray := false, arraySize := 0 },
                     { refcount := 1, memPtr := 2, isArray := false, arraySize := 0 }]
    first := false
    exitHooks := 1
    handles := [some { addr := 1, isArray := false, arraySize := 0 },
                some { addr := 1, isArray := false, arraySize := 0 },
                some { addr := 2, isArray := false, arraySize := 0 }]
    deallocs := [] }

/-- The state after `Pointer<T, 5> a(100), b;` (objects named `0`, `1`). -/
def arrayDemoState : State :=
  { refContainer := [{ refcount := 1, memPtr := 100, isArray := true, arraySize := 5 }]
    first := false
    exitHooks := 1
    handles := [some { addr := 100, isArray := true, arraySize := 5 },
                some { addr := 0, isArray := false, arraySize := 0 }]
    deallocs := [] }

/-- One construct, assign or destroy operation that leaves fewer than `2^32` live
`Pointer` objects; `none` otherwise. -/
def stepBelow (size : Int) (s : State) (op : Op) : Option State :=
  if op.isLifecycle then
    match step size s op with
    | some s1 => if liveCount s1.handles < UINT_MOD then some s1 else none
    | none => none
  else none

/-- Run a sequence of construct, assign and destroy operations through states with fewer
than `2^32` live `Pointer` objects. -/
def runBelow (size : Int) : State → List Op → Option State
  | s, [] => some s
  | s, op :: ops =>
    match stepBelow size s op with
    | some s1 => runBelow size s1 ops
    | none => none

/-- One public operation, `collect` and `shutdown` included, that leaves fewer than `2^32`
live `Pointer` objects; `none` otherwise. -/
def stepWithin (size : Int) (s : State) (op : Op) : Option State :=
  match step size s op with
  | some s1 => if liveCount s1.handles < UINT_MOD then some s1 else none
  | none => none

/-- Run a sequence of public operations through states with fewer than `2^32` live
`Pointer` objects. -/
def runWithin (size : Int) : State → List Op → Option State
  | s, [] => some s
  | s, op :: ops =>
    match stepWithin size s op with
    | some s1 => runWithin size s1 ops
    | none => none

/-- The registry `reg` stays within the counts `c`: record addresses are pairwise distinct
and non-null, and each record's `refcount` is at most the count of its address. -/
def AtMost (reg : List PtrDetails) (c : Int → Nat) : Prop :=
  (reg.map PtrDetails.memPtr).Nodup ∧ ∀ r ∈ reg, r.memPtr ≠ 0 ∧ r.refcount ≤ c r.memPtr

/-- The invariant of the states between two public operations, explicit `collect` and
`shutdown` included: no record counts more than the live `Pointer` objects holding its
address, and no record has `refcount = 0`. -/
def WeakInv (s : State) : Prop :=
  AtMost s.refContainer (liveAt s.handles) ∧ ∀ r ∈ s.refContainer, 1 ≤ r.refcount

/-! ## `gc_iterator.h` -/

/-- The class `OutOfRangeExc`. -/
structure OutOfRangeExc where
  m_error : String
deriving DecidableEq, Repr

/-- The fields of an `Iter<T>` object; `end_` is the member `end`. -/
structure Iter where
  ptr : Int
  end_ : Int
  begin : Int
  length : Nat
deriving DecidableEq, Repr

/-- The constructor `Iter(T *p, T *first, T *last)`. -/
def Iter.ctor (p first last : Int) : Iter :=
  { ptr := p, end_ := last, begin := first, length := toUnsigned (last - first) }

/-- `Iter::operator*`; `mem` gives the element stored at each address. -/
def Iter.deref {T : Type} (mem : Int → T) (it : Iter) : Except OutOfRangeExc T :=
  if it.ptr ≥ it.end_ ∨ it.ptr < it.begin then
    Except.error { m_error := "Iterator out of range in operator*" }
  else Except.ok (mem it.ptr)

/-- `Iter::operator->`. -/
def Iter.arrow (it : Iter) : Except OutOfRangeExc Int :=
  if it.ptr ≥ it.end_ ∨ it.ptr < it.begin then
    Except.error { m_error := "Iterator out of range in operator->" }
  else Except.ok it.ptr

/-- Whether a result is a thrown `OutOfRangeExc`. -/
def signalsOutOfRange {α : Type} : Except OutOfRangeExc α → Bool
  | Except.error _ => true
  | Except.ok _ => false

/-- `Iter::size`. -/
def Iter.size (it : Iter) : Nat := it.length

/-- Prefix `++`: `ptr++; return *this;`. -/
def Iter.preIncr (it : Iter) : Iter := { it with ptr := it.ptr + 1 }

/-- Postfix `++`: the receiver after the call and the returned `Iter<T>(tmp, begin, end)`. -/
def Iter.postIncr (it : Iter) : Iter × Iter :=
  ({ it with ptr := it.ptr + 1 }, Iter.ctor it.ptr it.begin it.end_)

/-- Postfix `--`: the receiver after the call and the returned `Iter<T>(tmp, begin, end)`. -/
def Iter.postDecr (it : Iter) : Iter × Iter :=
  ({ it with ptr := it.ptr - 1 }, Iter.ctor it.ptr it.begin it.end_)

/-- `Iter::operator==`. -/
def Iter.eq (it op2 : Iter) : Bool := decide (it.ptr = op2.ptr)

/-- `Iter::operator!=`. -/
def Iter.ne (it op2 : Iter) : Bool := decide (it.ptr ≠ op2.ptr)

/-- `Iter::operator<`. -/
def Iter.lt (it op2 : Iter) : Bool := decide (it.ptr < op2.ptr)

/-- `Iter::operator<=`. -/
def Iter.le (it op2 : Iter) : Bool := decide (it.ptr ≤ op2.ptr)

/-- `Iter::operator>`. -/
def Iter.gt (it op2 : Iter) : Bool := decide (it.ptr > op2.ptr)

/-- `Iter::operator>=`. -/
def Iter.ge (it op2 : Iter) : Bool := decide (it.ptr ≥ op2.ptr)

/-- `Iter::operator-(int n)`: `ptr -= n; return *this;`. The receiver after the call and
the returned copy of it. -/
def Iter.subInt (it : Iter) (n : Int) : Iter × Iter :=
  let this : Iter := { it with ptr := it.ptr - n }
  (this, this)

/-- `Iter::operator+(int n)`: `ptr += n; return *this;`. The receiver after the call and
the returned copy of it. -/
def Iter.addInt (it : Iter) (n : Int) : Iter × Iter :=
  let this : Iter := { it with ptr := it.ptr + n }
  (this, this)

/-- `Iter::operator-(Iter<T> &itr2)`: `int operator-(Iter<T> &itr2) { return ptr - itr2.ptr; }`,
the number of elements between two `Iter`s converted to `int`. -/
def Iter.diff (it itr2 : Iter) : Int := toIntWrap (it.ptr - itr2.ptr)

/-- Conversion of an `unsigned` to `int` (two's complement), as in `_size = arraySize`. -/
def toInt (u : Nat) : Int := if u < 2147483648 then (u : Int) else (u : Int) - 4294967296

/-- `Pointer::begin`. -/
def Pointer.begin (h : Pointer) : Iter :=
  let _size : Int := if h.isArray then toInt h.arraySize else 1
  Iter.ctor h.addr h.addr (h.addr + _size)

/-- `Pointer::end`. -/
def Pointer.end_ (h : Pointer) : Iter :=
  let _size : Int := if h.isArray then toInt h.arraySize else 1
  Iter.ctor (h.addr + _size) h.addr (h.addr + _size)

/-- The fields of a `Pointer` object are those its constructors and assignments can give it
when the template argument `size` is an `int`: an array length fits in an `int`. -/
def Pointer.WellFormed (h : Pointer) : Prop :=
  h.arraySize < 4294967296 ∧ (h.isArray = true → h.arraySize < 2147483648)

/-! ## Basic facts about the registry -/

theorem updateAt_length (f : PtrDetails → PtrDetails) (reg : List PtrDetails) (i : Nat) :
    (updateAt f reg i).length = reg.length := by
  induction reg generalizing i with
  | nil => rfl
  | cons p rest ih => cases i <;> simp [updateAt, ih]

theorem updateAt_map_memPtr (f : PtrDetails → PtrDetails)
    (hf : ∀ p, (f p).memPtr = p.memPtr) (reg : List PtrDetails) (i : Nat) :
    (updateAt f reg i).map PtrDetails.memPtr = reg.map PtrDetails.memPtr := by
  induction reg generalizing i with
  | nil => rfl
  | cons p rest ih => cases i <;> simp [updateAt, ih, hf]

theorem findPtrInfo_eq_none {reg : List PtrDetails} {a : Int} :
    findPtrInfo reg a = none ↔ ∀ r ∈ reg, r.memPtr ≠ a := by
  induction reg with
  | nil => simp [findPtrInfo]
  | cons p rest ih =>
    by_cases hp : p.memPtr = a
    · simp [findPtrInfo, hp]
    · simp [findPtrInfo, hp, ih]

/-- With pairwise distinct addresses, a write through the iterator returned by
`findPtrInfo` changes exactly the records whose address is the one looked up. -/
theorem updateAt_find_eq_map (f : PtrDetails → PtrDetails) {reg : List PtrDetails} {a : Int}
    {i : Nat} (hnd : (reg.map PtrDetails.memPtr).Nodup) (hi : findPtrInfo reg a = some i) :
    updateAt f reg i = reg.map (fun r => if r.memPtr = a then f r else r) := by
  induction reg generalizing i with
  | nil => simp [findPtrInfo] at hi
  | cons p rest ih =>
    simp only [List.map_cons, List.nodup_cons, List.mem_map, not_exists, not_and] at hnd
    by_cases hp : p.memPtr = a
    · simp only [findPtrInfo, hp, if_true, Option.some.injEq] at hi
      subst hi
      have hrest : rest.map (fun r => if r.memPtr = a then f r else r) = rest := by
        conv_rhs => rw [← List.map_id rest]
        apply List.map_congr_left
        intro r hr
        have : r.memPtr ≠ a := fun h => hnd.1 r hr (by rw [h, hp])
        simp [this]
      simp [updateAt, hp, hrest]
    · simp only [findPtrInfo, hp, if_false, Option.map_eq_some'] at hi
      obtain ⟨j, hj, rfl⟩ := hi
      simp [updateAt, hp, ih hnd.2 hj]

theorem collectLoop_eq (scanned : List PtrDetails) (b : Bool) (log : List Dealloc)
    (reg : List PtrDetails) :
    collectLoop scanned b log reg =
      { kept := scanned ++ reg.filter (fun p => decide (0 < p.refcount))
        memFreed := b || reg.any (fun p => decide (p.refcount = 0))
        log := log ++ (reg.filter (fun p => decide (p.refcount = 0))).map
          (fun p => if p.isArray then Dealloc.arrayDelete p.memPtr
                    else Dealloc.scalarDelete p.memPtr) } := by
  induction reg generalizing scanned b log with
  | nil => simp [collectLoop]
  | cons p rest ih =>
    by_cases hp : p.refcount = 0
    · simp [collectLoop, hp, ih]
    · have hpos : 0 < p.refcount := Nat.pos_of_ne_zero hp
      have hle : ¬ p.refcount ≤ 0 := by omega
      simp [collectLoop, hp, hpos, ih]

theorem collectRegistry_kept (reg : List PtrDetails) :
    (collectRegistry reg).kept = reg.filter (fun p => decide (0 < p.refcount)) := by
  simp [collectRegistry, collectLoop_eq]

theorem filter_map_memPtr_nodup {reg : List PtrDetails} (q : PtrDetails → Bool)
    (hnd : (reg.map PtrDetails.memPtr).Nodup) :
    ((reg.filter q).map PtrDetails.memPtr).Nodup :=
  List.Nodup.sublist ((List.filter_sublist reg).map PtrDetails.memPtr) hnd

theorem append_ctor_nodup {reg : List PtrDetails} {t : Int} (n : Nat)
    (hnd : (reg.map PtrDetails.memPtr).Nodup) (hfind : findPtrInfo reg t = none) :
    ((reg ++ [PtrDetails.ctor t n]).map PtrDetails.memPtr).Nodup := by
  rw [findPtrInfo_eq_none] at hfind
  rw [List.map_append, List.nodup_append]
  refine ⟨hnd, by simp, ?_⟩
  intro x hx hy
  simp only [List.map_cons, List.map_nil, List.mem_singleton, PtrDetails.ctor] at hy
  obtain ⟨r, hr, rfl⟩ := List.mem_map.1 hx
  exact hfind r hr hy

theorem incr_memPtr (p : PtrDetails) : p.incr.memPtr = p.memPtr := by
  simp only [PtrDetails.incr]

theorem decr_memPtr (p : PtrDetails) : p.decr.memPtr = p.memPtr := by
  simp only [PtrDetails.decr]

theorem ctorAddrRegistry_nodup (size : Int) {reg : List PtrDetails} (t : Int)
    (hnd : (reg.map PtrDetails.memPtr).Nodup) :
    ((ctorAddrRegistry size reg t).map PtrDetails.memPtr).Nodup := by
  unfold ctorAddrRegistry
  split
  · cases hfind : findPtrInfo reg t with
    | none => exact append_ctor_nodup _ hnd hfind
    | some i => simpa [updateAt_map_memPtr _ incr_memPtr] using hnd
  · exact hnd

theorem ctorCopyRegistry_nodup {reg : List PtrDetails} (ob : Pointer)
    (hnd : (reg.map PtrDetails.memPtr).Nodup) :
    ((ctorCopyRegistry reg ob).map PtrDetails.memPtr).Nodup := by
  unfold ctorCopyRegistry
  cases hfind : findPtrInfo reg ob.addr with
  | none => exact hnd
  | some i => simpa [updateAt_map_memPtr _ incr_memPtr] using hnd

theorem dtorRelease_map_memPtr (reg : List PtrDetails) (this : Pointer) :
    (dtorRelease reg this).map PtrDetails.memPtr = reg.map PtrDetails.memPtr := by
  unfold dtorRelease
  split
  · cases hfind : findPtrInfo reg this.addr with
    | none => rfl
    | some i => simp [updateAt_map_memPtr _ decr_memPtr]
  · rfl

theorem assignAddrRelease_nodup (size : Int) {reg : List PtrDetails} (this : Pointer) (t : Int)
    (hnd : (reg.map PtrDetails.memPtr).Nodup) :
    ((assignAddrRelease size reg this t).map PtrDetails.memPtr).Nodup := by
  have h1 := ctorAddrRegistry_nodup size t
    (by rw [dtorRelease_map_memPtr reg this]; exact hnd :
      ((dtorRelease reg this).map PtrDetails.memPtr).Nodup)
  exact h1

theorem assignPointerRelease_map_memPtr (reg : List PtrDetails) (this rv : Pointer) :
    (assignPointerRelease reg this rv).map PtrDetails.memPtr = reg.map PtrDetails.memPtr := by
  have h1 := dtorRelease_map_memPtr reg this
  unfold dtorRelease at h1
  unfold assignPointerRelease
  simp only []
  split
  · split
    · rw [updateAt_map_memPtr _ incr_memPtr, h1]
    · exact h1
  · exact h1

theorem zeroAll_map_memPtr (reg : List PtrDetails) :
    (zeroAll reg).map PtrDetails.memPtr = reg.map PtrDetails.memPtr := by
  simp [zeroAll, Function.comp_def]

theorem collect_refContainer (s : State) :
    (collect s).1.refContainer = s.refContainer.filter (fun p => decide (0 < p.refcount)) := by
  simp [collect, collectRegistry_kept]

/-- C2. Every public operation keeps the addresses of the records of the registry pairwise
distinct: if no two records of `refContainer` share their `memPtr` before the operation,
no two do after it. -/
theorem step_preserves_distinct_addresses (size : Int) (s s1 : State) (op : Op)
    (hstep : step size s op = some s1)
    (hnd : (s.refContainer.map PtrDetails.memPtr).Nodup) :
    (s1.refContainer.map PtrDetails.memPtr).Nodup := by
  cases op with
  | constructEmpty =>
    simp only [step, Option.some.injEq] at hstep
    subst hstep
    exact hnd
  | constructAddr t =>
    simp only [step, Option.some.injEq] at hstep
    subst hstep
    exact ctorAddrRegistry_nodup size t hnd
  | copyConstruct ob =>
    simp only [step] at hstep
    cases hob : s.handle ob with
    | none => simp [hob] at hstep
    | some o =>
      simp only [hob, Option.some.injEq] at hstep
      subst hstep
      exact ctorCopyRegistry_nodup o hnd
  | destroy i =>
    simp only [step] at hstep
    cases hi : s.handle i with
    | none => simp [hi] at hstep
    | some this =>
      simp only [hi, Option.some.injEq] at hstep
      subst hstep
      rw [destroy, collect_refContainer]
      apply filter_map_memPtr_nodup
      rw [dtorRelease_map_memPtr]
      exact hnd
  | assignAddr i t =>
    simp only [step] at hstep
    cases hi : s.handle i with
    | none => simp [hi] at hstep
    | some this =>
      simp only [hi, Option.some.injEq] at hstep
      subst hstep
      rw [assignAddr, collect_refContainer]
      exact filter_map_memPtr_nodup _ (assignAddrRelease_nodup size this t hnd)
  | assignPointer i j =>
    simp only [step] at hstep
    cases hi : s.handle i with
    | none => simp [hi] at hstep
    | some this =>
      cases hj : s.handle j with
      | none => simp [hi, hj] at hstep
      | some rv =>
        simp only [hi, hj, Option.some.injEq] at hstep
        subst hstep
        unfold assignPointer
        split
        · exact hnd
        · rw [collect_refContainer]
          apply filter_map_memPtr_nodup
          rw [assignPointerRelease_map_memPtr]
          exact hnd
  | collect =>
    simp only [step, Option.some.injEq] at hstep
    subst hstep
    rw [collect_refContainer]
    exact filter_map_memPtr_nodup _ hnd
  | shutdown =>
    simp only [step, Option.some.injEq] at hstep
    subst hstep
    unfold shutdown
    split
    · exact hnd
    · rw [collect_refContainer]
      apply filter_map_memPtr_nodup
      rw [zeroAll_map_memPtr]
      exact hnd

theorem step_preserves_distinct_addresses_witness :
    run 0 State.init [Op.constructAddr 1, Op.copyConstruct 0, Op.constructAddr 2] =
        some demoState ∧
      (demoState.refContainer.map PtrDetails.memPtr).Nodup ∧
      ((assignAddr 0 demoState 2 { addr := 2, isArray := false, arraySize := 0 }
        3).refContainer.map PtrDetails.memPtr).Nodup :=
  ⟨by decide, by decide,
    step_preserves_distinct_addresses 0 demoState _ (Op.assignAddr 2 3) (by decide)
      (by decide)⟩

theorem findPtrInfo_eq_some {reg : List PtrDetails} {a : Int} {i : Nat}
    (h : findPtrInfo reg a = some i) :
    ∃ r, reg[i]? = some r ∧ r.memPtr = a ∧
      (∀ j r1, j < i → reg[j]? = some r1 → r1.memPtr ≠ a) ∧
      ∀ f, updateAt f reg i = reg.set i (f r) := by
  induction reg generalizing i with
  | nil => simp [findPtrInfo] at h
  | cons p rest ih =>
    by_cases hp : p.memPtr = a
    · simp only [findPtrInfo, hp, if_true, Option.some.injEq] at h
      subst h
      exact ⟨p, by simp, hp, by intro j r1 hj; omega, by intro f; simp [updateAt]⟩
    · simp only [findPtrInfo, hp, if_false, Option.map_eq_some'] at h
      obtain ⟨k, hk, rfl⟩ := h
      obtain ⟨r, hr, hra, hmin, hupd⟩ := ih hk
      refine ⟨r, by simpa using hr, hra, ?_, by intro f; simp [updateAt, hupd f]⟩
      intro j r1 hj hr1
      cases j with
      | zero =>
        simp only [List.getElem?_cons_zero, Option.some.injEq] at hr1
        subst hr1
        exact hp
      | succ j => exact hmin j r1 (by omega) (by simpa using hr1)

theorem findPtrInfo_isSome_of_mem {reg : List PtrDetails} {a : Int}
    (h : ∃ r ∈ reg, r.memPtr = a) : ∃ i, findPtrInfo reg a = some i := by
  cases hfind : findPtrInfo reg a with
  | some i => exact ⟨i, rfl⟩
  | none =>
    obtain ⟨r, hr, hra⟩ := h
    exact absurd hra (findPtrInfo_eq_none.1 hfind r hr)

theorem ctorAddrRegistry_of_find_none (size : Int) {reg : List PtrDetails} {a : Int}
    (ha : a ≠ 0) (hnone : ∀ r ∈ reg, r.memPtr ≠ a) :
    ctorAddrRegistry size reg a = reg ++ [PtrDetails.ctor a (toUnsigned size)] := by
  simp [ctorAddrRegistry, ha, findPtrInfo_eq_none.2 hnone]

theorem toUnsigned_zero : toUnsigned 0 = 0 := by
  simp [toUnsigned]

theorem constructAddr_init : constructAddr 0 State.init 1 = sameAddrState 1 := by
  simp [constructAddr, State.init, registerExit, ctorAddrRegistry, findPtrInfo, sameAddrState,
    PtrDetails.ctor, toUnsigned_zero, UINT_MOD]

theorem constructAddr_sameAddrState (n : Nat) :
    constructAddr 0 (sameAddrState n) 1 = sameAddrState (n + 1) := by
  have hmod : (n % UINT_MOD + 1) % UINT_MOD = (n + 1) % UINT_MOD := by
    simp only [UINT_MOD]
    omega
  simp [constructAddr, sameAddrState, registerExit, ctorAddrRegistry, findPtrInfo, updateAt,
    PtrDetails.incr, toUnsigned_zero, hmod, List.replicate_succ']

theorem run_sameAddrState (n k : Nat) :
    run 0 (sameAddrState n) (List.replicate k (Op.constructAddr 1)) =
      some (sameAddrState (n + k)) := by
  induction k generalizing n with
  | zero => simp [run]
  | succ k ih =>
    rw [List.replicate_succ, run]
    simp only [step, constructAddr_sameAddrState]
    rw [ih (n + 1)]
    congr 2
    omega

theorem run_replicate_constructAddr (k : Nat) :
    run 0 State.init (List.replicate (k + 1) (Op.constructAddr 1)) =
      some (sameAddrState (k + 1)) := by
  rw [List.replicate_succ, run]
  simp only [step, constructAddr_init]
  rw [run_sameAddrState 1 k]
  congr 2
  omega

theorem liveAt_replicate (n : Nat) (h : Pointer) :
    liveAt (List.replicate n (some h)) h.addr = n := by
  induction n with
  | zero => simp [liveAt]
  | succ n ih =>
    simp only [liveAt] at ih
    simp [liveAt, List.replicate_succ, ih]

theorem sameAddrState_refContainer (n : Nat) :
    (sameAddrState n).refContainer =
      [{ refcount := n % UINT_MOD, memPtr := 1, isArray := false, arraySize := 0 }] := rfl

theorem sameAddrState_handle_zero (n : Nat) :
    (sameAddrState (n + 1)).handle 0 = some { addr := 1, isArray := false, arraySize := 0 } := by
  simp [State.handle, sameAddrState, List.replicate_succ]

theorem findPtrInfo_append_ctor {reg : List PtrDetails} {a : Int} (n : Nat)
    (hnone : ∀ r ∈ reg, r.memPtr ≠ a) :
    findPtrInfo (reg ++ [PtrDetails.ctor a n]) a = some reg.length := by
  induction reg with
  | nil => simp [findPtrInfo, PtrDetails.ctor]
  | cons p rest ih =>
    have hp : p.memPtr ≠ a := hnone p (by simp)
    have hrest := ih (fun r hr => hnone r (by simp [hr]))
    simp [findPtrInfo, hp, hrest]

theorem updateAt_append_length (f : PtrDetails → PtrDetails) (reg : List PtrDetails)
    (x : PtrDetails) : updateAt f (reg ++ [x]) reg.length = reg ++ [f x] := by
  induction reg with
  | nil => simp [updateAt]
  | cons p rest ih => simp [updateAt, ih]

/-- C3, as stated, fails: after `2^32 - 1` objects have been constructed from the address
`1`, its record has `refcount = 2^32 - 1`, and constructing one more object from that
address leaves the record with `refcount = 0`, not `2^32`. -/
theorem constructAddr_increment_wraps :
    run 0 State.init (List.replicate 4294967295 (Op.constructAddr 1)) =
        some (sameAddrState 4294967295) ∧
      (sameAddrState 4294967295).refContainer =
        [{ refcount := 4294967295, memPtr := 1, isArray := false, arraySize := 0 }] ∧
      (constructAddr 0 (sameAddrState 4294967295) 1).refContainer =
        [{ refcount := 0, memPtr := 1, isArray := false, arraySize := 0 }] := by
  refine ⟨?_, ?_, ?_⟩
  · have h := run_replicate_constructAddr 4294967294
    simpa only [Nat.reduceAdd] using h
  · rw [sameAddrState_refContainer]
    simp only [UINT_MOD, Nat.reduceMod]
  · rw [constructAddr_sameAddrState, sameAddrState_refContainer]
    simp only [UINT_MOD, Nat.reduceAdd, Nat.reduceMod]

/-- C3, amended. `Pointer(T *t)` with `t` non-null: if the registry has a record for `t`,
the registry keeps its length, the first record for `t` gets `refcount + 1` modulo `2^32`
(which is `refcount + 1` when `refcount + 1 < 2^32`) and no other record changes; if it has
none, the record `(refcount 1, t, size > 0, size)` is appended and the earlier records are
unchanged. Two constructions over an untracked address give one record, of refcount 2. -/
theorem constructAddr_registry (size : Int) (s : State) (a : Int) (ha : a ≠ 0) :
    ((∃ r ∈ s.refContainer, r.memPtr = a) →
      ∃ i r, s.refContainer[i]? = some r ∧ r.memPtr = a ∧
        (∀ j r1, j < i → s.refContainer[j]? = some r1 → r1.memPtr ≠ a) ∧
        (constructAddr size s a).refContainer =
          s.refContainer.set i { r with refcount := (r.refcount + 1) % UINT_MOD } ∧
        (r.refcount + 1 < UINT_MOD → (r.refcount + 1) % UINT_MOD = r.refcount + 1) ∧
        refContainerSize (constructAddr size s a).refContainer =
          refContainerSize s.refContainer) ∧
    ((∀ r ∈ s.refContainer, r.memPtr ≠ a) →
      (constructAddr size s a).refContainer =
          s.refContainer ++ [{ refcount := 1, memPtr := a,
                               isArray := decide (toUnsigned size > 0),
                               arraySize := toUnsigned size }] ∧
        (constructAddr size (constructAddr size s a) a).refContainer =
          s.refContainer ++ [{ refcount := 2, memPtr := a,
                               isArray := decide (toUnsigned size > 0),
                               arraySize := toUnsigned size }]) := by
  constructor
  · intro hmem
    obtain ⟨i, hi⟩ := findPtrInfo_isSome_of_mem hmem
    obtain ⟨r, hr, hra, hmin, hupd⟩ := findPtrInfo_eq_some hi
    refine ⟨i, r, hr, hra, hmin, ?_, fun h => Nat.mod_eq_of_lt h, ?_⟩
    · simp [constructAddr, registerExit, ctorAddrRegistry, ha, hi, hupd, PtrDetails.incr]
    · simp [constructAddr, registerExit, ctorAddrRegistry, ha, hi, hupd, refContainerSize]
  · intro hnone
    have h1 : (constructAddr size s a).refContainer =
        s.refContainer ++ [PtrDetails.ctor a (toUnsigned size)] := by
      simp [constructAddr, registerExit, ctorAddrRegistry_of_find_none size ha hnone]
    refine ⟨by rw [h1]; rfl, ?_⟩
    have h2 : (constructAddr size (constructAddr size s a) a).refContainer =
        ctorAddrRegistry size (constructAddr size s a).refContainer a := by
      simp [constructAddr, registerExit]
    rw [h2, h1]
    simp only [ctorAddrRegistry, ha, ne_eq, not_false_eq_true, if_true,
      findPtrInfo_append_ctor _ hnone, updateAt_append_length]
    simp [PtrDetails.incr, PtrDetails.ctor, UINT_MOD]

theorem constructAddr_registry_witness :
    (1 : Int) ≠ 0 ∧
      (constructAddr 0 (constructAddr 0 State.init 1) 1).refContainer =
        State.init.refContainer ++
          [{ refcount := 2, memPtr := 1, isArray := decide (toUnsigned 0 > 0),
             arraySize := toUnsigned 0 }] :=
  ⟨by decide, ((constructAddr_registry 0 State.init 1 (by decide)).2 (by decide)).2⟩

/-- C5. For every state, whatever the number of records and their reference counts,
`refContainerSize()` is `0` after `shutdown()`. -/
theorem shutdown_registry_empty (s : State) :
    refContainerSize (shutdown s).refContainer = 0 := by
  unfold shutdown
  split
  · assumption
  · rw [collect_refContainer]
    have hnil : (zeroAll s.refContainer).filter (fun p => decide (0 < p.refcount)) = [] := by
      simp [zeroAll, List.filter_eq_nil_iff]
    rw [hnil]
    decide

/-- C6. `collect()` leaves exactly the records with `refcount > 0`, in their order; it
returns `true` exactly when some record had `refcount = 0`; and it performs, in order, one
deallocation per record with `refcount = 0`: `delete[]` if the record's stored `isArray`
is true, `delete` otherwise. -/
theorem collect_sweeps_zero_records (s : State) :
    (collect s).1.refContainer = s.refContainer.filter (fun p => decide (0 < p.refcount)) ∧
    ((collect s).2 = true ↔ ∃ p ∈ s.refContainer, p.refcount = 0) ∧
    (collect s).1.deallocs = s.deallocs ++
      (s.refContainer.filter (fun p => decide (p.refcount = 0))).map
        (fun p => if p.isArray = true then Dealloc.arrayDelete p.memPtr
                  else Dealloc.scalarDelete p.memPtr) ∧
    (collect s).1.handles = s.handles := by
  refine ⟨collect_refContainer s, ?_, ?_, rfl⟩
  · simp [collect, collectRegistry, collectLoop_eq]
  · simp [collect, collectRegistry, collectLoop_eq]

/-- C7. `operator*` and `operator->` throw `OutOfRangeExc` exactly when `ptr < begin` or
`ptr >= end`; otherwise they yield the element at `ptr`, resp. `ptr`. For the `Iter` over
`[b, b + len)` positioned at `b + k`, they succeed exactly when `0 <= k < len`. -/
theorem iter_dereference_bounds {T : Type} (mem : Int → T) :
    (∀ it : Iter,
      (signalsOutOfRange (it.deref mem) = true ↔ (it.ptr < it.begin ∨ it.ptr ≥ it.end_)) ∧
      (signalsOutOfRange it.arrow = true ↔ (it.ptr < it.begin ∨ it.ptr ≥ it.end_)) ∧
      ((it.begin ≤ it.ptr ∧ it.ptr < it.end_) →
        it.deref mem = Except.ok (mem it.ptr) ∧ it.arrow = Except.ok it.ptr)) ∧
    (∀ (b : Int) (len : Nat) (k : Int),
      ((Iter.ctor (b + k) b (b + len)).deref mem = Except.ok (mem (b + k)) ↔
        (0 ≤ k ∧ k < len)) ∧
      ((Iter.ctor (b + k) b (b + len)).arrow = Except.ok (b + k) ↔ (0 ≤ k ∧ k < len)) ∧
      (signalsOutOfRange ((Iter.ctor (b + k) b (b + len)).deref mem) = true ↔
        ¬ (0 ≤ k ∧ k < len))) := by
  constructor
  · intro it
    refine ⟨?_, ?_, ?_⟩
    · unfold Iter.deref
      split
      · simp only [signalsOutOfRange, true_iff]; omega
      · simp only [signalsOutOfRange, Bool.false_eq_true, false_iff]; omega
    · unfold Iter.arrow
      split
      · simp only [signalsOutOfRange, true_iff]; omega
      · simp only [signalsOutOfRange, Bool.false_eq_true, false_iff]; omega
    · intro h
      have hn : ¬ (it.ptr ≥ it.end_ ∨ it.ptr < it.begin) := by omega
      simp [Iter.deref, Iter.arrow, hn]
  · intro b len k
    by_cases h : 0 ≤ k ∧ k < (len : Int)
    · have hn : ¬ (b + k ≥ b + (len : Int) ∨ b + k < b) := by omega
      simp only [Iter.deref, Iter.arrow, Iter.ctor, hn, if_false, signalsOutOfRange, h,
        and_self, iff_true, not_true_eq_false, iff_false, Bool.false_eq_true,
        not_false_eq_true]
    · have hy : b + k ≥ b + (len : Int) ∨ b + k < b := by omega
      simp only [Iter.deref, Iter.arrow, Iter.ctor, hy, if_true, signalsOutOfRange, h,
        iff_false, not_false_eq_true, iff_true, reduceCtorEq, and_self]

theorem iter_dereference_bounds_witness :
    (Iter.ctor (10 + 2) 10 (10 + (5 : Nat))).deref (fun a => a) = Except.ok (10 + 2) ∧
      signalsOutOfRange ((Iter.ctor (10 + 5) 10 (10 + (5 : Nat))).deref (fun a => a)) = true :=
  ⟨((iter_dereference_bounds (fun a => a)).2 10 5 2).1.2 (by decide),
    ((iter_dereference_bounds (fun a => a)).2 10 5 5).2.2.2 (by decide)⟩

/-- C8. The self-assignment `h = h` of a live `Pointer` returns at once: the whole state
(every record of the registry, `refContainerSize()`, the fields of `h` and of every other
object) is unchanged. -/
theorem assign_self_unchanged (size : Int) (s : State) (i : Nat) (h : Pointer)
    (hi : s.handle i = some h) :
    ∃ s1, step size s (Op.assignPointer i i) = some s1 ∧
      s1.refContainer = s.refContainer ∧
      refContainerSize s1.refContainer = refContainerSize s.refContainer ∧
      s1.handle i = some h ∧ s1 = s := by
  refine ⟨s, ?_, rfl, rfl, hi, rfl⟩
  simp [step, hi, assignPointer]

theorem assign_self_unchanged_witness :
    demoState.handle 1 = some { addr := 1, isArray := false, arraySize := 0 } ∧
      ∃ s1, step 0 demoState (Op.assignPointer 1 1) = some s1 ∧
        s1.refContainer = demoState.refContainer ∧
        refContainerSize s1.refContainer = refContainerSize demoState.refContainer ∧
        s1.handle 1 = some { addr := 1, isArray := false, arraySize := 0 } ∧ s1 = demoState :=
  ⟨by decide, assign_self_unchanged 0 demoState 1 _ (by decide)⟩

theorem updateAt_incr_getElem? (reg : List PtrDetails) (i j : Nat) (r : PtrDetails)
    (h : reg[j]? = some r) :
    ∃ r1, (updateAt PtrDetails.incr reg i)[j]? = some r1 ∧ r1.memPtr = r.memPtr ∧
      r1.isArray = r.isArray ∧ r1.arraySize = r.arraySize ∧
      (r1.refcount = r.refcount ∨ r1.refcount = (r.refcount + 1) % UINT_MOD) := by
  induction reg generalizing i j with
  | nil => simp at h
  | cons p rest ih =>
    cases i with
    | zero =>
      cases j with
      | zero =>
        simp only [List.getElem?_cons_zero, Option.some.injEq] at h
        subst h
        exact ⟨p.incr, by simp [updateAt], rfl, rfl, rfl, Or.inr rfl⟩
      | succ j => exact ⟨r, by simpa [updateAt] using h, rfl, rfl, rfl, Or.inl rfl⟩
    | succ i =>
      cases j with
      | zero => exact ⟨r, by simpa [updateAt] using h, rfl, rfl, rfl, Or.inl rfl⟩
      | succ j =>
        obtain ⟨r1, h1, h2⟩ := ih i j (by simpa using h)
        exact ⟨r1, by simpa [updateAt] using h1, h2⟩

theorem append_getElem?_of_some {reg : List PtrDetails} (x : PtrDetails) {j : Nat}
    {r : PtrDetails} (h : reg[j]? = some r) : (reg ++ [x])[j]? = some r := by
  have hj : j < reg.length := by
    by_contra hc
    rw [List.getElem?_eq_none (by omega)] at h
    simp at h
  rw [List.getElem?_append_left hj]
  exact h

/-! ## Many records: the `int` returned by `refContainerSize` -/

theorem run_append (size : Int) (s : State) (ops1 ops2 : List Op) :
    run size s (ops1 ++ ops2) = (run size s ops1).bind (fun s1 => run size s1 ops2) := by
  induction ops1 generalizing s with
  | nil => simp [run]
  | cons op ops ih =>
    simp only [List.cons_append, run]
    cases step size s op with
    | none => simp
    | some s1 => exact ih s1

theorem distinctState_length (n : Nat) : (distinctState n).refContainer.length = n := by
  simp [distinctState]

theorem constructAddr_distinctState (n : Nat) (t : Int) (ht : t = (n : Int) + 2) :
    constructAddr 0 (distinctState (n + 1)) t = distinctState (n + 2) := by
  subst ht
  have hne : ((n : Int) + 2) ≠ 0 := by omega
  have hnone : findPtrInfo (distinctState (n + 1)).refContainer ((n : Int) + 2) = none := by
    rw [findPtrInfo_eq_none]
    intro r hr
    simp only [distinctState, List.mem_map, List.mem_range] at hr
    obtain ⟨k, hk, rfl⟩ := hr
    simp only
    omega
  have hreg : ctorAddrRegistry 0 (distinctState (n + 1)).refContainer ((n : Int) + 2) =
      (distinctState (n + 2)).refContainer := by
    rw [ctorAddrRegistry_of_find_none 0 hne (findPtrInfo_eq_none.1 hnone)]
    simp only [distinctState]
    rw [List.range_succ (n + 1), List.map_append]
    simp only [List.map_cons, List.map_nil, PtrDetails.ctor, toUnsigned_zero]
    congr 2
  have hh : (distinctState (n + 1)).handles ++
        [some { addr := (n : Int) + 2, isArray := decide ((0 : Int) > 0),
                arraySize := toUnsigned 0 }] =
      (distinctState (n + 2)).handles := by
    simp only [distinctState]
    rw [List.range_succ (n + 1), List.map_append]
    simp only [List.map_cons, List.map_nil, toUnsigned_zero]
    congr 3
  have e : constructAddr 0 (distinctState (n + 1)) ((n : Int) + 2) =
      { refContainer := ctorAddrRegistry 0 (distinctState (n + 1)).refContainer ((n : Int) + 2)
        first := false
        exitHooks := 1
        handles := (distinctState (n + 1)).handles ++
          [some { addr := (n : Int) + 2, isArray := decide ((0 : Int) > 0),
                  arraySize := toUnsigned 0 }]
        deallocs := [] } := rfl
  rw [e, hreg, hh]
  rfl

theorem run_distinctOps (n : Nat) :
    run 0 State.init (distinctOps (n + 1)) = some (distinctState (n + 1)) := by
  induction n with
  | zero => decide
  | succ n ih =>
    have hops : distinctOps (n + 1 + 1) =
        distinctOps (n + 1) ++ [Op.constructAddr (((n + 1 : Nat) : Int) + 1)] := by
      simp only [distinctOps]
      rw [List.range_succ (n + 1), List.map_append]
      rfl
    rw [hops, run_append, ih]
    simp only [Option.bind, run, step]
    rw [constructAddr_distinctState n _ (by push_cast; omega)]

/-- C9, as stated, fails: after `2^32 - 1` objects have been constructed from the address
`1`, the record at position 0 has `refcount = 2^32 - 1`; constructing one more object from
that address, or copy-constructing from the object named `0`, leaves the record at position
0 with `refcount = 0`, which is smaller. Moreover, after `2^31 - 1` objects have been
constructed from the addresses `1, ..., 2^31 - 1`, constructing one from the address `2^31`
appends a record, and `refContainerSize()` goes from `2147483647` to `-2147483648`. -/
theorem construct_refcount_can_drop :
    run 0 State.init (List.replicate 4294967295 (Op.constructAddr 1)) =
        some (sameAddrState 4294967295) ∧
      (sameAddrState 4294967295).refContainer[0]? =
        some { refcount := 4294967295, memPtr := 1, isArray := false, arraySize := 0 } ∧
      (∃ s1, step 0 (sameAddrState 4294967295) (Op.constructAddr 1) = some s1 ∧
        s1.refContainer[0]? =
          some { refcount := 0, memPtr := 1, isArray := false, arraySize := 0 }) ∧
      (∃ s1, step 0 (sameAddrState 4294967295) (Op.copyConstruct 0) = some s1 ∧
        s1.refContainer[0]? =
          some { refcount := 0, memPtr := 1, isArray := false, arraySize := 0 }) ∧
      (run 0 State.init (distinctOps 2147483647) = some (distinctState 2147483647) ∧
        step 0 (distinctState 2147483647) (Op.constructAddr 2147483648) =
          some (distinctState 2147483648) ∧
        refContainerSize (distinctState 2147483647).refContainer = 2147483647 ∧
        refContainerSize (distinctState 2147483648).refContainer = -2147483648) := by
  refine ⟨?_, ?_, ?_, ?_, ⟨?_, ?_, ?_, ?_⟩⟩
  · have h := run_replicate_constructAddr 4294967294
    simpa only [Nat.reduceAdd] using h
  · rw [sameAddrState_refContainer]
    simp only [UINT_MOD, Nat.reduceMod, List.getElem?_cons_zero]
  · refine ⟨constructAddr 0 (sameAddrState 4294967295) 1, by simp only [step], ?_⟩
    rw [constructAddr_sameAddrState, sameAddrState_refContainer]
    simp only [UINT_MOD, Nat.reduceAdd, Nat.reduceMod, List.getElem?_cons_zero]
  · have hh : (sameAddrState 4294967295).handle 0 =
        some { addr := 1, isArray := false, arraySize := 0 } := by
      have h := sameAddrState_handle_zero 4294967294
      simpa only [Nat.reduceAdd] using h
    refine ⟨copyConstruct (sameAddrState 4294967295)
      { addr := 1, isArray := false, arraySize := 0 }, by simp only [step, hh], ?_⟩
    have hreg : (copyConstruct (sameAddrState 4294967295)
        { addr := 1, isArray := false, arraySize := 0 }).refContainer =
        ctorCopyRegistry (sameAddrState 4294967295).refContainer
          { addr := 1, isArray := false, arraySize := 0 } := rfl
    rw [hreg, sameAddrState_refContainer]
    simp [ctorCopyRegistry, findPtrInfo, updateAt, PtrDetails.incr, UINT_MOD]
  · have h := run_distinctOps 2147483646
    simpa only [Nat.reduceAdd] using h
  · have h := constructAddr_distinctState 2147483646 2147483648 (by decide)
    simp only [Nat.reduceAdd] at h
    simp only [step, h]
  · simp only [refContainerSize, distinctState_length]
    decide
  · simp only [refContainerSize, distinctState_length]
    decide

/-- C9, amended. `Pointer()`, `Pointer(T *)` and the copy constructor erase and reclaim
nothing: every record is still at its position afterwards with the same address, `isArray`
and `arraySize`, the number of records does not decrease and no deallocation is performed.
`refContainerSize()` does not decrease either, unless the call appends a record to a
registry that holds `2^31 - 1` records (modulo `2^32`), which wraps the returned `int`.
The record's `refcount` is unchanged or incremented modulo `2^32`; it is at least as large
as before whenever it was below `2^32 - 1`. -/
theorem construct_never_erases (size : Int) (s s1 : State) (op : Op)
    (hop : op = Op.constructEmpty ∨ (∃ t, op = Op.constructAddr t) ∨
      ∃ ob, op = Op.copyConstruct ob)
    (hstep : step size s op = some s1) :
    s.refContainer.length ≤ s1.refContainer.length ∧
    (¬ (s1.refContainer.length = s.refContainer.length + 1 ∧
        s.refContainer.length % 4294967296 = 2147483647) →
      refContainerSize s.refContainer ≤ refContainerSize s1.refContainer) ∧
    s1.deallocs = s.deallocs ∧
    ∀ (i : Nat) (r : PtrDetails), s.refContainer[i]? = some r →
      ∃ r1, s1.refContainer[i]? = some r1 ∧ r1.memPtr = r.memPtr ∧
        r1.isArray = r.isArray ∧ r1.arraySize = r.arraySize ∧
        (r1.refcount = r.refcount ∨ r1.refcount = (r.refcount + 1) % UINT_MOD) ∧
        (r.refcount + 1 < UINT_MOD → r.refcount ≤ r1.refcount) := by
  have key : ∀ reg1 : List PtrDetails,
      (reg1 = s.refContainer ∨ (∃ p, reg1 = updateAt PtrDetails.incr s.refContainer p) ∨
        ∃ x, reg1 = s.refContainer ++ [x]) →
      (reg1.length = s.refContainer.length ∨ reg1.length = s.refContainer.length + 1) ∧
      ∀ (i : Nat) (r : PtrDetails), s.refContainer[i]? = some r →
        ∃ r1, reg1[i]? = some r1 ∧ r1.memPtr = r.memPtr ∧
          r1.isArray = r.isArray ∧ r1.arraySize = r.arraySize ∧
          (r1.refcount = r.refcount ∨ r1.refcount = (r.refcount + 1) % UINT_MOD) ∧
          (r.refcount + 1 < UINT_MOD → r.refcount ≤ r1.refcount) := by
    intro reg1 h
    rcases h with rfl | ⟨p, rfl⟩ | ⟨x, rfl⟩
    · exact ⟨Or.inl rfl, fun i r hr => ⟨r, hr, rfl, rfl, rfl, Or.inl rfl, fun _ => le_refl _⟩⟩
    · refine ⟨Or.inl (updateAt_length _ _ _), fun i r hr => ?_⟩
      obtain ⟨r1, h1, h2, h3, h4, h5⟩ := updateAt_incr_getElem? s.refContainer p i r hr
      refine ⟨r1, h1, h2, h3, h4, h5, fun hlt => ?_⟩
      rcases h5 with h5 | h5
      · omega
      · rw [h5, Nat.mod_eq_of_lt hlt]; omega
    · refine ⟨Or.inr (by simp), fun i r hr => ?_⟩
      exact ⟨r, append_getElem?_of_some x hr, rfl, rfl, rfl, Or.inl rfl, fun _ => le_refl _⟩
  have fin : ∀ reg1 : List PtrDetails,
      (reg1.length = s.refContainer.length ∨ reg1.length = s.refContainer.length + 1) →
      s.refContainer.length ≤ reg1.length ∧
      (¬ (reg1.length = s.refContainer.length + 1 ∧
          s.refContainer.length % 4294967296 = 2147483647) →
        refContainerSize s.refContainer ≤ refContainerSize reg1) := by
    intro reg1 h
    refine ⟨by omega, fun hn => ?_⟩
    simp only [refContainerSize, toIntWrap]
    omega
  rcases hop with rfl | ⟨t, rfl⟩ | ⟨ob, rfl⟩
  · simp only [step, Option.some.injEq] at hstep
    subst hstep
    exact ⟨le_refl _, fun _ => le_refl _, rfl, (key s.refContainer (Or.inl rfl)).2⟩
  · simp only [step, Option.some.injEq] at hstep
    subst hstep
    have hreg : (constructAddr size s t).refContainer = ctorAddrRegistry size s.refContainer t :=
      rfl
    have hcase : ctorAddrRegistry size s.refContainer t = s.refContainer ∨
        (∃ p, ctorAddrRegistry size s.refContainer t =
          updateAt PtrDetails.incr s.refContainer p) ∨
        ∃ x, ctorAddrRegistry size s.refContainer t = s.refContainer ++ [x] := by
      unfold ctorAddrRegistry
      split
      · cases findPtrInfo s.refContainer t with
        | none => exact Or.inr (Or.inr ⟨_, rfl⟩)
        | some p => exact Or.inr (Or.inl ⟨p, rfl⟩)
      · exact Or.inl rfl
    rw [hreg]
    exact ⟨(fin _ (key _ hcase).1).1, (fin _ (key _ hcase).1).2, rfl, (key _ hcase).2⟩
  · simp only [step] at hstep
    cases hob : s.handle ob with
    | none => simp [hob] at hstep
    | some o =>
      simp only [hob, Option.some.injEq] at hstep
      subst hstep
      have hreg : (copyConstruct s o).refContainer = ctorCopyRegistry s.refContainer o := rfl
      have hcase : ctorCopyRegistry s.refContainer o = s.refContainer ∨
          (∃ p, ctorCopyRegistry s.refContainer o =
            updateAt PtrDetails.incr s.refContainer p) ∨
          ∃ x, ctorCopyRegistry s.refContainer o = s.refContainer ++ [x] := by
        unfold ctorCopyRegistry
        cases findPtrInfo s.refContainer o.addr with
        | none => exact Or.inl rfl
        | some p => exact Or.inr (Or.inl ⟨p, rfl⟩)
      rw [hreg]
      exact ⟨(fin _ (key _ hcase).1).1, (fin _ (key _ hcase).1).2, rfl, (key _ hcase).2⟩

theorem construct_never_erases_witness :
    step 0 demoState (Op.copyConstruct 2) =
        some (copyConstruct demoState { addr := 2, isArray := false, arraySize := 0 }) ∧
      demoState.refContainer.length ≤
        (copyConstruct demoState
          { addr := 2, isArray := false, arraySize := 0 }).refContainer.length ∧
      refContainerSize demoState.refContainer ≤
        refContainerSize
          (copyConstruct demoState { addr := 2, isArray := false, arraySize := 0 }).refContainer ∧
      (copyConstruct demoState { addr := 2, isArray := false, arraySize := 0 }).deallocs =
        demoState.deallocs :=
  ⟨by decide,
    (construct_never_erases 0 demoState _ (Op.copyConstruct 2) (Or.inr (Or.inr ⟨2, rfl⟩))
      (by decide)).1,
    (construct_never_erases 0 demoState _ (Op.copyConstruct 2) (Or.inr (Or.inr ⟨2, rfl⟩))
      (by decide)).2.1 (by decide),
    (construct_never_erases 0 demoState _ (Op.copyConstruct 2) (Or.inr (Or.inr ⟨2, rfl⟩))
      (by decide)).2.2.1⟩

theorem refContainerSize_nil : refContainerSize [] = 0 := by
  simp [refContainerSize, toIntWrap]

theorem refContainerSize_eq_of_length {reg reg1 : List PtrDetails}
    (h : reg1.length = reg.length) : refContainerSize reg1 = refContainerSize reg := by
  simp only [refContainerSize, h]

/-- Erasing one record lowers `refContainerSize()` by one unless the `int` wraps, which it
does from `2^31` records (modulo `2^32`). -/
theorem refContainerSize_succ_of_length {reg reg1 : List PtrDetails}
    (h : reg1.length + 1 = reg.length) (hn : reg.length % 4294967296 ≠ 2147483648) :
    refContainerSize reg1 + 1 = refContainerSize reg := by
  simp only [refContainerSize, toIntWrap]
  omega

theorem refContainerSize_singleton (x : PtrDetails) : refContainerSize [x] = 1 := by
  simp [refContainerSize, toIntWrap]

/-- C10. Scenario A with `size = 0` and a non-null address `a`, from the initial state:
`Pointer h1(a)` gives the single record `(refcount 1, a)`; the copy `h2(h1)` gives
`(refcount 2, a)`; destroying `h2` gives `(refcount 1, a)` and deallocates nothing;
destroying `h1` empties the registry and performs exactly `delete a` (scalar form). -/
theorem scenario_A (a : Int) (ha : a ≠ 0) :
    ∃ s1 s2 s3 s4,
      step 0 State.init (Op.constructAddr a) = some s1 ∧
      s1.refContainer = [{ refcount := 1, memPtr := a, isArray := false, arraySize := 0 }] ∧
      refContainerSize s1.refContainer = 1 ∧
      step 0 s1 (Op.copyConstruct 0) = some s2 ∧
      s2.refContainer = [{ refcount := 2, memPtr := a, isArray := false, arraySize := 0 }] ∧
      refContainerSize s2.refContainer = 1 ∧
      step 0 s2 (Op.destroy 1) = some s3 ∧
      s3.refContainer = [{ refcount := 1, memPtr := a, isArray := false, arraySize := 0 }] ∧
      refContainerSize s3.refContainer = 1 ∧
      s3.deallocs = [] ∧
      step 0 s3 (Op.destroy 0) = some s4 ∧
      s4.refContainer = [] ∧
      refContainerSize s4.refContainer = 0 ∧
      s4.deallocs = [Dealloc.scalarDelete a] := by
  have e1 : constructAddr 0 State.init a =
      ({ refContainer := [{ refcount := 1, memPtr := a, isArray := false, arraySize := 0 }]
         first := false
         exitHooks := 1
         handles := [some { addr := a, isArray := false, arraySize := 0 }]
         deallocs := [] } : State) := by
    simp [constructAddr, State.init, registerExit, ctorAddrRegistry, ha, findPtrInfo,
      PtrDetails.ctor, toUnsigned_zero]
  have e2 : copyConstruct
      ({ refContainer := [{ refcount := 1, memPtr := a, isArray := false, arraySize := 0 }]
         first := false
         exitHooks := 1
         handles := [some { addr := a, isArray := false, arraySize := 0 }]
         deallocs := [] } : State) { addr := a, isArray := false, arraySize := 0 } =
      ({ refContainer := [{ refcount := 2, memPtr := a, isArray := false, arraySize := 0 }]
         first := false
         exitHooks := 1
         handles := [some { addr := a, isArray := false, arraySize := 0 },
                     some { addr := a, isArray := false, arraySize := 0 }]
         deallocs := [] } : State) := by
    simp [copyConstruct, ctorCopyRegistry, findPtrInfo, updateAt, PtrDetails.incr, UINT_MOD]
  have e3 : destroy
      ({ refContainer := [{ refcount := 2, memPtr := a, isArray := false, arraySize := 0 }]
         first := false
         exitHooks := 1
         handles := [some { addr := a, isArray := false, arraySize := 0 },
                     some { addr := a, isArray := false, arraySize := 0 }]
         deallocs := [] } : State) 1 { addr := a, isArray := false, arraySize := 0 } =
      ({ refContainer := [{ refcount := 1, memPtr := a, isArray := false, arraySize := 0 }]
         first := false
         exitHooks := 1
         handles := [some { addr := a, isArray := false, arraySize := 0 }, none]
         deallocs := [] } : State) := by
    simp [destroy, dtorRelease, ha, findPtrInfo, updateAt, PtrDetails.decr,
      collect, collectRegistry, collectLoop]
  have e4 : destroy
      ({ refContainer := [{ refcount := 1, memPtr := a, isArray := false, arraySize := 0 }]
         first := false
         exitHooks := 1
         handles := [some { addr := a, isArray := false, arraySize := 0 }, none]
         deallocs := [] } : State) 0 { addr := a, isArray := false, arraySize := 0 } =
      ({ refContainer := []
         first := false
         exitHooks := 1
         handles := [none, none]
         deallocs := [Dealloc.scalarDelete a] } : State) := by
    simp [destroy, dtorRelease, ha, findPtrInfo, updateAt, PtrDetails.decr,
      collect, collectRegistry, collectLoop]
  refine ⟨
      ({ refContainer := [{ refcount := 1, memPtr := a, isArray := false, arraySize := 0 }]
         first := false
         exitHooks := 1
         handles := [some { addr := a, isArray := false, arraySize := 0 }]
         deallocs := [] } : State),
      ({ refContainer := [{ refcount := 2, memPtr := a, isArray := false, arraySize := 0 }]
         first := false
         exitHooks := 1
         handles := [some { addr := a, isArray := false, arraySize := 0 },
                     some { addr := a, isArray := false, arraySize := 0 }]
         deallocs := [] } : State),
      ({ refContainer := [{ refcount := 1, memPtr := a, isArray := false, arraySize := 0 }]
         first := false
         exitHooks := 1
         handles := [some { addr := a, isArray := false, arraySize := 0 }, none]
         deallocs := [] } : State),
      ({ refContainer := []
         first := false
         exitHooks := 1
         handles := [none, none]
         deallocs := [Dealloc.scalarDelete a] } : State),
      ?_, rfl, refContainerSize_singleton _, ?_, rfl, refContainerSize_singleton _, ?_, rfl,
      refContainerSize_singleton _, rfl, ?_, rfl, refContainerSize_nil, rfl⟩
  · simp only [step, e1]
  · simp [step, State.handle, e2]
  · simp [step, State.handle, e3]
  · simp [step, State.handle, e4]

theorem scenario_A_witness :
    (7 : Int) ≠ 0 ∧
      ∃ s1 s2 s3 s4,
        step 0 State.init (Op.constructAddr 7) = some s1 ∧
        s1.refContainer = [{ refcount := 1, memPtr := 7, isArray := false, arraySize := 0 }] ∧
        refContainerSize s1.refContainer = 1 ∧
        step 0 s1 (Op.copyConstruct 0) = some s2 ∧
        s2.refContainer = [{ refcount := 2, memPtr := 7, isArray := false, arraySize := 0 }] ∧
        refContainerSize s2.refContainer = 1 ∧
        step 0 s2 (Op.destroy 1) = some s3 ∧
        s3.refContainer = [{ refcount := 1, memPtr := 7, isArray := false, arraySize := 0 }] ∧
        refContainerSize s3.refContainer = 1 ∧
        s3.deallocs = [] ∧
        step 0 s3 (Op.destroy 0) = some s4 ∧
        s4.refContainer = [] ∧
        refContainerSize s4.refContainer = 0 ∧
        s4.deallocs = [Dealloc.scalarDelete 7] :=
  ⟨by decide, scenario_A 7 (by decide)⟩

/-! ## Counting live objects -/

theorem liveAt_nil (a : Int) : liveAt [] a = 0 := rfl

theorem liveAt_cons_none (hs : List (Option Pointer)) (a : Int) :
    liveAt (none :: hs) a = liveAt hs a := by
  simp [liveAt]

theorem liveAt_cons_some (h : Pointer) (hs : List (Option Pointer)) (a : Int) :
    liveAt (some h :: hs) a = (if h.addr = a then 1 else 0) + liveAt hs a := by
  by_cases hc : h.addr = a
  · simp [liveAt, hc, Nat.add_comm]
  · simp [liveAt, hc]

theorem liveCount_cons_none (hs : List (Option Pointer)) :
    liveCount (none :: hs) = liveCount hs := by
  simp [liveCount]

theorem liveCount_cons_some (h : Pointer) (hs : List (Option Pointer)) :
    liveCount (some h :: hs) = liveCount hs + 1 := by
  simp [liveCount]

theorem liveAt_le_liveCount (hs : List (Option Pointer)) (a : Int) :
    liveAt hs a ≤ liveCount hs := by
  induction hs with
  | nil => simp [liveAt, liveCount]
  | cons o hs ih =>
    cases o with
    | none => rw [liveAt_cons_none, liveCount_cons_none]; exact ih
    | some h =>
      rw [liveAt_cons_some, liveCount_cons_some]
      split <;> omega

theorem liveAt_append (hs : List (Option Pointer)) (h : Pointer) (a : Int) :
    liveAt (hs ++ [some h]) a = liveAt hs a + (if h.addr = a then 1 else 0) := by
  induction hs with
  | nil => simp [liveAt_cons_some, liveAt_nil]
  | cons o hs ih =>
    cases o with
    | none => simp only [List.cons_append, liveAt_cons_none, ih]
    | some g => simp only [List.cons_append, liveAt_cons_some, ih]; omega

theorem liveCount_append (hs : List (Option Pointer)) (h : Pointer) :
    liveCount (hs ++ [some h]) = liveCount hs + 1 := by
  simp [liveCount]

/-- Replacing the live object at position `i`: the count of its old address drops by one,
the count of its new address (if the object stays live) rises by one. -/
theorem liveAt_set (hs : List (Option Pointer)) (i : Nat) (h : Pointer) (o : Option Pointer)
    (a : Int) (hi : hs.getD i none = some h) :
    liveAt (hs.set i o) a + (if h.addr = a then 1 else 0) =
      liveAt hs a + liveAt [o] a := by
  induction hs generalizing i with
  | nil => simp at hi
  | cons x hs ih =>
    cases i with
    | zero =>
      simp only [List.getD_cons_zero] at hi
      subst hi
      simp only [List.set_cons_zero, liveAt_cons_some]
      cases o with
      | none => simp only [liveAt_cons_none, liveAt_nil]; omega
      | some g => simp only [liveAt_cons_some, liveAt_nil]; omega
    | succ i =>
      simp only [List.getD_cons_succ] at hi
      have := ih i hi
      cases x with
      | none => simp only [List.set_cons_succ, liveAt_cons_none]; exact this
      | some g => simp only [List.set_cons_succ, liveAt_cons_some]; omega

theorem liveCount_set (hs : List (Option Pointer)) (i : Nat) (h : Pointer) (o : Option Pointer)
    (hi : hs.getD i none = some h) :
    liveCount (hs.set i o) + 1 = liveCount hs + liveCount [o] := by
  induction hs generalizing i with
  | nil => simp at hi
  | cons x hs ih =>
    cases i with
    | zero =>
      simp only [List.getD_cons_zero] at hi
      subst hi
      simp only [List.set_cons_zero, liveCount_cons_some]
      cases o with
      | none => simp [liveCount]
      | some g => simp [liveCount]
    | succ i =>
      simp only [List.getD_cons_succ] at hi
      have := ih i hi
      cases x with
      | none => simp only [List.set_cons_succ, liveCount_cons_none]; exact this
      | some g => simp only [List.set_cons_succ, liveCount_cons_some]; omega

theorem liveAt_pos_of_getD (hs : List (Option Pointer)) (i : Nat) (h : Pointer)
    (hi : hs.getD i none = some h) : 1 ≤ liveAt hs h.addr := by
  induction hs generalizing i with
  | nil => simp at hi
  | cons x hs ih =>
    cases i with
    | zero =>
      simp only [List.getD_cons_zero] at hi
      subst hi
      simp [liveAt_cons_some]
    | succ i =>
      simp only [List.getD_cons_succ] at hi
      have := ih i hi
      cases x with
      | none => rw [liveAt_cons_none]; exact this
      | some g => rw [liveAt_cons_some]; omega

theorem getD_set_ne (hs : List (Option Pointer)) (i j : Nat) (o : Option Pointer)
    (hij : i ≠ j) : (hs.set i o).getD j none = hs.getD j none := by
  simp [List.getD_eq_getElem?_getD, List.getElem?_set_ne hij]

theorem getD_append_some (hs : List (Option Pointer)) (x : Option Pointer) (i : Nat)
    (h : Pointer) (hi : (hs ++ [x]).getD i none = some h) :
    hs.getD i none = some h ∨ x = some h := by
  by_cases hlt : i < hs.length
  · left
    simpa [List.getD_eq_getElem?_getD, List.getElem?_append_left hlt] using hi
  · right
    by_cases heq : i = hs.length
    · subst heq
      simpa [List.getD_eq_getElem?_getD] using hi
    · have : (hs ++ [x])[i]? = none := by
        apply List.getElem?_eq_none
        simp
        omega
      simp [List.getD_eq_getElem?_getD, this] at hi

/-! ## The registry follows the counts -/

theorem tracks_congr {reg : List PtrDetails} {c c1 : Int → Nat} (ht : Tracks reg c)
    (hc : ∀ a, a ≠ 0 → c1 a = c a) : Tracks reg c1 := by
  obtain ⟨hnd, hrec, hex⟩ := ht
  refine ⟨hnd, fun r hr => ⟨(hrec r hr).1, ?_⟩, fun a ha hpos => ?_⟩
  · rw [hc _ (hrec r hr).1]; exact (hrec r hr).2
  · rw [hc a ha] at hpos; exact hex a ha hpos

theorem tracks_dtorRelease {reg : List PtrDetails} {c c1 : Int → Nat} (this : Pointer)
    (ht : Tracks reg c)
    (hpos : this.addr ≠ 0 → 1 ≤ c this.addr)
    (hc : ∀ a, a ≠ 0 → c1 a + (if this.addr = a then 1 else 0) = c a) :
    Tracks (dtorRelease reg this) c1 := by
  by_cases h0 : this.addr = 0
  · have hreg : dtorRelease reg this = reg := by simp [dtorRelease, h0]
    rw [hreg]
    apply tracks_congr ht
    intro a ha
    have hne : ¬ this.addr = a := by rw [h0]; exact fun h => ha h.symm
    have := hc a ha
    simp only [hne, if_false, Nat.add_zero] at this
    exact this
  · obtain ⟨hnd, hrec, hex⟩ := ht
    have hone := hpos h0
    obtain ⟨i, hi⟩ := findPtrInfo_isSome_of_mem (hex this.addr h0 hone)
    have hreg : dtorRelease reg this =
        reg.map (fun r => if r.memPtr = this.addr then r.decr else r) := by
      simp only [dtorRelease, h0, ne_eq, not_false_eq_true, if_true, hi]
      exact updateAt_find_eq_map _ hnd hi
    refine ⟨by rw [dtorRelease_map_memPtr]; exact hnd, ?_, ?_⟩
    · intro r1 hr1
      rw [hreg] at hr1
      obtain ⟨r, hr, rfl⟩ := List.mem_map.1 hr1
      obtain ⟨hr0, hrc⟩ := hrec r hr
      by_cases hra : r.memPtr = this.addr
      · have h1 := hc this.addr h0
        simp only [if_true] at h1
        simp only [hra, if_true, decr_memPtr]
        refine ⟨h0, ?_⟩
        simp only [PtrDetails.decr, hrc, hra]
        rw [if_neg (by omega)]
        omega
      · have hne : ¬ this.addr = r.memPtr := fun h => hra h.symm
        have h1 := hc r.memPtr hr0
        simp only [hne, if_false, Nat.add_zero] at h1
        simp only [hra, if_false]
        exact ⟨hr0, by rw [h1]; exact hrc⟩
    · intro a ha hpos1
      have hca : 1 ≤ c a := by
        have := hc a ha
        omega
      obtain ⟨r, hr, hra⟩ := hex a ha hca
      rw [hreg]
      refine ⟨_, List.mem_map.2 ⟨r, hr, rfl⟩, ?_⟩
      split
      · rw [decr_memPtr]; exact hra
      · exact hra

theorem tracks_ctorAddrRegistry (size : Int) {reg : List PtrDetails} {c c2 : Int → Nat}
    (t : Int) (ht : Tracks reg c)
    (hlt : t ≠ 0 → c t + 1 < UINT_MOD)
    (hc : ∀ a, a ≠ 0 → c2 a = c a + (if t = a then 1 else 0)) :
    Tracks (ctorAddrRegistry size reg t) c2 := by
  by_cases h0 : t = 0
  · have hreg : ctorAddrRegistry size reg t = reg := by simp [ctorAddrRegistry, h0]
    rw [hreg]
    apply tracks_congr ht
    intro a ha
    have hne : ¬ t = a := by rw [h0]; exact fun h => ha h.symm
    simp [hc a ha, hne]
  · have hnd2 := ctorAddrRegistry_nodup size t ht.1
    obtain ⟨hnd, hrec, hex⟩ := ht
    have hlt1 := hlt h0
    have hct := hc t h0
    simp only [if_true] at hct
    cases hfind : findPtrInfo reg t with
    | none =>
      have hnone := findPtrInfo_eq_none.1 hfind
      have hzero : c t = 0 := by
        by_contra hne
        obtain ⟨r, hr, hra⟩ := hex t h0 (Nat.pos_of_ne_zero hne)
        exact hnone r hr hra
      have hreg := ctorAddrRegistry_of_find_none size h0 hnone
      refine ⟨hnd2, ?_, ?_⟩
      · intro r1 hr1
        rw [hreg, List.mem_append, List.mem_singleton] at hr1
        rcases hr1 with hr1 | rfl
        · obtain ⟨hr0, hrc⟩ := hrec r1 hr1
          have hne : ¬ t = r1.memPtr := fun h => hnone r1 hr1 h.symm
          refine ⟨hr0, ?_⟩
          rw [hc _ hr0, hrc]
          simp [hne]
        · refine ⟨h0, ?_⟩
          simp only [PtrDetails.ctor]
          omega
      · intro a ha hpos
        rw [hreg]
        by_cases hta : t = a
        · exact ⟨PtrDetails.ctor t (toUnsigned size), by simp, by simp [PtrDetails.ctor, hta]⟩
        · have hca : 1 ≤ c a := by
            have := hc a ha
            simp only [hta, if_false, Nat.add_zero] at this
            omega
          obtain ⟨r, hr, hra⟩ := hex a ha hca
          exact ⟨r, by simp [hr], hra⟩
    | some i =>
      have hreg : ctorAddrRegistry size reg t =
          reg.map (fun r => if r.memPtr = t then r.incr else r) := by
        simp only [ctorAddrRegistry, h0, ne_eq, not_false_eq_true, if_true, hfind]
        exact updateAt_find_eq_map _ hnd hfind
      refine ⟨hnd2, ?_, ?_⟩
      · intro r1 hr1
        rw [hreg] at hr1
        obtain ⟨r, hr, rfl⟩ := List.mem_map.1 hr1
        obtain ⟨hr0, hrc⟩ := hrec r hr
        by_cases hra : r.memPtr = t
        · simp only [hra, if_true, incr_memPtr]
          refine ⟨h0, ?_⟩
          simp only [PtrDetails.incr, hrc, hra]
          rw [Nat.mod_eq_of_lt hlt1]
          omega
        · have hne : ¬ t = r.memPtr := fun h => hra h.symm
          simp only [hra, if_false]
          refine ⟨hr0, ?_⟩
          rw [hc _ hr0, hrc]
          simp [hne]
      · intro a ha hpos
        have hrec_a : ∃ r ∈ reg, r.memPtr = a := by
          by_cases hta : t = a
          · subst hta
            obtain ⟨r, hr, hra, -, -⟩ := findPtrInfo_eq_some hfind
            exact ⟨r, List.getElem?_mem hr, hra⟩
          · have := hc a ha
            simp only [hta, if_false, Nat.add_zero] at this
            exact hex a ha (by omega)
        obtain ⟨r, hr, hra⟩ := hrec_a
        rw [hreg]
        refine ⟨_, List.mem_map.2 ⟨r, hr, rfl⟩, ?_⟩
        split
        · rw [incr_memPtr]; exact hra
        · exact hra

theorem tracks_sweep {reg : List PtrDetails} {c : Int → Nat} (ht : Tracks reg c) :
    Tracks (reg.filter (fun p => decide (0 < p.refcount))) c ∧
      ∀ r ∈ reg.filter (fun p => decide (0 < p.refcount)), 1 ≤ r.refcount := by
  obtain ⟨hnd, hrec, hex⟩ := ht
  refine ⟨⟨filter_map_memPtr_nodup _ hnd, fun r hr => hrec r (List.mem_filter.1 hr).1, ?_⟩, ?_⟩
  · intro a ha hpos
    obtain ⟨r, hr, hra⟩ := hex a ha hpos
    refine ⟨r, List.mem_filter.2 ⟨hr, ?_⟩, hra⟩
    have := (hrec r hr).2
    rw [hra] at this
    simp only [decide_eq_true_eq]
    omega
  · intro r hr
    have := (List.mem_filter.1 hr).2
    simp only [decide_eq_true_eq] at this
    exact this

theorem mem_ctorAddrRegistry_memPtr (size : Int) {reg : List PtrDetails} {t : Int}
    {r : PtrDetails} (hr : r ∈ ctorAddrRegistry size reg t) :
    r.memPtr = t ∨ ∃ r0 ∈ reg, r0.memPtr = r.memPtr := by
  have hmem : r.memPtr ∈ (ctorAddrRegistry size reg t).map PtrDetails.memPtr :=
    List.mem_map.2 ⟨r, hr, rfl⟩
  unfold ctorAddrRegistry at hmem
  split at hmem
  · cases hfind : findPtrInfo reg t with
    | none =>
      simp only [hfind, List.map_append, List.mem_append, List.map_cons, List.map_nil,
        List.mem_singleton, PtrDetails.ctor] at hmem
      rcases hmem with hmem | hmem
      · obtain ⟨r0, hr0, h⟩ := List.mem_map.1 hmem
        exact Or.inr ⟨r0, hr0, h⟩
      · exact Or.inl hmem
    | some i =>
      simp only [hfind, updateAt_map_memPtr _ incr_memPtr] at hmem
      obtain ⟨r0, hr0, h⟩ := List.mem_map.1 hmem
      exact Or.inr ⟨r0, hr0, h⟩
  · obtain ⟨r0, hr0, h⟩ := List.mem_map.1 hmem
    exact Or.inr ⟨r0, hr0, h⟩

/-- Under the invariant, adding one reference to `t` keeps the invariant, provided the new
count of `t` is below `2^32`. -/
theorem refInv_ctorAddrRegistry (size : Int) {reg : List PtrDetails} {c c2 : Int → Nat}
    (t : Int) (ht : Tracks reg c) (hpos : ∀ r ∈ reg, 1 ≤ r.refcount)
    (hlt : t ≠ 0 → c t + 1 < UINT_MOD)
    (hc : ∀ a, a ≠ 0 → c2 a = c a + (if t = a then 1 else 0)) :
    Tracks (ctorAddrRegistry size reg t) c2 ∧
      ∀ r ∈ ctorAddrRegistry size reg t, 1 ≤ r.refcount := by
  have ht2 := tracks_ctorAddrRegistry size t ht hlt hc
  refine ⟨ht2, fun r hr => ?_⟩
  obtain ⟨hr0, hrc⟩ := ht2.2.1 r hr
  rw [hrc]
  rcases mem_ctorAddrRegistry_memPtr size hr with h | ⟨r0, hr0mem, h⟩
  · have := hc r.memPtr hr0
    simp only [h, if_true] at this
    rw [h]
    omega
  · have h1 := hpos r0 hr0mem
    have h2 := (ht.2.1 r0 hr0mem).2
    have h3 := hc r.memPtr hr0
    rw [h] at h2
    omega

theorem ctorCopyRegistry_eq (size : Int) {reg : List PtrDetails} {c : Int → Nat}
    (ob : Pointer) (ht : Tracks reg c) (hlive : ob.addr ≠ 0 → 1 ≤ c ob.addr) :
    ctorCopyRegistry reg ob = ctorAddrRegistry size reg ob.addr := by
  by_cases h0 : ob.addr = 0
  · have hnone : findPtrInfo reg ob.addr = none :=
      findPtrInfo_eq_none.2 (fun r hr h => (ht.2.1 r hr).1 (h.trans h0))
    rw [h0] at hnone
    simp [ctorCopyRegistry, ctorAddrRegistry, hnone, h0]
  · obtain ⟨i, hi⟩ := findPtrInfo_isSome_of_mem (ht.2.2 ob.addr h0 (hlive h0))
    simp [ctorCopyRegistry, ctorAddrRegistry, hi, h0]

theorem assignAddrRelease_eq (size : Int) (reg : List PtrDetails) (this : Pointer) (t : Int) :
    assignAddrRelease size reg this t = ctorAddrRegistry size (dtorRelease reg this) t := rfl

theorem assignPointerRelease_eq (size : Int) (reg : List PtrDetails) (this rv : Pointer)
    (hrec : rv.addr ≠ 0 → ∃ r ∈ dtorRelease reg this, r.memPtr = rv.addr) :
    assignPointerRelease reg this rv = ctorAddrRegistry size (dtorRelease reg this) rv.addr := by
  have hunf : assignPointerRelease reg this rv =
      if rv.addr ≠ 0 then
        match findPtrInfo (dtorRelease reg this) rv.addr with
        | some p => updateAt PtrDetails.incr (dtorRelease reg this) p
        | none => dtorRelease reg this
      else dtorRelease reg this := rfl
  rw [hunf]
  by_cases h0 : rv.addr = 0
  · simp [ctorAddrRegistry, h0]
  · obtain ⟨i, hi⟩ := findPtrInfo_isSome_of_mem (hrec h0)
    simp [ctorAddrRegistry, h0, hi]

/-! ## Every operation keeps the invariant -/

theorem refInv_init : RefInv State.init := by
  refine ⟨⟨by simp [State.init], by simp [State.init], ?_⟩, by simp [State.init]⟩
  intro a _ hpos
  simp [State.init, liveAt_nil] at hpos

theorem refInv_constructEmpty {s : State} (h : RefInv s) : RefInv (constructEmpty s) := by
  obtain ⟨ht, hpos⟩ := h
  refine ⟨?_, hpos⟩
  have hh : (constructEmpty s).handles =
      s.handles ++ [some { addr := 0, isArray := false, arraySize := 0 }] := rfl
  have hreg : (constructEmpty s).refContainer = s.refContainer := rfl
  rw [hh, hreg]
  apply tracks_congr ht
  intro a ha
  rw [liveAt_append]
  have hne : ¬ (0 : Int) = a := fun h => ha h.symm
  simp [hne]

theorem refInv_construct_from {s : State} (size : Int) (t : Int) (h : Pointer)
    (hinv : RefInv s) (ht : h.addr = t)
    (hb : liveCount (s.handles ++ [some h]) < UINT_MOD) :
    Tracks (ctorAddrRegistry size s.refContainer t) (liveAt (s.handles ++ [some h])) ∧
      ∀ r ∈ ctorAddrRegistry size s.refContainer t, 1 ≤ r.refcount := by
  obtain ⟨htr, hpos⟩ := hinv
  apply refInv_ctorAddrRegistry size t htr hpos
  · intro _
    have h1 := liveAt_le_liveCount (s.handles ++ [some h]) t
    rw [liveAt_append] at h1
    simp only [ht, if_true] at h1
    omega
  · intro a _
    rw [liveAt_append, ht]

theorem refInv_constructAddr {s : State} (size : Int) (t : Int) (hinv : RefInv s)
    (hb : liveCount (constructAddr size s t).handles < UINT_MOD) :
    RefInv (constructAddr size s t) :=
  refInv_construct_from size t
    { addr := t, isArray := decide (size > 0), arraySize := toUnsigned size } hinv rfl hb

theorem refInv_copyConstruct {s : State} (ob : Nat) (o : Pointer) (hinv : RefInv s)
    (ho : s.handle ob = some o)
    (hb : liveCount (copyConstruct s o).handles < UINT_MOD) :
    RefInv (copyConstruct s o) := by
  have hreg : (copyConstruct s o).refContainer = ctorAddrRegistry 0 s.refContainer o.addr :=
    ctorCopyRegistry_eq 0 o hinv.1 (fun _ => liveAt_pos_of_getD s.handles ob o ho)
  have hh : (copyConstruct s o).handles = s.handles ++
      [some { addr := o.addr, isArray := o.isArray, arraySize := o.arraySize }] := rfl
  unfold RefInv
  rw [hreg, hh]
  rw [hh] at hb
  exact refInv_construct_from 0 o.addr _ hinv rfl hb

theorem refInv_destroy {s : State} (i : Nat) (this : Pointer) (hinv : RefInv s)
    (hi : s.handle i = some this) : RefInv (destroy s i this) := by
  have hreg : (destroy s i this).refContainer =
      (dtorRelease s.refContainer this).filter (fun p => decide (0 < p.refcount)) := by
    rw [destroy, collect_refContainer]
  have hh : (destroy s i this).handles = s.handles.set i none := rfl
  unfold RefInv
  rw [hreg, hh]
  apply tracks_sweep
  apply tracks_dtorRelease this hinv.1
  · intro _
    exact liveAt_pos_of_getD s.handles i this hi
  · intro a _
    have := liveAt_set s.handles i this none a hi
    rw [liveAt_cons_none, liveAt_nil] at this
    exact this

theorem tracks_release_then_add {s : State} (size : Int) (i : Nat) (this h : Pointer)
    (hinv : RefInv s) (hi : s.handle i = some this)
    (hb : liveCount (s.handles.set i (some h)) < UINT_MOD) :
    Tracks (ctorAddrRegistry size (dtorRelease s.refContainer this) h.addr)
      (liveAt (s.handles.set i (some h))) := by
  have h1 : Tracks (dtorRelease s.refContainer this) (liveAt (s.handles.set i none)) := by
    apply tracks_dtorRelease this hinv.1
    · intro _
      exact liveAt_pos_of_getD s.handles i this hi
    · intro a _
      have := liveAt_set s.handles i this none a hi
      rw [liveAt_cons_none, liveAt_nil] at this
      exact this
  have hrel : ∀ a, liveAt (s.handles.set i (some h)) a =
      liveAt (s.handles.set i none) a + (if h.addr = a then 1 else 0) := by
    intro a
    have e1 := liveAt_set s.handles i this none a hi
    have e2 := liveAt_set s.handles i this (some h) a hi
    rw [liveAt_cons_none, liveAt_nil] at e1
    rw [liveAt_cons_some, liveAt_nil] at e2
    omega
  apply tracks_ctorAddrRegistry size h.addr h1
  · intro _
    have h2 := liveAt_le_liveCount (s.handles.set i (some h)) h.addr
    rw [hrel] at h2
    simp only [if_true] at h2
    omega
  · intro a _
    exact hrel a

theorem refInv_assignAddr {s : State} (size : Int) (i : Nat) (this : Pointer) (t : Int)
    (hinv : RefInv s) (hi : s.handle i = some this)
    (hb : liveCount (assignAddr size s i this t).handles < UINT_MOD) :
    RefInv (assignAddr size s i this t) := by
  have hreg : (assignAddr size s i this t).refContainer =
      (ctorAddrRegistry size (dtorRelease s.refContainer this) t).filter
        (fun p => decide (0 < p.refcount)) := by
    rw [assignAddr, collect_refContainer]
    rfl
  have hh : (assignAddr size s i this t).handles =
      s.handles.set i (some { this with addr := t }) := rfl
  unfold RefInv
  rw [hreg, hh]
  rw [hh] at hb
  exact tracks_sweep (tracks_release_then_add size i this { this with addr := t } hinv hi hb)

theorem refInv_assignPointer {s : State} (i : Nat) (this : Pointer) (j : Nat) (rv : Pointer)
    (hinv : RefInv s) (hi : s.handle i = some this) (hj : s.handle j = some rv)
    (hb : liveCount (assignPointer s i this j rv).handles < UINT_MOD) :
    RefInv (assignPointer s i this j rv) := by
  by_cases hij : i = j
  · simp only [assignPointer, hij, if_true]
    exact hinv
  · have h1 : Tracks (dtorRelease s.refContainer this) (liveAt (s.handles.set i none)) := by
      apply tracks_dtorRelease this hinv.1
      · intro _
        exact liveAt_pos_of_getD s.handles i this hi
      · intro a _
        have := liveAt_set s.handles i this none a hi
        rw [liveAt_cons_none, liveAt_nil] at this
        exact this
    have hjlive : (s.handles.set i none).getD j none = some rv := by
      rw [getD_set_ne s.handles i j none hij]
      exact hj
    have hrel := assignPointerRelease_eq 0 s.refContainer this rv
      (fun h0 => h1.2.2 rv.addr h0 (liveAt_pos_of_getD _ j rv hjlive))
    have hreg : (assignPointer s i this j rv).refContainer =
        (ctorAddrRegistry 0 (dtorRelease s.refContainer this) rv.addr).filter
          (fun p => decide (0 < p.refcount)) := by
      simp only [assignPointer, hij, if_false]
      rw [collect_refContainer, ← hrel]
    have hh : (assignPointer s i this j rv).handles = s.handles.set i
        (some { addr := rv.addr, isArray := rv.isArray, arraySize := rv.arraySize }) := by
      simp only [assignPointer, hij, if_false]
      rfl
    unfold RefInv
    rw [hreg, hh]
    rw [hh] at hb
    exact tracks_sweep (tracks_release_then_add 0 i this
      { addr := rv.addr, isArray := rv.isArray, arraySize := rv.arraySize } hinv hi hb)

theorem stepBelow_eq_some {size : Int} {s s1 : State} {op : Op}
    (h : stepBelow size s op = some s1) :
    op.isLifecycle = true ∧ step size s op = some s1 ∧ liveCount s1.handles < UINT_MOD := by
  unfold stepBelow at h
  split at h
  · rename_i hl
    cases hs : step size s op with
    | none => simp [hs] at h
    | some s2 =>
      simp only [hs] at h
      split at h
      · rename_i hlt
        simp only [Option.some.injEq] at h
        subst h
        exact ⟨hl, rfl, hlt⟩
      · simp at h
  · simp at h

theorem refInv_stepBelow {size : Int} {s s1 : State} {op : Op} (hinv : RefInv s)
    (h : stepBelow size s op = some s1) : RefInv s1 := by
  obtain ⟨hl, hstep, hb⟩ := stepBelow_eq_some h
  cases op with
  | constructEmpty =>
    simp only [step, Option.some.injEq] at hstep
    subst hstep
    exact refInv_constructEmpty hinv
  | constructAddr t =>
    simp only [step, Option.some.injEq] at hstep
    subst hstep
    exact refInv_constructAddr size t hinv hb
  | copyConstruct ob =>
    simp only [step] at hstep
    cases hob : s.handle ob with
    | none => simp [hob] at hstep
    | some o =>
      simp only [hob, Option.some.injEq] at hstep
      subst hstep
      exact refInv_copyConstruct ob o hinv hob hb
  | destroy i =>
    simp only [step] at hstep
    cases hi : s.handle i with
    | none => simp [hi] at hstep
    | some this =>
      simp only [hi, Option.some.injEq] at hstep
      subst hstep
      exact refInv_destroy i this hinv hi
  | assignAddr i t =>
    simp only [step] at hstep
    cases hi : s.handle i with
    | none => simp [hi] at hstep
    | some this =>
      simp only [hi, Option.some.injEq] at hstep
      subst hstep
      exact refInv_assignAddr size i this t hinv hi hb
  | assignPointer i j =>
    simp only [step] at hstep
    cases hi : s.handle i with
    | none => simp [hi] at hstep
    | some this =>
      cases hj : s.handle j with
      | none => simp [hi, hj] at hstep
      | some rv =>
        simp only [hi, hj, Option.some.injEq] at hstep
        subst hstep
        exact refInv_assignPointer i this j rv hinv hi hj hb
  | collect => simp [Op.isLifecycle] at hl
  | shutdown => simp [Op.isLifecycle] at hl

theorem refInv_runBelow {size : Int} {s s1 : State} {ops : List Op} (hinv : RefInv s)
    (h : runBelow size s ops = some s1) : RefInv s1 := by
  induction ops generalizing s with
  | nil =>
    simp only [runBelow, Option.some.injEq] at h
    subst h
    exact hinv
  | cons op ops ih =>
    simp only [runBelow] at h
    cases hs : stepBelow size s op with
    | none => simp [hs] at h
    | some s2 =>
      simp only [hs] at h
      exact ih (refInv_stepBelow hinv hs) h

theorem runBelow_run {size : Int} {s s1 : State} {ops : List Op}
    (h : runBelow size s ops = some s1) :
    run size s ops = some s1 ∧ ∀ op ∈ ops, op.isLifecycle = true := by
  induction ops generalizing s with
  | nil => exact ⟨by simpa [runBelow, run] using h, by simp⟩
  | cons op ops ih =>
    simp only [runBelow] at h
    cases hs : stepBelow size s op with
    | none => simp [hs] at h
    | some s2 =>
      simp only [hs] at h
      obtain ⟨hl, hstep, -⟩ := stepBelow_eq_some hs
      obtain ⟨hrun, hall⟩ := ih h
      refine ⟨by simp only [run, hstep, hrun], ?_⟩
      intro o ho
      rcases List.mem_cons.1 ho with rfl | ho
      · exact hl
      · exact hall o ho

theorem sameAddrState_liveAt (n : Nat) : liveAt (sameAddrState n).handles 1 = n :=
  liveAt_replicate n { addr := 1, isArray := false, arraySize := 0 }

/-- C1, as stated, fails: after `2^32` objects have been constructed from the address `1`
(construct operations only), the record of that address has `refcount = 0`, while `2^32`
live objects hold the address. -/
theorem refcount_differs_from_live_handles :
    (∀ op ∈ List.replicate 4294967296 (Op.constructAddr 1), op.isLifecycle = true) ∧
      run 0 State.init (List.replicate 4294967296 (Op.constructAddr 1)) =
        some (sameAddrState 4294967296) ∧
      (sameAddrState 4294967296).refContainer =
        [{ refcount := 0, memPtr := 1, isArray := false, arraySize := 0 }] ∧
      liveAt (sameAddrState 4294967296).handles 1 = 4294967296 := by
  refine ⟨?_, ?_, ?_, sameAddrState_liveAt 4294967296⟩
  · intro op hop
    rw [List.eq_of_mem_replicate hop]
    rfl
  · have h := run_replicate_constructAddr 4294967295
    simpa only [Nat.reduceAdd] using h
  · rw [sameAddrState_refContainer]
    simp only [UINT_MOD, Nat.reduceMod]

/-- C1, amended. In every state reached from the initial state by construct, assign and
destroy operations through states with fewer than `2^32` live `Pointer` objects, each
record's `refcount` is the number of live objects whose `addr` is the record's address, and
every live object with a non-null `addr` has a record. -/
theorem refcount_equals_live_handles (size : Int) (ops : List Op) (s : State)
    (hrun : runBelow size State.init ops = some s) :
    run size State.init ops = some s ∧
    (∀ r ∈ s.refContainer, r.refcount = liveAt s.handles r.memPtr) ∧
    (∀ (i : Nat) (h : Pointer), s.handle i = some h → h.addr ≠ 0 →
      ∃ r ∈ s.refContainer, r.memPtr = h.addr) := by
  obtain ⟨⟨-, hrec, hex⟩, -⟩ := refInv_runBelow refInv_init hrun
  refine ⟨(runBelow_run hrun).1, fun r hr => (hrec r hr).2, ?_⟩
  intro i h hi h0
  exact hex h.addr h0 (liveAt_pos_of_getD s.handles i h hi)

theorem refcount_equals_live_handles_witness :
    ∃ s, runBelow 0 State.init
        [Op.constructAddr 1, Op.copyConstruct 0, Op.constructAddr 2, Op.constructEmpty,
         Op.assignPointer 3 2, Op.assignAddr 1 2, Op.destroy 0] = some s ∧
      s.refContainer = [{ refcount := 3, memPtr := 2, isArray := false, arraySize := 0 }] ∧
      (∀ r ∈ s.refContainer, r.refcount = liveAt s.handles r.memPtr) ∧
      (∀ (i : Nat) (h : Pointer), s.handle i = some h → h.addr ≠ 0 →
        ∃ r ∈ s.refContainer, r.memPtr = h.addr) :=
  ⟨{ refContainer := [{ refcount := 3, memPtr := 2, isArray := false, arraySize := 0 }]
     first := false
     exitHooks := 1
     handles := [none, some { addr := 2, isArray := false, arraySize := 0 },
                 some { addr := 2, isArray := false, arraySize := 0 },
                 some { addr := 2, isArray := false, arraySize := 0 }]
     deallocs := [Dealloc.scalarDelete 1] },
    by decide, rfl,
    (refcount_equals_live_handles 0
      [Op.constructAddr 1, Op.copyConstruct 0, Op.constructAddr 2, Op.constructEmpty,
       Op.assignPointer 3 2, Op.assignAddr 1 2, Op.destroy 0] _ (by decide)).2⟩

/-! ## Sweeping the single record that reached zero -/

theorem eq_of_memPtr_eq {reg : List PtrDetails} (hnd : (reg.map PtrDetails.memPtr).Nodup)
    {r r1 : PtrDetails} (hr : r ∈ reg) (hr1 : r1 ∈ reg) (h : r.memPtr = r1.memPtr) :
    r = r1 :=
  List.inj_on_of_nodup_map hnd hr hr1 h

theorem filter_length_unique_zero {reg : List PtrDetails} (o : Int)
    (hnd : (reg.map PtrDetails.memPtr).Nodup)
    (hall : ∀ r ∈ reg, r.refcount = 0 → r.memPtr = o)
    (hex : ∃ r ∈ reg, r.refcount = 0) :
    (reg.filter (fun p => decide (0 < p.refcount))).length + 1 = reg.length := by
  induction reg with
  | nil => simp at hex
  | cons p rest ih =>
    simp only [List.map_cons, List.nodup_cons, List.mem_map, not_exists, not_and] at hnd
    by_cases hp : p.refcount = 0
    · have hpo : p.memPtr = o := hall p (by simp) hp
      have hrest : ∀ r ∈ rest, 0 < r.refcount := by
        intro r hr
        by_contra hc
        have hz : r.refcount = 0 := by omega
        have hro : r.memPtr = o := hall r (by simp [hr]) hz
        exact hnd.1 r hr (by rw [hro, hpo])
      have hfil : rest.filter (fun p => decide (0 < p.refcount)) = rest := by
        apply List.filter_eq_self.2
        intro r hr
        simpa using hrest r hr
      simp [List.filter_cons, hp, hfil]
    · have hpos : 0 < p.refcount := Nat.pos_of_ne_zero hp
      obtain ⟨r, hr, hz⟩ := hex
      have hrmem : r ∈ rest := by
        rcases List.mem_cons.1 hr with rfl | h
        · exact absurd hz hp
        · exact h
      have := ih hnd.2 (fun r hr => hall r (by simp [hr])) ⟨r, hrmem, hz⟩
      simp [List.filter_cons, hpos, this]

theorem length_eq_of_map_memPtr_eq {reg reg1 : List PtrDetails}
    (h : reg1.map PtrDetails.memPtr = reg.map PtrDetails.memPtr) : reg1.length = reg.length := by
  have := congrArg List.length h
  simpa using this

theorem mem_of_map_memPtr_eq {reg reg1 : List PtrDetails}
    (h : reg1.map PtrDetails.memPtr = reg.map PtrDetails.memPtr) {r1 : PtrDetails}
    (hr1 : r1 ∈ reg1) : ∃ r ∈ reg, r.memPtr = r1.memPtr := by
  have hmem : r1.memPtr ∈ reg1.map PtrDetails.memPtr := List.mem_map.2 ⟨r1, hr1, rfl⟩
  rw [h] at hmem
  exact List.mem_map.1 hmem

theorem ctorAddrRegistry_length (size : Int) (reg : List PtrDetails) (t : Int) :
    ((t ≠ 0 ∧ ∀ r ∈ reg, r.memPtr ≠ t) →
      (ctorAddrRegistry size reg t).length = reg.length + 1) ∧
    (¬ (t ≠ 0 ∧ ∀ r ∈ reg, r.memPtr ≠ t) →
      (ctorAddrRegistry size reg t).length = reg.length) := by
  constructor
  · rintro ⟨h0, hnone⟩
    rw [ctorAddrRegistry_of_find_none size h0 hnone]
    simp
  · intro h
    by_cases h0 : t = 0
    · simp [ctorAddrRegistry, h0]
    · cases hfind : findPtrInfo reg t with
      | none => exact absurd ⟨h0, findPtrInfo_eq_none.1 hfind⟩ h
      | some i => simp [ctorAddrRegistry, h0, hfind, updateAt_length]

theorem liveCount_set_some (hs : List (Option Pointer)) (i : Nat) (this h : Pointer)
    (hi : hs.getD i none = some this) : liveCount (hs.set i (some h)) = liveCount hs := by
  have := liveCount_set hs i this (some h) hi
  rw [liveCount_cons_some] at this
  simp only [liveCount, List.filter_nil, List.length_nil] at this
  simp only [liveCount]
  omega

theorem handle_constructAddr (size : Int) (s : State) (t : Int) :
    (constructAddr size s t).handle s.handles.length =
      some { addr := t, isArray := decide (size > 0), arraySize := toUnsigned size } := by
  have hh : (constructAddr size s t).handles = s.handles ++
      [some { addr := t, isArray := decide (size > 0), arraySize := toUnsigned size }] := rfl
  simp [State.handle, hh]

theorem sameAddrState_then_construct (n : Nat) :
    (constructAddr 0 (sameAddrState n) 2).refContainer =
        [{ refcount := n % UINT_MOD, memPtr := 1, isArray := false, arraySize := 0 },
         { refcount := 1, memPtr := 2, isArray := false, arraySize := 0 }] ∧
      (constructAddr 0 (sameAddrState n) 2).handle n =
        some { addr := 2, isArray := false, arraySize := 0 } := by
  constructor
  · have hreg : (constructAddr 0 (sameAddrState n) 2).refContainer =
        ctorAddrRegistry 0 (sameAddrState n).refContainer 2 := rfl
    rw [hreg, sameAddrState_refContainer]
    simp [ctorAddrRegistry, findPtrInfo, PtrDetails.ctor, toUnsigned_zero]
  · have h := handle_constructAddr 0 (sameAddrState n) 2
    have hlen : (sameAddrState n).handles.length = n := by simp [sameAddrState]
    rw [hlen] at h
    rw [h]
    simp [toUnsigned_zero]

theorem destroy_refContainer (s : State) (i : Nat) (this : Pointer) :
    (destroy s i this).refContainer =
      (dtorRelease s.refContainer this).filter (fun p => decide (0 < p.refcount)) := by
  rw [destroy, collect_refContainer]

theorem step_destroy_of_handle (size : Int) {s : State} {i : Nat} {this : Pointer}
    (hi : s.handle i = some this) : step size s (Op.destroy i) = some (destroy s i this) := by
  simp only [step, hi]

theorem releaseRegistry_destroy_of_handle (size : Int) {s : State} {i : Nat} {this : Pointer}
    (hi : s.handle i = some this) :
    releaseRegistry size s (Op.destroy i) = some (dtorRelease s.refContainer this) := by
  simp only [releaseRegistry, hi]

/-- In the state `distinctState (n + 1)`, the destructor of the object named `0` (on the
address `1`) brings the record of that address to zero and `collect` erases it. -/
theorem destroy_distinctState (n : Nat) :
    (distinctState (n + 1)).handle 0 = some { addr := 1, isArray := false, arraySize := 0 } ∧
    (∃ r ∈ dtorRelease (distinctState (n + 1)).refContainer
        { addr := 1, isArray := false, arraySize := 0 }, r.refcount = 0 ∧ r.memPtr = 1) ∧
    (∀ r ∈ (destroy (distinctState (n + 1)) 0
        { addr := 1, isArray := false, arraySize := 0 }).refContainer, r.memPtr ≠ 1) ∧
    (destroy (distinctState (n + 1)) 0
        { addr := 1, isArray := false, arraySize := 0 }).refContainer.length = n := by
  have hreg : (distinctState (n + 1)).refContainer =
      { refcount := 1, memPtr := 1, isArray := false, arraySize := 0 } ::
        (List.range n).map
          (fun (k : Nat) =>
            { refcount := 1, memPtr := (k : Int) + 2, isArray := false, arraySize := 0 }) := by
    simp only [distinctState, List.range_succ_eq_map, List.map_cons, List.map_map]
    congr 1
  have hrel : dtorRelease (distinctState (n + 1)).refContainer
      { addr := 1, isArray := false, arraySize := 0 } =
      { refcount := 0, memPtr := 1, isArray := false, arraySize := 0 } ::
        (List.range n).map
          (fun (k : Nat) =>
            { refcount := 1, memPtr := (k : Int) + 2, isArray := false, arraySize := 0 }) := by
    rw [hreg]
    simp [dtorRelease, findPtrInfo, updateAt, PtrDetails.decr]
  have hfil : (destroy (distinctState (n + 1)) 0
      { addr := 1, isArray := false, arraySize := 0 }).refContainer =
      (List.range n).map
        (fun (k : Nat) =>
          { refcount := 1, memPtr := (k : Int) + 2, isArray := false, arraySize := 0 }) := by
    rw [destroy_refContainer, hrel]
    rw [List.filter_cons_of_neg (by simp)]
    rw [List.filter_eq_self]
    intro r hr
    simp only [List.mem_map, List.mem_range] at hr
    obtain ⟨k, -, rfl⟩ := hr
    simp
  refine ⟨?_, ?_, ?_, ?_⟩
  · simp [State.handle, distinctState, List.range_succ_eq_map]
  · rw [hrel]
    exact ⟨_, List.mem_cons_self _ _, rfl, rfl⟩
  · rw [hfil]
    intro r hr
    simp only [List.mem_map, List.mem_range] at hr
    obtain ⟨k, -, rfl⟩ := hr
    simp only
    omega
  · rw [hfil]
    simp

/-- C4, as stated, fails. First, with one object on the address `1`, the assignment of the
untracked address `2` to it brings the record of `1` to zero (it is in the registry with
`refcount = 0` when `collect` is called) and erases it, but appends the record of `2` in the
same call: `refContainerSize()` is `1` before and `1` after, not one less. Second, after
`2^32` objects have been constructed from the address `1` (its record then has
`refcount = 0`) and one from the address `2`, destroying the latter erases both records:
`refContainerSize()` goes from `2` to `0`. Third, after `2^31` objects have been constructed
from the addresses `1, ..., 2^31`, destroying the first one brings the record of `1` to zero
and erases it: `refContainerSize()` goes from `-2147483648` to `2147483647`. -/
theorem assign_fresh_address_keeps_size :
    (run 0 State.init (List.replicate 4294967296 (Op.constructAddr 1)) =
        some (sameAddrState 4294967296) ∧
      step 0 (sameAddrState 4294967296) (Op.constructAddr 2) =
        some (constructAddr 0 (sameAddrState 4294967296) 2) ∧
      refContainerSize (constructAddr 0 (sameAddrState 4294967296) 2).refContainer = 2 ∧
      releaseRegistry 0 (constructAddr 0 (sameAddrState 4294967296) 2)
          (Op.destroy 4294967296) =
        some [{ refcount := 0, memPtr := 1, isArray := false, arraySize := 0 },
              { refcount := 0, memPtr := 2, isArray := false, arraySize := 0 }] ∧
      ∃ s1, step 0 (constructAddr 0 (sameAddrState 4294967296) 2) (Op.destroy 4294967296) =
          some s1 ∧ refContainerSize s1.refContainer = 0) ∧
    run 0 State.init [Op.constructAddr 1] =
      some { refContainer := [{ refcount := 1, memPtr := 1, isArray := false, arraySize := 0 }]
             first := false
             exitHooks := 1
             handles := [some { addr := 1, isArray := false, arraySize := 0 }]
             deallocs := [] } ∧
    releaseRegistry 0
        { refContainer := [{ refcount := 1, memPtr := 1, isArray := false, arraySize := 0 }]
          first := false
          exitHooks := 1
          handles := [some { addr := 1, isArray := false, arraySize := 0 }]
          deallocs := [] } (Op.assignAddr 0 2) =
      some [{ refcount := 0, memPtr := 1, isArray := false, arraySize := 0 },
            { refcount := 1, memPtr := 2, isArray := false, arraySize := 0 }] ∧
    step 0
        { refContainer := [{ refcount := 1, memPtr := 1, isArray := false, arraySize := 0 }]
          first := false
          exitHooks := 1
          handles := [some { addr := 1, isArray := false, arraySize := 0 }]
          deallocs := [] } (Op.assignAddr 0 2) =
      some { refContainer := [{ refcount := 1, memPtr := 2, isArray := false, arraySize := 0 }]
             first := false
             exitHooks := 1
             handles := [some { addr := 2, isArray := false, arraySize := 0 }]
             deallocs := [Dealloc.scalarDelete 1] } ∧
    (run 0 State.init (distinctOps 2147483648) = some (distinctState 2147483648) ∧
      refContainerSize (distinctState 2147483648).refContainer = -2147483648 ∧
      (∃ reg1, releaseRegistry 0 (distinctState 2147483648) (Op.destroy 0) = some reg1 ∧
        ∃ r ∈ reg1, r.refcount = 0 ∧ r.memPtr = 1) ∧
      ∃ s1, step 0 (distinctState 2147483648) (Op.destroy 0) = some s1 ∧
        (∀ r ∈ s1.refContainer, r.memPtr ≠ 1) ∧
        refContainerSize s1.refContainer = 2147483647) := by
  refine ⟨?_, by decide, by decide, by decide, ?_⟩
  swap
  · have hd := destroy_distinctState 2147483647
    simp only [Nat.reduceAdd] at hd
    obtain ⟨hh, hz, hgone, hlen⟩ := hd
    refine ⟨?_, ?_, ⟨_, releaseRegistry_destroy_of_handle 0 hh, hz⟩,
      _, step_destroy_of_handle 0 hh, hgone, ?_⟩
    · have h := run_distinctOps 2147483647
      simpa only [Nat.reduceAdd] using h
    · simp only [refContainerSize, distinctState_length]
      decide
    · simp only [refContainerSize, hlen]
      decide
  obtain ⟨hreg, hh⟩ := sameAddrState_then_construct 4294967296
  simp only [UINT_MOD, Nat.reduceMod] at hreg
  refine ⟨?_, by simp only [step], ?_, ?_, ?_⟩
  · have h := run_replicate_constructAddr 4294967295
    simpa only [Nat.reduceAdd] using h
  · rw [hreg]
    rfl
  · rw [releaseRegistry_destroy_of_handle 0 hh, hreg]
    decide
  · refine ⟨destroy (constructAddr 0 (sameAddrState 4294967296) 2) 4294967296
      { addr := 2, isArray := false, arraySize := 0 }, step_destroy_of_handle 0 hh, ?_⟩
    rw [destroy_refContainer, hreg]
    decide

/-! ## `Iter` arithmetic -/

/-- C16. `it + n` and `it - n` change the receiver in place: its `ptr` becomes `ptr + n`,
resp. `ptr - n`, its `begin`, `end` and `length` are unchanged, and the returned `Iter` has
the fields of the changed receiver; `it + n` followed by `it - n` restores `ptr`. -/
theorem iter_add_sub_in_place (it : Iter) (n : Int) :
    ((it.addInt n).1.ptr = it.ptr + n ∧ (it.addInt n).1.begin = it.begin ∧
      (it.addInt n).1.end_ = it.end_ ∧ (it.addInt n).1.length = it.length ∧
      (it.addInt n).2 = (it.addInt n).1) ∧
    ((it.subInt n).1.ptr = it.ptr - n ∧ (it.subInt n).1.begin = it.begin ∧
      (it.subInt n).1.end_ = it.end_ ∧ (it.subInt n).1.length = it.length ∧
      (it.subInt n).2 = (it.subInt n).1) ∧
    (((it.addInt n).1.subInt n).1 = it ∧ ((it.subInt n).1.addInt n).1 = it) := by
  refine ⟨⟨rfl, rfl, rfl, rfl, rfl⟩, ⟨rfl, rfl, rfl, rfl, rfl⟩, ?_, ?_⟩
  · cases it
    simp [Iter.addInt, Iter.subInt]
  · cases it
    simp [Iter.addInt, Iter.subInt]

/-! ## The fields of live objects -/

theorem toUnsigned_lt (z : Int) : toUnsigned z < 4294967296 := by
  unfold toUnsigned
  omega

theorem toUnsigned_of_nonneg {z : Int} (h0 : 0 ≤ z) (h1 : z < 4294967296) :
    (toUnsigned z : Int) = z := by
  unfold toUnsigned
  omega

theorem toInt_of_lt {u : Nat} (h : u < 2147483648) : toInt u = (u : Int) := by
  simp [toInt, h]

theorem mem_handles_of_handle {s : State} {i : Nat} {h : Pointer}
    (hi : s.handle i = some h) : some h ∈ s.handles := by
  unfold State.handle at hi
  rw [List.getD_eq_getElem?_getD] at hi
  cases hget : s.handles[i]? with
  | none => simp [hget] at hi
  | some o =>
    simp only [hget, Option.getD_some] at hi
    subst hi
    exact List.getElem?_mem hget

theorem wellFormed_fromAddr (size : Int)
    (hsize : -2147483648 ≤ size ∧ size < 2147483648) (t : Int) :
    Pointer.WellFormed
      { addr := t, isArray := decide (size > 0), arraySize := toUnsigned size } := by
  refine ⟨toUnsigned_lt size, ?_⟩
  intro harr
  simp only [decide_eq_true_eq] at harr
  have := @toUnsigned_of_nonneg size (by omega) (by omega)
  simp only at this ⊢
  omega

theorem step_handles_wellFormed {size : Int} {s s1 : State} {op : Op}
    (hsize : -2147483648 ≤ size ∧ size < 2147483648)
    (hwf : ∀ h, some h ∈ s.handles → h.WellFormed)
    (hstep : step size s op = some s1) :
    ∀ h, some h ∈ s1.handles → h.WellFormed := by
  have happ : ∀ (x h : Pointer), x.WellFormed → some h ∈ s.handles ++ [some x] →
      h.WellFormed := by
    intro x h hx hmem
    rcases List.mem_append.1 hmem with hm | hm
    · exact hwf h hm
    · simp only [List.mem_singleton, Option.some.injEq] at hm
      rw [hm]; exact hx
  have hset : ∀ (i : Nat) (o : Option Pointer) (h : Pointer),
      (∀ x, o = some x → x.WellFormed) → some h ∈ s.handles.set i o → h.WellFormed := by
    intro i o h ho hmem
    rcases List.mem_or_eq_of_mem_set hmem with hm | hm
    · exact hwf h hm
    · exact ho h hm.symm
  cases op with
  | constructEmpty =>
    simp only [step, Option.some.injEq] at hstep
    subst hstep
    intro h hmem
    exact happ { addr := 0, isArray := false, arraySize := 0 } h
      ⟨by decide, by intro hc; simp at hc⟩ hmem
  | constructAddr t =>
    simp only [step, Option.some.injEq] at hstep
    subst hstep
    intro h hmem
    exact happ _ h (wellFormed_fromAddr size hsize t) hmem
  | copyConstruct ob =>
    simp only [step] at hstep
    cases hob : s.handle ob with
    | none => simp [hob] at hstep
    | some o =>
      simp only [hob, Option.some.injEq] at hstep
      subst hstep
      intro h hmem
      exact happ { addr := o.addr, isArray := o.isArray, arraySize := o.arraySize } h
        (hwf o (mem_handles_of_handle hob)) hmem
  | destroy i =>
    simp only [step] at hstep
    cases hi : s.handle i with
    | none => simp [hi] at hstep
    | some this =>
      simp only [hi, Option.some.injEq] at hstep
      subst hstep
      intro h hmem
      exact hset i none h (by intro x hx; cases hx) hmem
  | assignAddr i t =>
    simp only [step] at hstep
    cases hi : s.handle i with
    | none => simp [hi] at hstep
    | some this =>
      simp only [hi, Option.some.injEq] at hstep
      subst hstep
      intro h hmem
      refine hset i (some { this with addr := t }) h ?_ hmem
      intro x hx
      simp only [Option.some.injEq] at hx
      subst hx
      exact hwf this (mem_handles_of_handle hi)
  | assignPointer i j =>
    simp only [step] at hstep
    cases hi : s.handle i with
    | none => simp [hi] at hstep
    | some this =>
      cases hj : s.handle j with
      | none => simp [hi, hj] at hstep
      | some rv =>
        simp only [hi, hj, Option.some.injEq] at hstep
        subst hstep
        intro h hmem
        unfold assignPointer at hmem
        split at hmem
        · exact hwf h hmem
        · refine hset i _ h ?_ hmem
          intro x hx
          simp only [Option.some.injEq] at hx
          subst hx
          exact hwf rv (mem_handles_of_handle hj)
  | collect =>
    simp only [step, Option.some.injEq] at hstep
    subst hstep
    exact hwf
  | shutdown =>
    simp only [step, Option.some.injEq] at hstep
    subst hstep
    intro h hmem
    unfold shutdown at hmem
    split at hmem
    · exact hwf h hmem
    · exact hwf h hmem

theorem run_handles_wellFormed {size : Int} {s s1 : State} {ops : List Op}
    (hsize : -2147483648 ≤ size ∧ size < 2147483648)
    (hwf : ∀ h, some h ∈ s.handles → h.WellFormed)
    (hrun : run size s ops = some s1) :
    ∀ h, some h ∈ s1.handles → h.WellFormed := by
  induction ops generalizing s with
  | nil =>
    simp only [run, Option.some.injEq] at hrun
    subst hrun
    exact hwf
  | cons op ops ih =>
    simp only [run] at hrun
    cases hs : step size s op with
    | none => simp [hs] at hrun
    | some s2 =>
      simp only [hs] at hrun
      exact ih (step_handles_wellFormed hsize hwf hs) hrun

theorem begin_end_of_wellFormed (h : Pointer) (hwf : h.WellFormed) (n : Nat)
    (hn : n = if h.isArray = true then h.arraySize else 1) :
    h.begin = { ptr := h.addr, end_ := h.addr + n, begin := h.addr, length := n } ∧
    h.end_ = { ptr := h.addr + n, end_ := h.addr + n, begin := h.addr, length := n } := by
  obtain ⟨a, isArr, sz⟩ := h
  obtain ⟨hlt, harr⟩ := hwf
  simp only at hlt harr hn
  have key : ∀ m : Nat, m < 4294967296 → toUnsigned (m : Int) = m := by
    intro m hm
    have := @toUnsigned_of_nonneg (m : Int) (by omega) (by omega)
    omega
  cases isArr with
  | false =>
    simp only [Bool.false_eq_true, if_false] at hn
    subst hn
    have := key 1 (by omega)
    simp only [Nat.cast_one] at this
    simp [Pointer.begin, Pointer.end_, Iter.ctor, this]
  | true =>
    simp only [if_true] at hn
    subst hn
    have h31 := harr rfl
    simp [Pointer.begin, Pointer.end_, Iter.ctor, toInt_of_lt h31, key n hlt]

/-- C14. For every live `Pointer` object of a reachable state (`size` being an `int`) with
`addr = a`, and `n` its `arraySize` if `isArray` is true and `1` otherwise: `begin()` is the
`Iter` with `ptr = a`, `begin = a`, `end = a + n`, `end()` is the `Iter` with `ptr = a + n`,
`begin = a`, `end = a + n`; both have `size() = n`, and `end() - begin() = n`. -/
theorem begin_end_span (size : Int) (ops : List Op) (s : State) (i : Nat) (h : Pointer)
    (n : Nat)
    (hsize : -2147483648 ≤ size ∧ size < 2147483648)
    (hrun : run size State.init ops = some s) (hi : s.handle i = some h)
    (hn : n = if h.isArray = true then h.arraySize else 1) :
    h.begin = { ptr := h.addr, end_ := h.addr + n, begin := h.addr, length := n } ∧
    h.end_ = { ptr := h.addr + n, end_ := h.addr + n, begin := h.addr, length := n } ∧
    h.begin.size = n ∧ h.end_.size = n ∧ h.end_.diff h.begin = n := by
  have hwf : h.WellFormed :=
    run_handles_wellFormed hsize (by simp [State.init]) hrun h (mem_handles_of_handle hi)
  obtain ⟨hb, he⟩ := begin_end_of_wellFormed h hwf n hn
  refine ⟨hb, he, ?_, ?_, ?_⟩
  · rw [hb]; rfl
  · rw [he]; rfl
  · have hn31 : n < 2147483648 := by
      rw [hn]
      split
      · exact hwf.2 (by assumption)
      · omega
    rw [hb, he]
    simp only [Iter.diff, toIntWrap]
    omega

theorem begin_end_span_witness :
    run 5 State.init [Op.constructAddr 100, Op.constructEmpty] = some arrayDemoState ∧
      Pointer.begin { addr := 100, isArray := true, arraySize := 5 } =
        { ptr := 100, end_ := 100 + (5 : Nat), begin := 100, length := 5 } ∧
      Pointer.end_ { addr := 100, isArray := true, arraySize := 5 } =
        { ptr := 100 + (5 : Nat), end_ := 100 + (5 : Nat), begin := 100, length := 5 } :=
  ⟨by decide,
    (begin_end_span 5 [Op.constructAddr 100, Op.constructEmpty] arrayDemoState 0
      { addr := 100, isArray := true, arraySize := 5 } 5 (by decide) (by decide) (by decide)
      (by decide)).1,
    (begin_end_span 5 [Op.constructAddr 100, Op.constructEmpty] arrayDemoState 0
      { addr := 100, isArray := true, arraySize := 5 } 5 (by decide) (by decide) (by decide)
      (by decide)).2.1⟩

theorem iterate_preIncr (it : Iter) (k : Nat) :
    Iter.preIncr^[k] it = { it with ptr := it.ptr + k } := by
  induction k with
  | zero => simp
  | succ k ih =>
    rw [Function.iterate_succ_apply', ih]
    simp only [Iter.preIncr, Nat.cast_add, Nat.cast_one, Iter.mk.injEq, and_true]
    omega

/-- C11. Scenario B for every `int` `n > 0`: the object constructed by `Pointer<T, n>(a)`,
`a` non-null, has `begin().size() = n` and `end() - begin() = n`; `begin()` after `k` prefix
increments dereferences to the element at `a + k` for every `0 <= k < n`; after `n` prefix
increments it compares equal to `end()` and dereferencing it throws `OutOfRangeExc`. -/
theorem scenario_B {T : Type} (mem : Int → T) (s : State) (a n : Int) (ha : a ≠ 0)
    (hn : 0 < n) (hmax : n < 2147483648) :
    ∃ h, (constructAddr n s a).handle s.handles.length = some h ∧ h.addr = a ∧
      (∃ r ∈ (constructAddr n s a).refContainer, r.memPtr = a) ∧
      (h.begin.size : Int) = n ∧ h.end_.diff h.begin = n ∧
      (∀ k : Nat, (k : Int) < n →
        (Iter.preIncr^[k] h.begin).deref mem = Except.ok (mem (a + k))) ∧
      (Iter.preIncr^[n.toNat] h.begin).eq h.end_ = true ∧
      signalsOutOfRange ((Iter.preIncr^[n.toNat] h.begin).deref mem) = true := by
  have hwf := wellFormed_fromAddr n ⟨by omega, hmax⟩ a
  have hu : (toUnsigned n : Int) = n := toUnsigned_of_nonneg (by omega) (by omega)
  have hdec : decide (n > 0) = true := by simpa using hn
  obtain ⟨hb, he⟩ := begin_end_of_wellFormed _ hwf (toUnsigned n) (by simp [hdec])
  simp only at hb he
  refine ⟨_, handle_constructAddr n s a, rfl, ?_, ?_, ?_, ?_, ?_, ?_⟩
  · have hreg : (constructAddr n s a).refContainer = ctorAddrRegistry n s.refContainer a :=
      rfl
    rw [hreg]
    cases hfind : findPtrInfo s.refContainer a with
    | none =>
      rw [ctorAddrRegistry_of_find_none n ha (findPtrInfo_eq_none.1 hfind)]
      exact ⟨PtrDetails.ctor a (toUnsigned n), by simp, rfl⟩
    | some i =>
      obtain ⟨r, hr, hra, -, hupd⟩ := findPtrInfo_eq_some hfind
      have hlt : i < s.refContainer.length := by
        by_contra hc
        rw [List.getElem?_eq_none (by omega)] at hr
        simp at hr
      refine ⟨r.incr, ?_, by rw [incr_memPtr]; exact hra⟩
      simp only [ctorAddrRegistry, ha, ne_eq, not_false_eq_true, if_true, hfind, hupd]
      exact List.mem_iff_getElem?.2 ⟨i, by simp [List.getElem?_set, hlt]⟩
  · rw [hb]
    simp only [Iter.size]
    exact hu
  · rw [hb, he]
    simp only [Iter.diff, toIntWrap]
    omega
  · intro k hk
    rw [iterate_preIncr, hb]
    have hin : ¬ (a + (k : Int) ≥ a + (toUnsigned n : Int) ∨ a + (k : Int) < a) := by omega
    simp only [Iter.deref, hin, if_false]
  · rw [iterate_preIncr, hb, he]
    simp only [Iter.eq, decide_eq_true_eq]
    omega
  · rw [iterate_preIncr, hb]
    have hout : a + ((n.toNat : Nat) : Int) ≥ a + (toUnsigned n : Int) ∨
        a + ((n.toNat : Nat) : Int) < a := by omega
    simp only [Iter.deref, hout, if_true, signalsOutOfRange]

theorem scenario_B_witness :
    ∃ h, (constructAddr 5 State.init 100).handle State.init.handles.length = some h ∧
      h.addr = 100 ∧
      (∃ r ∈ (constructAddr 5 State.init 100).refContainer, r.memPtr = 100) ∧
      (h.begin.size : Int) = 5 ∧ h.end_.diff h.begin = 5 ∧
      (∀ k : Nat, (k : Int) < 5 →
        (Iter.preIncr^[k] h.begin).deref (fun x => x) = Except.ok (100 + (k : Int))) ∧
      (Iter.preIncr^[(5 : Int).toNat] h.begin).eq h.end_ = true ∧
      signalsOutOfRange ((Iter.preIncr^[(5 : Int).toNat] h.begin).deref (fun x => x)) = true :=
  scenario_B (fun x => x) State.init 100 5 (by decide) (by decide) (by decide)

/-! ## No record for the null address -/

theorem noNull_of_map_memPtr_eq {reg reg1 : List PtrDetails}
    (h : reg1.map PtrDetails.memPtr = reg.map PtrDetails.memPtr)
    (hnn : ∀ r ∈ reg, r.memPtr ≠ 0) : ∀ r ∈ reg1, r.memPtr ≠ 0 := by
  intro r hr
  obtain ⟨r0, hr0, h0⟩ := mem_of_map_memPtr_eq h hr
  rw [← h0]
  exact hnn r0 hr0

theorem noNull_ctorAddrRegistry (size : Int) {reg : List PtrDetails} (t : Int)
    (hnn : ∀ r ∈ reg, r.memPtr ≠ 0) : ∀ r ∈ ctorAddrRegistry size reg t, r.memPtr ≠ 0 := by
  by_cases h0 : t = 0
  · simpa [ctorAddrRegistry, h0] using hnn
  · intro r hr
    rcases mem_ctorAddrRegistry_memPtr size hr with h | ⟨r0, hr0, h⟩
    · rw [h]; exact h0
    · rw [← h]; exact hnn r0 hr0

theorem noNull_filter {reg : List PtrDetails} (q : PtrDetails → Bool)
    (hnn : ∀ r ∈ reg, r.memPtr ≠ 0) : ∀ r ∈ reg.filter q, r.memPtr ≠ 0 :=
  fun r hr => hnn r (List.mem_filter.1 hr).1

theorem ctorCopyRegistry_map_memPtr (reg : List PtrDetails) (ob : Pointer) :
    (ctorCopyRegistry reg ob).map PtrDetails.memPtr = reg.map PtrDetails.memPtr := by
  unfold ctorCopyRegistry
  cases findPtrInfo reg ob.addr with
  | none => rfl
  | some i => simp [updateAt_map_memPtr _ incr_memPtr]

theorem step_noNull {size : Int} {s s1 : State} {op : Op}
    (hnn : ∀ r ∈ s.refContainer, r.memPtr ≠ 0) (hstep : step size s op = some s1) :
    ∀ r ∈ s1.refContainer, r.memPtr ≠ 0 := by
  cases op with
  | constructEmpty =>
    simp only [step, Option.some.injEq] at hstep
    subst hstep
    exact hnn
  | constructAddr t =>
    simp only [step, Option.some.injEq] at hstep
    subst hstep
    exact noNull_ctorAddrRegistry size t hnn
  | copyConstruct ob =>
    simp only [step] at hstep
    cases hob : s.handle ob with
    | none => simp [hob] at hstep
    | some o =>
      simp only [hob, Option.some.injEq] at hstep
      subst hstep
      exact noNull_of_map_memPtr_eq (ctorCopyRegistry_map_memPtr s.refContainer o) hnn
  | destroy i =>
    simp only [step] at hstep
    cases hi : s.handle i with
    | none => simp [hi] at hstep
    | some this =>
      simp only [hi, Option.some.injEq] at hstep
      subst hstep
      rw [destroy, collect_refContainer]
      exact noNull_filter _ (noNull_of_map_memPtr_eq (dtorRelease_map_memPtr _ _) hnn)
  | assignAddr i t =>
    simp only [step] at hstep
    cases hi : s.handle i with
    | none => simp [hi] at hstep
    | some this =>
      simp only [hi, Option.some.injEq] at hstep
      subst hstep
      rw [assignAddr, collect_refContainer]
      apply noNull_filter
      exact noNull_ctorAddrRegistry size t
        (noNull_of_map_memPtr_eq (dtorRelease_map_memPtr _ _) hnn)
  | assignPointer i j =>
    simp only [step] at hstep
    cases hi : s.handle i with
    | none => simp [hi] at hstep
    | some this =>
      cases hj : s.handle j with
      | none => simp [hi, hj] at hstep
      | some rv =>
        simp only [hi, hj, Option.some.injEq] at hstep
        subst hstep
        unfold assignPointer
        split
        · exact hnn
        · rw [collect_refContainer]
          exact noNull_filter _
            (noNull_of_map_memPtr_eq (assignPointerRelease_map_memPtr _ _ _) hnn)
  | collect =>
    simp only [step, Option.some.injEq] at hstep
    subst hstep
    rw [collect_refContainer]
    exact noNull_filter _ hnn
  | shutdown =>
    simp only [step, Option.some.injEq] at hstep
    subst hstep
    unfold shutdown
    split
    · exact hnn
    · rw [collect_refContainer]
      exact noNull_filter _ (noNull_of_map_memPtr_eq (zeroAll_map_memPtr _) hnn)

theorem run_noNull {size : Int} {s s1 : State} {ops : List Op}
    (hnn : ∀ r ∈ s.refContainer, r.memPtr ≠ 0) (hrun : run size s ops = some s1) :
    ∀ r ∈ s1.refContainer, r.memPtr ≠ 0 := by
  induction ops generalizing s with
  | nil =>
    simp only [run, Option.some.injEq] at hrun
    subst hrun
    exact hnn
  | cons op ops ih =>
    simp only [run] at hrun
    cases hs : step size s op with
    | none => simp [hs] at hrun
    | some s2 =>
      simp only [hs] at hrun
      exact ih (step_noNull hnn hs) hrun

/-- C15. In every reachable state, copy-constructing from an object whose `addr` is null
leaves the registry unchanged (no record incremented, none added, nothing deallocated); the
new object has a null `addr` and the `isArray` and `arraySize` of the source. -/
theorem copy_from_null_unchanged (size : Int) (ops : List Op) (s : State) (ob : Nat)
    (o : Pointer) (hrun : run size State.init ops = some s) (ho : s.handle ob = some o)
    (haddr : o.addr = 0) :
    ∃ s1, step size s (Op.copyConstruct ob) = some s1 ∧
      s1.refContainer = s.refContainer ∧ s1.deallocs = s.deallocs ∧
      s1.handles = s.handles ++
        [some { addr := 0, isArray := o.isArray, arraySize := o.arraySize }] := by
  have hnn : ∀ r ∈ s.refContainer, r.memPtr ≠ 0 := run_noNull (by simp [State.init]) hrun
  have hnone : findPtrInfo s.refContainer o.addr = none :=
    findPtrInfo_eq_none.2 (fun r hr h => hnn r hr (h.trans haddr))
  refine ⟨copyConstruct s o, by simp [step, ho], ?_, rfl, ?_⟩
  · simp [copyConstruct, ctorCopyRegistry, hnone]
  · simp [copyConstruct, haddr]

theorem copy_from_null_unchanged_witness :
    run 5 State.init [Op.constructAddr 100, Op.constructEmpty] = some arrayDemoState ∧
      ∃ s1, step 5 arrayDemoState (Op.copyConstruct 1) = some s1 ∧
        s1.refContainer = arrayDemoState.refContainer ∧
        s1.deallocs = arrayDemoState.deallocs ∧
        s1.handles = arrayDemoState.handles ++
          [some { addr := 0, isArray := false, arraySize := 0 }] :=
  ⟨by decide,
    copy_from_null_unchanged 5 [Op.constructAddr 100, Op.constructEmpty] arrayDemoState 1
      { addr := 0, isArray := false, arraySize := 0 } (by decide) (by decide) rfl⟩

/-! ## Reference counts stay positive -/

theorem mem_updateAt {f : PtrDetails → PtrDetails} {reg : List PtrDetails} {i : Nat}
    {r1 : PtrDetails} (h : r1 ∈ updateAt f reg i) : r1 ∈ reg ∨ ∃ r ∈ reg, r1 = f r := by
  induction reg generalizing i with
  | nil => simp [updateAt] at h
  | cons p rest ih =>
    cases i with
    | zero =>
      simp only [updateAt, List.mem_cons] at h
      rcases h with h | h
      · exact Or.inr ⟨p, by simp, h⟩
      · exact Or.inl (by simp [h])
    | succ i =>
      simp only [updateAt, List.mem_cons] at h
      rcases h with h | h
      · exact Or.inl (by simp [h])
      · rcases ih h with h1 | ⟨r, hr, h1⟩
        · exact Or.inl (by simp [h1])
        · exact Or.inr ⟨r, by simp [hr], h1⟩

theorem positive_updateAt_incr {reg : List PtrDetails} (i : Nat)
    (hpos : ∀ r ∈ reg, 1 ≤ r.refcount) (hmax : ∀ r ∈ reg, r.refcount + 1 < UINT_MOD) :
    ∀ r ∈ updateAt PtrDetails.incr reg i, 1 ≤ r.refcount := by
  intro r1 hr1
  rcases mem_updateAt hr1 with h | ⟨r, hr, rfl⟩
  · exact hpos r1 h
  · simp only [PtrDetails.incr]
    rw [Nat.mod_eq_of_lt (hmax r hr)]
    omega

theorem positive_filter (reg : List PtrDetails) :
    ∀ r ∈ reg.filter (fun p => decide (0 < p.refcount)), 1 ≤ r.refcount := by
  intro r hr
  have := (List.mem_filter.1 hr).2
  simp only [decide_eq_true_eq] at this
  exact this

/-! ## The value of a `refcount` across one operation -/

theorem updateAt_getElem?_cases (f : PtrDetails → PtrDetails) (reg : List PtrDetails)
    (i j : Nat) (r : PtrDetails) (h : reg[j]? = some r) :
    ∃ r1, (updateAt f reg i)[j]? = some r1 ∧ (r1 = r ∨ r1 = f r) := by
  induction reg generalizing i j with
  | nil => simp at h
  | cons p rest ih =>
    cases i with
    | zero =>
      cases j with
      | zero =>
        simp only [List.getElem?_cons_zero, Option.some.injEq] at h
        subst h
        exact ⟨f p, by simp [updateAt], Or.inr rfl⟩
      | succ j => exact ⟨r, by simpa [updateAt] using h, Or.inl rfl⟩
    | succ i =>
      cases j with
      | zero => exact ⟨r, by simpa [updateAt] using h, Or.inl rfl⟩
      | succ j =>
        obtain ⟨r1, h1, h2⟩ := ih i j (by simpa using h)
        exact ⟨r1, by simpa [updateAt] using h1, h2⟩

/-- The decrement of `~Pointer` and of the two assignments keeps every record at its
position and changes at most one record, by `refcount--`. -/
theorem dtorRelease_getElem? (reg : List PtrDetails) (this : Pointer) (j : Nat)
    (r : PtrDetails) (h : reg[j]? = some r) :
    ∃ r1, (dtorRelease reg this)[j]? = some r1 ∧ (r1 = r ∨ r1 = r.decr) := by
  unfold dtorRelease
  split
  · cases findPtrInfo reg this.addr with
    | none => exact ⟨r, h, Or.inl rfl⟩
    | some p => exact updateAt_getElem?_cases PtrDetails.decr reg p j r h
  · exact ⟨r, h, Or.inl rfl⟩

theorem ctorAddrRegistry_getElem? (size : Int) (reg : List PtrDetails) (t : Int) (j : Nat)
    (r : PtrDetails) (h : reg[j]? = some r) :
    ∃ r1, (ctorAddrRegistry size reg t)[j]? = some r1 ∧ (r1 = r ∨ r1 = r.incr) := by
  unfold ctorAddrRegistry
  split
  · cases findPtrInfo reg t with
    | none => exact ⟨r, append_getElem?_of_some _ h, Or.inl rfl⟩
    | some p => exact updateAt_getElem?_cases PtrDetails.incr reg p j r h
  · exact ⟨r, h, Or.inl rfl⟩

theorem ctorCopyRegistry_getElem? (reg : List PtrDetails) (ob : Pointer) (j : Nat)
    (r : PtrDetails) (h : reg[j]? = some r) :
    ∃ r1, (ctorCopyRegistry reg ob)[j]? = some r1 ∧ (r1 = r ∨ r1 = r.incr) := by
  unfold ctorCopyRegistry
  cases findPtrInfo reg ob.addr with
  | none => exact ⟨r, h, Or.inl rfl⟩
  | some p => exact updateAt_getElem?_cases PtrDetails.incr reg p j r h

theorem assignPointerRelease_unfold (reg : List PtrDetails) (this rv : Pointer) :
    assignPointerRelease reg this rv =
      if rv.addr ≠ 0 then ctorCopyRegistry (dtorRelease reg this) rv
      else dtorRelease reg this := rfl

/-- A record with `1 ≤ refcount < 2^32` that went through at most one `refcount--` followed
by at most one `refcount++` has its old count, one less, or one more modulo `2^32`. -/
theorem refcount_after_release {r r0 r1 : PtrDetails} (hpos : 1 ≤ r.refcount)
    (hlt : r.refcount < UINT_MOD) (h0 : r0 = r ∨ r0 = r.decr) (h1 : r1 = r0 ∨ r1 = r0.incr) :
    r1.memPtr = r.memPtr ∧
      (r1.refcount + 1 = r.refcount ∨ r1.refcount = r.refcount ∨
        r1.refcount = (r.refcount + 1) % UINT_MOD) := by
  have hd : r.decr.refcount + 1 = r.refcount := by
    simp only [PtrDetails.decr]
    rw [if_neg (by omega)]
    omega
  have hdi : r.decr.incr.refcount = r.refcount := by
    have e : r.decr.incr.refcount = (r.decr.refcount + 1) % UINT_MOD := rfl
    rw [e, hd, Nat.mod_eq_of_lt hlt]
  rcases h0 with rfl | rfl <;> rcases h1 with rfl | rfl
  · exact ⟨rfl, Or.inr (Or.inl rfl)⟩
  · exact ⟨incr_memPtr _, Or.inr (Or.inr rfl)⟩
  · exact ⟨decr_memPtr _, Or.inl hd⟩
  · exact ⟨by rw [incr_memPtr, decr_memPtr], Or.inr (Or.inl hdi)⟩

/-- The registry at the moment a destructor or an assignment calls `collect`, compared
position by position with the registry before the call. -/
theorem releaseRegistry_getElem? {size : Int} {s : State} {op : Op} {reg1 : List PtrDetails}
    (hrel : releaseRegistry size s op = some reg1)
    (hpos : ∀ r ∈ s.refContainer, 1 ≤ r.refcount)
    (hlt : ∀ r ∈ s.refContainer, r.refcount < UINT_MOD)
    (p : Nat) (r : PtrDetails) (hr : s.refContainer[p]? = some r) :
    ∃ r1, reg1[p]? = some r1 ∧ r1.memPtr = r.memPtr ∧
      (r1.refcount + 1 = r.refcount ∨ r1.refcount = r.refcount ∨
        r1.refcount = (r.refcount + 1) % UINT_MOD) := by
  have hmem := List.getElem?_mem hr
  have h1 := hpos r hmem
  have h2 := hlt r hmem
  cases op with
  | constructEmpty => simp [releaseRegistry] at hrel
  | constructAddr t => simp [releaseRegistry] at hrel
  | copyConstruct ob => simp [releaseRegistry] at hrel
  | collect => simp [releaseRegistry] at hrel
  | shutdown => simp [releaseRegistry] at hrel
  | destroy i =>
    simp only [releaseRegistry] at hrel
    cases hi : s.handle i with
    | none => simp [hi] at hrel
    | some this =>
      simp only [hi, Option.some.injEq] at hrel
      subst hrel
      obtain ⟨r0, hr0, hc0⟩ := dtorRelease_getElem? s.refContainer this p r hr
      exact ⟨r0, hr0, refcount_after_release h1 h2 hc0 (Or.inl rfl)⟩
  | assignAddr i t =>
    simp only [releaseRegistry] at hrel
    cases hi : s.handle i with
    | none => simp [hi] at hrel
    | some this =>
      simp only [hi, Option.some.injEq] at hrel
      subst hrel
      obtain ⟨r0, hr0, hc0⟩ := dtorRelease_getElem? s.refContainer this p r hr
      obtain ⟨r1, hr1, hc1⟩ := ctorAddrRegistry_getElem? size _ t p r0 hr0
      rw [assignAddrRelease_eq]
      exact ⟨r1, hr1, refcount_after_release h1 h2 hc0 hc1⟩
  | assignPointer i j =>
    simp only [releaseRegistry] at hrel
    by_cases hij : i = j
    · simp [hij] at hrel
    · simp only [hij, if_false] at hrel
      cases hi : s.handle i with
      | none => simp [hi] at hrel
      | some this =>
        cases hj : s.handle j with
        | none => simp [hi, hj] at hrel
        | some rv =>
          simp only [hi, hj, Option.some.injEq] at hrel
          subst hrel
          obtain ⟨r0, hr0, hc0⟩ := dtorRelease_getElem? s.refContainer this p r hr
          rw [assignPointerRelease_unfold]
          split
          · obtain ⟨r1, hr1, hc1⟩ := ctorCopyRegistry_getElem? _ rv p r0 hr0
            exact ⟨r1, hr1, refcount_after_release h1 h2 hc0 hc1⟩
          · exact ⟨r0, hr0, refcount_after_release h1 h2 hc0 (Or.inl rfl)⟩

/-- The result of a destructor or an assignment is the sweep of its release registry. -/
theorem step_eq_sweep_of_release {size : Int} {s s1 : State} {op : Op}
    {reg1 : List PtrDetails} (hstep : step size s op = some s1)
    (hrel : releaseRegistry size s op = some reg1) :
    s1.refContainer = reg1.filter (fun p => decide (0 < p.refcount)) := by
  cases op with
  | constructEmpty => simp [releaseRegistry] at hrel
  | constructAddr t => simp [releaseRegistry] at hrel
  | copyConstruct ob => simp [releaseRegistry] at hrel
  | collect => simp [releaseRegistry] at hrel
  | shutdown => simp [releaseRegistry] at hrel
  | destroy i =>
    simp only [releaseRegistry] at hrel
    simp only [step] at hstep
    cases hi : s.handle i with
    | none => simp [hi] at hrel
    | some this =>
      simp only [hi, Option.some.injEq] at hrel hstep
      subst hrel hstep
      exact destroy_refContainer s i this
  | assignAddr i t =>
    simp only [releaseRegistry] at hrel
    simp only [step] at hstep
    cases hi : s.handle i with
    | none => simp [hi] at hrel
    | some this =>
      simp only [hi, Option.some.injEq] at hrel hstep
      subst hrel hstep
      rw [assignAddr, collect_refContainer]
  | assignPointer i j =>
    simp only [releaseRegistry] at hrel
    simp only [step] at hstep
    by_cases hij : i = j
    · simp [hij] at hrel
    · simp only [hij, if_false] at hrel
      cases hi : s.handle i with
      | none => simp [hi] at hrel
      | some this =>
        cases hj : s.handle j with
        | none => simp [hi, hj] at hrel
        | some rv =>
          simp only [hi, hj, Option.some.injEq] at hrel hstep
          subst hrel hstep
          simp only [assignPointer, hij, if_false]
          rw [collect_refContainer]

/-- The operations that call no `collect` after a decrement (the constructors, `collect`,
`shutdown`, a self-assignment) lower no `refcount` of a record they keep. -/
theorem step_no_release_refcount {size : Int} {s s1 : State} {op : Op}
    (hstep : step size s op = some s1) (hrel : releaseRegistry size s op = none)
    (hmax : ((∃ t, op = Op.constructAddr t) ∨ ∃ ob, op = Op.copyConstruct ob) →
      ∀ r ∈ s.refContainer, r.refcount + 1 < UINT_MOD) :
    ∀ r1 ∈ s1.refContainer,
      (∃ r ∈ s.refContainer, r.memPtr = r1.memPtr ∧ r.refcount ≤ r1.refcount) ∨
      (r1.refcount = 1 ∧ ∀ r ∈ s.refContainer, r.memPtr ≠ r1.memPtr) := by
  have hincr : ∀ p, (∀ r ∈ s.refContainer, r.refcount + 1 < UINT_MOD) →
      ∀ r1 ∈ updateAt PtrDetails.incr s.refContainer p,
        ∃ r ∈ s.refContainer, r.memPtr = r1.memPtr ∧ r.refcount ≤ r1.refcount := by
    intro p hm r1 hr1
    rcases mem_updateAt hr1 with h | ⟨r, hr, rfl⟩
    · exact ⟨r1, h, rfl, le_refl _⟩
    · refine ⟨r, hr, (incr_memPtr r).symm, ?_⟩
      have e : r.incr.refcount = (r.refcount + 1) % UINT_MOD := rfl
      rw [e, Nat.mod_eq_of_lt (hm r hr)]
      omega
  cases op with
  | constructEmpty =>
    simp only [step, Option.some.injEq] at hstep
    subst hstep
    exact fun r1 hr1 => Or.inl ⟨r1, hr1, rfl, le_refl _⟩
  | constructAddr t =>
    simp only [step, Option.some.injEq] at hstep
    subst hstep
    have hm := hmax (Or.inl ⟨t, rfl⟩)
    have hreg : (constructAddr size s t).refContainer =
        ctorAddrRegistry size s.refContainer t := rfl
    rw [hreg]
    unfold ctorAddrRegistry
    split
    · cases hfind : findPtrInfo s.refContainer t with
      | none =>
        intro r1 hr1
        simp only [List.mem_append, List.mem_singleton] at hr1
        rcases hr1 with hr1 | rfl
        · exact Or.inl ⟨r1, hr1, rfl, le_refl _⟩
        · exact Or.inr ⟨rfl, findPtrInfo_eq_none.1 hfind⟩
      | some p => exact fun r1 hr1 => Or.inl (hincr p hm r1 hr1)
    · exact fun r1 hr1 => Or.inl ⟨r1, hr1, rfl, le_refl _⟩
  | copyConstruct ob =>
    simp only [step] at hstep
    cases hob : s.handle ob with
    | none => simp [hob] at hstep
    | some o =>
      simp only [hob, Option.some.injEq] at hstep
      subst hstep
      have hm := hmax (Or.inr ⟨ob, rfl⟩)
      have hreg : (copyConstruct s o).refContainer = ctorCopyRegistry s.refContainer o :=
        rfl
      rw [hreg]
      unfold ctorCopyRegistry
      cases hfind : findPtrInfo s.refContainer o.addr with
      | none => exact fun r1 hr1 => Or.inl ⟨r1, hr1, rfl, le_refl _⟩
      | some p => exact fun r1 hr1 => Or.inl (hincr p hm r1 hr1)
  | destroy i =>
    simp only [step] at hstep
    simp only [releaseRegistry] at hrel
    cases hi : s.handle i with
    | none => simp [hi] at hstep
    | some this => simp [hi] at hrel
  | assignAddr i t =>
    simp only [step] at hstep
    simp only [releaseRegistry] at hrel
    cases hi : s.handle i with
    | none => simp [hi] at hstep
    | some this => simp [hi] at hrel
  | assignPointer i j =>
    simp only [step] at hstep
    simp only [releaseRegistry] at hrel
    cases hi : s.handle i with
    | none => simp [hi] at hstep
    | some this =>
      cases hj : s.handle j with
      | none => simp [hi, hj] at hstep
      | some rv =>
        by_cases hij : i = j
        · simp only [hi, hj, Option.some.injEq] at hstep
          subst hstep
          simp only [assignPointer, hij, if_true]
          exact fun r1 hr1 => Or.inl ⟨r1, hr1, rfl, le_refl _⟩
        · simp [hi, hj, hij] at hrel
  | collect =>
    simp only [step, Option.some.injEq] at hstep
    subst hstep
    rw [collect_refContainer]
    intro r1 hr1
    exact Or.inl ⟨r1, (List.mem_filter.1 hr1).1, rfl, le_refl _⟩
  | shutdown =>
    simp only [step, Option.some.injEq] at hstep
    subst hstep
    unfold shutdown
    split
    · exact fun r1 hr1 => Or.inl ⟨r1, hr1, rfl, le_refl _⟩
    · rw [collect_refContainer]
      intro r1 hr1
      have h0 := (List.mem_filter.1 hr1)
      simp only [zeroAll, List.mem_map, decide_eq_true_eq] at h0
      obtain ⟨⟨r, -, rfl⟩, hp⟩ := h0
      simp at hp

/-- Every operation keeps every `refcount >= 1`; the constructors that increment need no
record at `refcount = 2^32 - 1`. -/
theorem step_positive {size : Int} {s s1 : State} {op : Op}
    (hstep : step size s op = some s1)
    (hpos : ∀ r ∈ s.refContainer, 1 ≤ r.refcount)
    (hmax : ((∃ t, op = Op.constructAddr t) ∨ ∃ ob, op = Op.copyConstruct ob) →
      ∀ r ∈ s.refContainer, r.refcount + 1 < UINT_MOD) :
    ∀ r ∈ s1.refContainer, 1 ≤ r.refcount := by
  cases op with
  | constructEmpty =>
    simp only [step, Option.some.injEq] at hstep
    subst hstep
    exact hpos
  | constructAddr t =>
    simp only [step, Option.some.injEq] at hstep
    subst hstep
    have hm := hmax (Or.inl ⟨t, rfl⟩)
    have hreg : (constructAddr size s t).refContainer =
        ctorAddrRegistry size s.refContainer t := rfl
    rw [hreg]
    unfold ctorAddrRegistry
    split
    · cases hfind : findPtrInfo s.refContainer t with
      | none =>
        intro r hr
        simp only [List.mem_append, List.mem_singleton] at hr
        rcases hr with hr | rfl
        · exact hpos r hr
        · simp [PtrDetails.ctor]
      | some i => exact positive_updateAt_incr i hpos hm
    · exact hpos
  | copyConstruct ob =>
    simp only [step] at hstep
    cases hob : s.handle ob with
    | none => simp [hob] at hstep
    | some o =>
      simp only [hob, Option.some.injEq] at hstep
      subst hstep
      have hm := hmax (Or.inr ⟨ob, rfl⟩)
      have hreg : (copyConstruct s o).refContainer = ctorCopyRegistry s.refContainer o :=
        rfl
      rw [hreg]
      unfold ctorCopyRegistry
      cases hfind : findPtrInfo s.refContainer o.addr with
      | none => exact hpos
      | some i => exact positive_updateAt_incr i hpos hm
  | destroy i =>
    simp only [step] at hstep
    cases hi : s.handle i with
    | none => simp [hi] at hstep
    | some this =>
      simp only [hi, Option.some.injEq] at hstep
      subst hstep
      rw [destroy, collect_refContainer]
      exact positive_filter _
  | assignAddr i t =>
    simp only [step] at hstep
    cases hi : s.handle i with
    | none => simp [hi] at hstep
    | some this =>
      simp only [hi, Option.some.injEq] at hstep
      subst hstep
      rw [assignAddr, collect_refContainer]
      exact positive_filter _
  | assignPointer i j =>
    simp only [step] at hstep
    cases hi : s.handle i with
    | none => simp [hi] at hstep
    | some this =>
      cases hj : s.handle j with
      | none => simp [hi, hj] at hstep
      | some rv =>
        simp only [hi, hj, Option.some.injEq] at hstep
        subst hstep
        unfold assignPointer
        split
        · exact hpos
        · rw [collect_refContainer]
          exact positive_filter _
  | collect =>
    simp only [step, Option.some.injEq] at hstep
    subst hstep
    rw [collect_refContainer]
    exact positive_filter _
  | shutdown =>
    simp only [step, Option.some.injEq] at hstep
    subst hstep
    unfold shutdown
    split
    · exact hpos
    · rw [collect_refContainer]
      exact positive_filter _

/-- C17, as stated, fails: after `2^32 - 1` objects have been constructed from the address
`1`, every record has `refcount >= 1` (the only record has `2^32 - 1`); constructing one more
object from that address leaves a record with `refcount = 0` in the registry. -/
theorem construct_breaks_positive_refcount :
    run 0 State.init (List.replicate 4294967295 (Op.constructAddr 1)) =
        some (sameAddrState 4294967295) ∧
      (∀ r ∈ (sameAddrState 4294967295).refContainer, 1 ≤ r.refcount) ∧
      step 0 (sameAddrState 4294967295) (Op.constructAddr 1) =
        some (sameAddrState 4294967296) ∧
      ∃ r ∈ (sameAddrState 4294967296).refContainer, r.refcount = 0 := by
  refine ⟨?_, ?_, ?_, ?_⟩
  · have h := run_replicate_constructAddr 4294967294
    simpa only [Nat.reduceAdd] using h
  · rw [sameAddrState_refContainer]
    intro r hr
    simp only [List.mem_singleton] at hr
    subst hr
    simp only [UINT_MOD, Nat.reduceMod]
    omega
  · have h := constructAddr_sameAddrState 4294967295
    simp only [Nat.reduceAdd] at h
    simp only [step, h]
  · rw [sameAddrState_refContainer]
    exact ⟨_, List.mem_singleton.2 rfl, by simp only [UINT_MOD, Nat.reduceMod]⟩

/-- C17, amended. Every public operation keeps every `refcount >= 1`, the two constructors
that increment (`Pointer(T *)`, copy constructor) provided no `refcount` is `2^32 - 1` before
the call (such a count would wrap to 0). Under the invariant no decrement wraps. A
destructor or an assignment other than a self-assignment returns the sweep of the registry
it hands to `collect`, and in that registry every record of the registry before the call is
at its position with its old `refcount`, one less, or one more modulo `2^32` (counts being
`unsigned` values): the one `refcount--` of the call took `1` from a count that was at least
`1`. Every other operation lowers no `refcount`: a record it leaves in the registry is fresh
with `refcount = 1` or has at least the `refcount` of the record of its address before. -/
theorem step_preserves_positive_refcount (size : Int) (s s1 : State) (op : Op)
    (hstep : step size s op = some s1)
    (hpos : ∀ r ∈ s.refContainer, 1 ≤ r.refcount)
    (hmax : ((∃ t, op = Op.constructAddr t) ∨ ∃ ob, op = Op.copyConstruct ob) →
      ∀ r ∈ s.refContainer, r.refcount + 1 < UINT_MOD) :
    (∀ r ∈ s1.refContainer, 1 ≤ r.refcount) ∧
    (∀ reg1, releaseRegistry size s op = some reg1 →
      (∀ r ∈ s.refContainer, r.refcount < UINT_MOD) →
      s1.refContainer = reg1.filter (fun p => decide (0 < p.refcount)) ∧
      ∀ (p : Nat) (r : PtrDetails), s.refContainer[p]? = some r →
        ∃ r1, reg1[p]? = some r1 ∧ r1.memPtr = r.memPtr ∧
          (r1.refcount + 1 = r.refcount ∨ r1.refcount = r.refcount ∨
            r1.refcount = (r.refcount + 1) % UINT_MOD)) ∧
    (releaseRegistry size s op = none →
      ∀ r1 ∈ s1.refContainer,
        (∃ r ∈ s.refContainer, r.memPtr = r1.memPtr ∧ r.refcount ≤ r1.refcount) ∨
        (r1.refcount = 1 ∧ ∀ r ∈ s.refContainer, r.memPtr ≠ r1.memPtr)) := by
  exact ⟨step_positive hstep hpos hmax, fun reg1 hrel hlt =>
    ⟨step_eq_sweep_of_release hstep hrel, releaseRegistry_getElem? hrel hpos hlt⟩,
    fun hrel => step_no_release_refcount hstep hrel hmax⟩

theorem step_preserves_positive_refcount_witness :
    step 0 demoState (Op.destroy 0) = some (destroy demoState 0
        { addr := 1, isArray := false, arraySize := 0 }) ∧
      (∀ r ∈ demoState.refContainer, 1 ≤ r.refcount) ∧
      releaseRegistry 0 demoState (Op.destroy 0) =
        some [{ refcount := 1, memPtr := 1, isArray := false, arraySize := 0 },
              { refcount := 1, memPtr := 2, isArray := false, arraySize := 0 }] ∧
      (∀ r ∈ demoState.refContainer, r.refcount < UINT_MOD) ∧
      (∀ r ∈ (destroy demoState 0
          { addr := 1, isArray := false, arraySize := 0 }).refContainer, 1 ≤ r.refcount) ∧
      (destroy demoState 0 { addr := 1, isArray := false, arraySize := 0 }).refContainer =
        List.filter (fun p => decide (0 < p.refcount))
          [{ refcount := 1, memPtr := 1, isArray := false, arraySize := 0 },
           { refcount := 1, memPtr := 2, isArray := false, arraySize := 0 }] :=
  ⟨by decide, by decide, by decide, by decide,
    (step_preserves_positive_refcount 0 demoState _ (Op.destroy 0) (by decide)
      (by decide) (fun h => by rcases h with ⟨_, h⟩ | ⟨_, h⟩ <;> cases h)).1,
    ((step_preserves_positive_refcount 0 demoState _ (Op.destroy 0) (by decide)
      (by decide) (fun h => by rcases h with ⟨_, h⟩ | ⟨_, h⟩ <;> cases h)).2.1 _ (by decide)
      (by decide)).1⟩

/-! ## Fields of an object assigned a raw address -/

/-- C19 fails on the code: after `Pointer<T, 5> p; p = a;` with `a = 100`, the live object
has `addr = 100`, `isArray = false`, `arraySize = 0`, while the record of `100` has
`isArray = true`, `arraySize = 5`; `begin()` and `end()` then span one element. -/
theorem assigned_object_fields_differ_from_record :
    run 5 State.init [Op.constructEmpty, Op.assignAddr 0 100] =
      some { refContainer := [{ refcount := 1, memPtr := 100, isArray := true,
                                arraySize := 5 }]
             first := false
             exitHooks := 1
             handles := [some { addr := 100, isArray := false, arraySize := 0 }]
             deallocs := [] } ∧
    (Pointer.end_ { addr := 100, isArray := false, arraySize := 0 }).diff
      (Pointer.begin { addr := 100, isArray := false, arraySize := 0 }) = 1 := by
  decide

/-- C20 fails on the code: with the template argument `size = -1`, `Pointer<T, -1> p(a)`
with `a = 100` stores `isArray = false` in the object but the record `(refcount 1, 100,
isArray = true, arraySize = 2^32 - 1)` in the registry, and destroying `p` reclaims the
allocation with `delete[]`. -/
theorem negative_size_record_is_array :
    run (-1) State.init [Op.constructAddr 100] =
      some { refContainer := [{ refcount := 1, memPtr := 100, isArray := true,
                                arraySize := 4294967295 }]
             first := false
             exitHooks := 1
             handles := [some { addr := 100, isArray := false, arraySize := 4294967295 }]
             deallocs := [] } ∧
    run (-1) State.init [Op.constructAddr 100, Op.destroy 0] =
      some { refContainer := []
             first := false
             exitHooks := 1
             handles := [none]
             deallocs := [Dealloc.arrayDelete 100] } := by
  decide

/-! ## The registry after an assignment -/

theorem map_eq_self_of_forall {reg : List PtrDetails} {f : PtrDetails → PtrDetails}
    (h : ∀ r ∈ reg, f r = r) : reg.map f = reg := by
  conv_rhs => rw [← List.map_id reg]
  exact List.map_congr_left (fun r hr => by simpa using h r hr)

theorem filter_positive_eq_self {reg : List PtrDetails} (hpos : ∀ r ∈ reg, 1 ≤ r.refcount) :
    reg.filter (fun p => decide (0 < p.refcount)) = reg :=
  List.filter_eq_self.2 (fun r hr => by simpa using hpos r hr)

theorem decr_eq_of_pos {r : PtrDetails} (h : 1 ≤ r.refcount) :
    r.decr = { r with refcount := r.refcount - 1 } := by
  simp only [PtrDetails.decr]
  rw [if_neg (by omega)]

theorem incr_eq_of_lt {r : PtrDetails} (h : r.refcount + 1 < UINT_MOD) :
    r.incr = { r with refcount := r.refcount + 1 } := by
  simp only [PtrDetails.incr, Nat.mod_eq_of_lt h]

theorem incr_decr_eq_self {r : PtrDetails} (h1 : 1 ≤ r.refcount) (h2 : r.refcount < UINT_MOD) :
    r.decr.incr = r := by
  rw [decr_eq_of_pos h1]
  have h3 : r.refcount - 1 + 1 = r.refcount := by omega
  simp only [PtrDetails.incr, h3, Nat.mod_eq_of_lt h2]

theorem ctorAddrRegistry_eq_map (size : Int) {reg : List PtrDetails} {t : Int}
    (hnd : (reg.map PtrDetails.memPtr).Nodup) (hnn : ∀ r ∈ reg, r.memPtr ≠ 0)
    (htr : t = 0 ∨ ∃ r ∈ reg, r.memPtr = t) :
    ctorAddrRegistry size reg t =
      reg.map (fun r => if r.memPtr = t then r.incr else r) := by
  by_cases h0 : t = 0
  · have hreg : ctorAddrRegistry size reg t = reg := by simp [ctorAddrRegistry, h0]
    rw [hreg]
    symm
    apply map_eq_self_of_forall
    intro r hr
    have : ¬ r.memPtr = t := by rw [h0]; exact hnn r hr
    simp [this]
  · rcases htr with htr | htr
    · exact absurd htr h0
    · obtain ⟨p, hp⟩ := findPtrInfo_isSome_of_mem htr
      simp only [ctorAddrRegistry, h0, ne_eq, not_false_eq_true, if_true, hp]
      exact updateAt_find_eq_map _ hnd hp

theorem collect_deallocs (s : State) :
    (collect s).1.deallocs = s.deallocs ++
      (s.refContainer.filter (fun p => decide (p.refcount = 0))).map
        (fun p => if p.isArray = true then Dealloc.arrayDelete p.memPtr
                  else Dealloc.scalarDelete p.memPtr) := by
  simp [collect, collectRegistry, collectLoop_eq]

theorem collect_of_positive (s : State) (hpos : ∀ r ∈ s.refContainer, 1 ≤ r.refcount) :
    (collect s).1 = s := by
  have h1 : (collect s).1.refContainer = s.refContainer := by
    rw [collect_refContainer, filter_positive_eq_self hpos]
  have h2 : (collect s).1.deallocs = s.deallocs := by
    rw [collect_deallocs]
    have : s.refContainer.filter (fun p => decide (p.refcount = 0)) = [] := by
      apply List.filter_eq_nil_iff.2
      intro r hr
      have := hpos r hr
      simp only [decide_eq_true_eq]
      omega
    simp [this]
  have h3 : (collect s).1.first = s.first := rfl
  have h4 : (collect s).1.exitHooks = s.exitHooks := rfl
  have h5 : (collect s).1.handles = s.handles := rfl
  cases hs : (collect s).1
  cases s
  simp only [hs] at h1 h2 h3 h4 h5
  simp only [State.mk.injEq]
  exact ⟨h1, h3, h4, h5, h2⟩

theorem getD_set_self (hs : List (Option Pointer)) (i : Nat) (this : Pointer)
    (o : Option Pointer) (hi : hs.getD i none = some this) :
    (hs.set i o).getD i none = o := by
  have hlt : i < hs.length := by
    by_contra hc
    rw [List.getD_eq_getElem?_getD, List.getElem?_eq_none (by omega)] at hi
    simp at hi
  simp [List.getD_eq_getElem?_getD, List.getElem?_set, hlt]

theorem set_getD_self (hs : List (Option Pointer)) (i : Nat) (this : Pointer)
    (hi : hs.getD i none = some this) : hs.set i (some this) = hs := by
  induction hs generalizing i with
  | nil => simp at hi
  | cons x hs ih =>
    cases i with
    | zero =>
      simp only [List.getD_cons_zero] at hi
      simp [hi]
    | succ i =>
      simp only [List.getD_cons_succ] at hi
      simp [ih i hi]

theorem assignAddr_refContainer (size : Int) (s : State) (i : Nat) (this : Pointer)
    (t : Int) :
    (assignAddr size s i this t).refContainer =
      (ctorAddrRegistry size (dtorRelease s.refContainer this) t).filter
        (fun p => decide (0 < p.refcount)) := by
  rw [assignAddr, collect_refContainer]
  rfl

theorem assignAddr_deallocs (size : Int) (s : State) (i : Nat) (this : Pointer) (t : Int) :
    (assignAddr size s i this t).deallocs = s.deallocs ++
      ((ctorAddrRegistry size (dtorRelease s.refContainer this) t).filter
        (fun p => decide (p.refcount = 0))).map
        (fun p => if p.isArray = true then Dealloc.arrayDelete p.memPtr
                  else Dealloc.scalarDelete p.memPtr) := by
  rw [assignAddr, collect_deallocs]
  rfl

theorem assignPointer_refContainer (s : State) (i : Nat) (this : Pointer) (j : Nat)
    (rv : Pointer) (hij : i ≠ j) :
    (assignPointer s i this j rv).refContainer =
      (assignPointerRelease s.refContainer this rv).filter
        (fun p => decide (0 < p.refcount)) := by
  simp only [assignPointer, hij, if_false]
  rw [collect_refContainer]

theorem sameAddrState_handle_one (n : Nat) :
    (sameAddrState (n + 2)).handle 1 = some { addr := 1, isArray := false, arraySize := 0 } := by
  simp [State.handle, sameAddrState, List.replicate_succ]

theorem sameAddrState_deallocs (n : Nat) : (sameAddrState n).deallocs = [] := rfl

/-- C18, as stated, fails: after `2^32` objects have been constructed from the address `1`,
its record is in the registry with `refcount = 0`; assigning to the object named `0` the
address `1` it already holds empties the registry and reclaims the allocation (`delete`)
while the objects still hold the address. -/
theorem assign_same_address_reclaims :
    run 0 State.init (List.replicate 4294967296 (Op.constructAddr 1)) =
        some (sameAddrState 4294967296) ∧
      (sameAddrState 4294967296).handle 0 =
        some { addr := 1, isArray := false, arraySize := 0 } ∧
      (sameAddrState 4294967296).refContainer =
        [{ refcount := 0, memPtr := 1, isArray := false, arraySize := 0 }] ∧
      ∃ s1, step 0 (sameAddrState 4294967296) (Op.assignAddr 0 1) = some s1 ∧
        s1.refContainer = [] ∧ s1.deallocs = [Dealloc.scalarDelete 1] := by
  have hh : (sameAddrState 4294967296).handle 0 =
      some { addr := 1, isArray := false, arraySize := 0 } := by
    have h := sameAddrState_handle_zero 4294967295
    simpa only [Nat.reduceAdd] using h
  have hreg : (sameAddrState 4294967296).refContainer =
      [{ refcount := 0, memPtr := 1, isArray := false, arraySize := 0 }] := by
    rw [sameAddrState_refContainer]
    simp only [UINT_MOD, Nat.reduceMod]
  refine ⟨?_, hh, hreg, ?_⟩
  · have h := run_replicate_constructAddr 4294967295
    simpa only [Nat.reduceAdd] using h
  · refine ⟨assignAddr 0 (sameAddrState 4294967296) 0
      { addr := 1, isArray := false, arraySize := 0 } 1, by simp only [step, hh], ?_, ?_⟩
    · rw [assignAddr_refContainer, hreg]
      decide
    · rw [assignAddr_deallocs, hreg, sameAddrState_deallocs]
      decide

/-! ## States reached by all public operations -/

theorem map_if_eq_self {f : PtrDetails → PtrDetails} {reg : List PtrDetails} {a : Int}
    (h : ∀ r ∈ reg, r.memPtr ≠ a) :
    reg.map (fun r => if r.memPtr = a then f r else r) = reg := by
  conv_rhs => rw [← List.map_id reg]
  apply List.map_congr_left
  intro r hr
  simp [h r hr]

theorem dtorRelease_eq_map_of_nodup {reg : List PtrDetails} (this : Pointer)
    (hnd : (reg.map PtrDetails.memPtr).Nodup) (h0 : ∀ r ∈ reg, r.memPtr ≠ 0) :
    dtorRelease reg this =
      reg.map (fun r => if r.memPtr = this.addr then r.decr else r) := by
  by_cases hz : this.addr = 0
  · have hreg : dtorRelease reg this = reg := by simp [dtorRelease, hz]
    rw [hreg]
    exact (map_if_eq_self (fun r hr => by rw [hz]; exact h0 r hr)).symm
  · cases hfind : findPtrInfo reg this.addr with
    | none =>
      have hreg : dtorRelease reg this = reg := by simp [dtorRelease, hz, hfind]
      rw [hreg]
      exact (map_if_eq_self (findPtrInfo_eq_none.1 hfind)).symm
    | some p =>
      have hreg : dtorRelease reg this = updateAt PtrDetails.decr reg p := by
        simp [dtorRelease, hz, hfind]
      rw [hreg]
      exact updateAt_find_eq_map PtrDetails.decr hnd hfind

theorem ctorCopyRegistry_eq_map_of_nodup {reg : List PtrDetails} (ob : Pointer)
    (hnd : (reg.map PtrDetails.memPtr).Nodup) :
    ctorCopyRegistry reg ob =
      reg.map (fun r => if r.memPtr = ob.addr then r.incr else r) := by
  cases hfind : findPtrInfo reg ob.addr with
  | none =>
    have hreg : ctorCopyRegistry reg ob = reg := by simp [ctorCopyRegistry, hfind]
    rw [hreg]
    exact (map_if_eq_self (findPtrInfo_eq_none.1 hfind)).symm
  | some p =>
    have hreg : ctorCopyRegistry reg ob = updateAt PtrDetails.incr reg p := by
      simp [ctorCopyRegistry, hfind]
    rw [hreg]
    exact updateAt_find_eq_map PtrDetails.incr hnd hfind

/-- With pairwise distinct non-null record addresses, the statements of
`operator=(Pointer &rv)` before `collect` decrement the record of `this->addr`, if any, and
then increment the record of `rv.addr`, if any; no record is added. -/
theorem assignPointerRelease_eq_map {reg : List PtrDetails} (this rv : Pointer)
    (hnd : (reg.map PtrDetails.memPtr).Nodup) (h0 : ∀ r ∈ reg, r.memPtr ≠ 0) :
    assignPointerRelease reg this rv =
      reg.map (fun r =>
        if r.memPtr = rv.addr then (if r.memPtr = this.addr then r.decr else r).incr
        else (if r.memPtr = this.addr then r.decr else r)) := by
  have hnd1 : ((dtorRelease reg this).map PtrDetails.memPtr).Nodup := by
    rw [dtorRelease_map_memPtr]
    exact hnd
  rw [assignPointerRelease_unfold]
  by_cases hz : rv.addr = 0
  · rw [if_neg (by simpa using hz), dtorRelease_eq_map_of_nodup this hnd h0]
    apply List.map_congr_left
    intro r hr
    have : ¬ r.memPtr = rv.addr := by rw [hz]; exact h0 r hr
    rw [if_neg this]
  · rw [if_pos hz, ctorCopyRegistry_eq_map_of_nodup rv hnd1,
      dtorRelease_eq_map_of_nodup this hnd h0, List.map_map]
    apply List.map_congr_left
    intro r _
    have hm : (if r.memPtr = this.addr then r.decr else r).memPtr = r.memPtr := by
      split_ifs
      · exact decr_memPtr r
      · rfl
    simp only [Function.comp, hm]

theorem atMost_mono {reg : List PtrDetails} {c c1 : Int → Nat} (h : AtMost reg c)
    (hle : ∀ a, a ≠ 0 → c a ≤ c1 a) : AtMost reg c1 :=
  ⟨h.1, fun r hr => ⟨(h.2 r hr).1, le_trans (h.2 r hr).2 (hle _ (h.2 r hr).1)⟩⟩

theorem atMost_map {reg : List PtrDetails} {c c1 : Int → Nat} (g : PtrDetails → PtrDetails)
    (h : AtMost reg c)
    (hg : ∀ r ∈ reg, (g r).memPtr = r.memPtr ∧ (g r).refcount ≤ c1 r.memPtr) :
    AtMost (reg.map g) c1 := by
  constructor
  · have e : (reg.map g).map PtrDetails.memPtr = reg.map PtrDetails.memPtr := by
      rw [List.map_map]
      apply List.map_congr_left
      intro r hr
      exact (hg r hr).1
    rw [e]
    exact h.1
  · intro r1 hr1
    obtain ⟨r, hr, rfl⟩ := List.mem_map.1 hr1
    rw [(hg r hr).1]
    exact ⟨(h.2 r hr).1, (hg r hr).2⟩

theorem atMost_filter {reg : List PtrDetails} {c : Int → Nat} (q : PtrDetails → Bool)
    (h : AtMost reg c) : AtMost (reg.filter q) c :=
  ⟨filter_map_memPtr_nodup q h.1, fun r hr => h.2 r (List.mem_filter.1 hr).1⟩

theorem atMost_map_incr {reg : List PtrDetails} {c c1 : Int → Nat} (t : Int)
    (h : AtMost reg c) (hadd : t ≠ 0 → c t + 1 ≤ c1 t) (hoth : ∀ a, a ≠ 0 → c a ≤ c1 a) :
    AtMost (reg.map (fun r => if r.memPtr = t then r.incr else r)) c1 := by
  apply atMost_map _ h
  intro r hr
  obtain ⟨h0, hle⟩ := h.2 r hr
  by_cases ha : r.memPtr = t
  · rw [if_pos ha]
    refine ⟨incr_memPtr r, ?_⟩
    have e : r.incr.refcount = (r.refcount + 1) % UINT_MOD := rfl
    have h1 := hadd (by rw [← ha]; exact h0)
    have hm := Nat.mod_le (r.refcount + 1) UINT_MOD
    rw [ha] at hle
    rw [e, ha]
    omega
  · rw [if_neg ha]
    exact ⟨rfl, le_trans hle (hoth _ h0)⟩

theorem atMost_dtorRelease {reg : List PtrDetails} {c c1 : Int → Nat} (this : Pointer)
    (h : AtMost reg c) (hpos : ∀ r ∈ reg, 1 ≤ r.refcount)
    (hthis : this.addr ≠ 0 → c this.addr ≤ c1 this.addr + 1)
    (hoth : ∀ a, a ≠ 0 → a ≠ this.addr → c a ≤ c1 a) :
    AtMost (dtorRelease reg this) c1 := by
  rw [dtorRelease_eq_map_of_nodup this h.1 (fun r hr => (h.2 r hr).1)]
  apply atMost_map _ h
  intro r hr
  obtain ⟨h0, hle⟩ := h.2 r hr
  by_cases ha : r.memPtr = this.addr
  · rw [if_pos ha]
    refine ⟨decr_memPtr r, ?_⟩
    have h1 := hthis (by rw [← ha]; exact h0)
    have h2 := hpos r hr
    have e : r.decr.refcount = r.refcount - 1 := by rw [decr_eq_of_pos h2]
    rw [ha] at hle
    rw [e, ha]
    omega
  · rw [if_neg ha]
    exact ⟨rfl, le_trans hle (hoth _ h0 ha)⟩

theorem atMost_ctorCopyRegistry {reg : List PtrDetails} {c c1 : Int → Nat} (ob : Pointer)
    (h : AtMost reg c) (hadd : ob.addr ≠ 0 → c ob.addr + 1 ≤ c1 ob.addr)
    (hoth : ∀ a, a ≠ 0 → c a ≤ c1 a) : AtMost (ctorCopyRegistry reg ob) c1 := by
  rw [ctorCopyRegistry_eq_map_of_nodup ob h.1]
  exact atMost_map_incr ob.addr h hadd hoth

theorem atMost_ctorAddrRegistry (size : Int) {reg : List PtrDetails} {c c1 : Int → Nat}
    (t : Int) (h : AtMost reg c) (hadd : t ≠ 0 → c t + 1 ≤ c1 t)
    (hoth : ∀ a, a ≠ 0 → c a ≤ c1 a) : AtMost (ctorAddrRegistry size reg t) c1 := by
  by_cases ht : t = 0
  · have hreg : ctorAddrRegistry size reg t = reg := by simp [ctorAddrRegistry, ht]
    rw [hreg]
    exact atMost_mono h hoth
  · cases hfind : findPtrInfo reg t with
    | none =>
      rw [ctorAddrRegistry_of_find_none size ht (findPtrInfo_eq_none.1 hfind)]
      refine ⟨append_ctor_nodup _ h.1 hfind, ?_⟩
      intro r hr
      rcases List.mem_append.1 hr with hr | hr
      · exact (atMost_mono h hoth).2 r hr
      · simp only [List.mem_singleton] at hr
        subst hr
        have h1 := hadd ht
        exact ⟨ht, by show 1 ≤ c1 t; omega⟩
    | some p =>
      have hreg : ctorAddrRegistry size reg t = updateAt PtrDetails.incr reg p := by
        simp [ctorAddrRegistry, ht, hfind]
      rw [hreg, updateAt_find_eq_map PtrDetails.incr h.1 hfind]
      exact atMost_map_incr t h hadd hoth

theorem weakInv_init : WeakInv State.init :=
  ⟨⟨by simp [State.init], by simp [State.init]⟩, by simp [State.init]⟩

theorem weakInv_refcount_lt {s : State} (hinv : WeakInv s)
    (hb : liveCount s.handles < UINT_MOD) : ∀ r ∈ s.refContainer, r.refcount < UINT_MOD :=
  fun r hr => lt_of_le_of_lt
    (le_trans (hinv.1.2 r hr).2 (liveAt_le_liveCount s.handles r.memPtr)) hb

/-- Every public operation that leaves fewer than `2^32` live objects keeps `WeakInv`. -/
theorem weakInv_step {size : Int} {s s1 : State} {op : Op} (hinv : WeakInv s)
    (hstep : step size s op = some s1) (hb : liveCount s1.handles < UINT_MOD) :
    WeakInv s1 := by
  have hbound : ∀ (h : Pointer), liveCount (s.handles ++ [some h]) < UINT_MOD →
      ∀ r ∈ s.refContainer, r.refcount + 1 < UINT_MOD := by
    intro h hlt r hr
    rw [liveCount_append] at hlt
    have := le_trans (hinv.1.2 r hr).2 (liveAt_le_liveCount s.handles r.memPtr)
    omega
  have hmax : ((∃ t, op = Op.constructAddr t) ∨ ∃ ob, op = Op.copyConstruct ob) →
      ∀ r ∈ s.refContainer, r.refcount + 1 < UINT_MOD := by
    rintro (⟨t, rfl⟩ | ⟨ob, rfl⟩)
    · simp only [step, Option.some.injEq] at hstep
      subst hstep
      exact hbound _ hb
    · simp only [step] at hstep
      cases hob : s.handle ob with
      | none => simp [hob] at hstep
      | some o =>
        simp only [hob, Option.some.injEq] at hstep
        subst hstep
        exact hbound _ hb
  refine ⟨?_, step_positive hstep hinv.2 hmax⟩
  have hset : ∀ (i : Nat) (this : Pointer) (h : Pointer), s.handle i = some this →
      ∀ a, liveAt (s.handles.set i none) a + (if this.addr = a then 1 else 0) =
          liveAt s.handles a ∧
        liveAt (s.handles.set i (some h)) a =
          liveAt (s.handles.set i none) a + (if h.addr = a then 1 else 0) := by
    intro i this h hi a
    have e1 := liveAt_set s.handles i this none a hi
    have e2 := liveAt_set s.handles i this (some h) a hi
    rw [liveAt_cons_none, liveAt_nil] at e1
    rw [liveAt_cons_some, liveAt_nil] at e2
    constructor
    · omega
    · omega
  have hrel : ∀ (i : Nat) (this : Pointer), s.handle i = some this →
      AtMost (dtorRelease s.refContainer this) (liveAt (s.handles.set i none)) := by
    intro i this hi
    apply atMost_dtorRelease this hinv.1 hinv.2
    · intro _
      have e := (hset i this this hi this.addr).1
      simp only [if_true] at e
      omega
    · intro a _ hne
      have e := (hset i this this hi a).1
      have hne2 : ¬ this.addr = a := fun h => hne h.symm
      simp only [hne2, if_false] at e
      omega
  cases op with
  | constructEmpty =>
    simp only [step, Option.some.injEq] at hstep
    subst hstep
    apply atMost_mono hinv.1
    intro a _
    show liveAt s.handles a ≤ liveAt (s.handles ++ [some _]) a
    rw [liveAt_append]
    omega
  | constructAddr t =>
    simp only [step, Option.some.injEq] at hstep
    subst hstep
    show AtMost (ctorAddrRegistry size s.refContainer t) (liveAt (s.handles ++ [some _]))
    apply atMost_ctorAddrRegistry size t hinv.1
    · intro _
      rw [liveAt_append]
      simp
    · intro a _
      rw [liveAt_append]
      omega
  | copyConstruct ob =>
    simp only [step] at hstep
    cases hob : s.handle ob with
    | none => simp [hob] at hstep
    | some o =>
      simp only [hob, Option.some.injEq] at hstep
      subst hstep
      show AtMost (ctorCopyRegistry s.refContainer o) (liveAt (s.handles ++ [some _]))
      apply atMost_ctorCopyRegistry o hinv.1
      · intro _
        rw [liveAt_append]
        simp
      · intro a _
        rw [liveAt_append]
        omega
  | destroy i =>
    simp only [step] at hstep
    cases hi : s.handle i with
    | none => simp [hi] at hstep
    | some this =>
      simp only [hi, Option.some.injEq] at hstep
      subst hstep
      rw [destroy_refContainer]
      exact atMost_filter _ (hrel i this hi)
  | assignAddr i t =>
    simp only [step] at hstep
    cases hi : s.handle i with
    | none => simp [hi] at hstep
    | some this =>
      simp only [hi, Option.some.injEq] at hstep
      subst hstep
      rw [assignAddr_refContainer]
      apply atMost_filter
      show AtMost _ (liveAt (s.handles.set i (some { this with addr := t })))
      apply atMost_ctorAddrRegistry size t (hrel i this hi)
      · intro _
        have e := (hset i this { this with addr := t } hi t).2
        simp only [if_true] at e
        omega
      · intro a _
        have e := (hset i this { this with addr := t } hi a).2
        omega
  | assignPointer i j =>
    simp only [step] at hstep
    cases hi : s.handle i with
    | none => simp [hi] at hstep
    | some this =>
      cases hj : s.handle j with
      | none => simp [hi, hj] at hstep
      | some rv =>
        simp only [hi, hj, Option.some.injEq] at hstep
        subst hstep
        by_cases hij : i = j
        · have e : assignPointer s i this j rv = s := by simp [assignPointer, hij]
          rw [e]
          exact hinv.1
        · rw [assignPointer_refContainer s i this j rv hij]
          apply atMost_filter
          have hh : (assignPointer s i this j rv).handles = s.handles.set i
              (some { addr := rv.addr, isArray := rv.isArray, arraySize := rv.arraySize }) := by
            simp only [assignPointer, hij, if_false]
            rfl
          rw [hh, assignPointerRelease_unfold]
          have hmono : ∀ a, a ≠ 0 → liveAt (s.handles.set i none) a ≤
              liveAt (s.handles.set i
                (some { addr := rv.addr, isArray := rv.isArray, arraySize := rv.arraySize })) a := by
            intro a _
            have e := (hset i this
              { addr := rv.addr, isArray := rv.isArray, arraySize := rv.arraySize } hi a).2
            omega
          split
          · apply atMost_ctorCopyRegistry rv (hrel i this hi) _ hmono
            intro _
            have e := (hset i this
              { addr := rv.addr, isArray := rv.isArray, arraySize := rv.arraySize } hi
              rv.addr).2
            simp only [if_true] at e
            omega
          · exact atMost_mono (hrel i this hi) hmono
  | collect =>
    simp only [step, Option.some.injEq] at hstep
    subst hstep
    rw [collect_refContainer]
    exact atMost_filter _ hinv.1
  | shutdown =>
    simp only [step, Option.some.injEq] at hstep
    subst hstep
    unfold shutdown
    split
    · exact hinv.1
    · rw [collect_refContainer]
      apply atMost_filter
      apply atMost_map _ hinv.1
      intro r _
      exact ⟨rfl, Nat.zero_le _⟩

theorem stepWithin_eq_some {size : Int} {s s1 : State} {op : Op}
    (h : stepWithin size s op = some s1) :
    step size s op = some s1 ∧ liveCount s1.handles < UINT_MOD := by
  unfold stepWithin at h
  cases hs : step size s op with
  | none => simp [hs] at h
  | some s2 =>
    simp only [hs] at h
    by_cases hb : liveCount s2.handles < UINT_MOD
    · simp only [hb, if_true, Option.some.injEq] at h
      subst h
      exact ⟨rfl, hb⟩
    · simp [hb] at h

theorem weakInv_runWithin {size : Int} {s s1 : State} {ops : List Op} (hinv : WeakInv s)
    (hb : liveCount s.handles < UINT_MOD) (h : runWithin size s ops = some s1) :
    WeakInv s1 ∧ liveCount s1.handles < UINT_MOD := by
  induction ops generalizing s with
  | nil =>
    simp only [runWithin, Option.some.injEq] at h
    subst h
    exact ⟨hinv, hb⟩
  | cons op ops ih =>
    simp only [runWithin] at h
    cases hs : stepWithin size s op with
    | none => simp [hs] at h
    | some s2 =>
      simp only [hs] at h
      obtain ⟨h1, h2⟩ := stepWithin_eq_some hs
      exact ih (weakInv_step hinv h1 h2) h2 h

/-- A run of construct, assign and destroy operations only is a run of `runBelow`. -/
theorem runBelow_of_runWithin {size : Int} {s s1 : State} {ops : List Op}
    (hl : ∀ op ∈ ops, op.isLifecycle = true) (h : runWithin size s ops = some s1) :
    runBelow size s ops = some s1 := by
  induction ops generalizing s with
  | nil => simpa [runWithin, runBelow] using h
  | cons op ops ih =>
    simp only [runWithin] at h
    cases hs : stepWithin size s op with
    | none => simp [hs] at h
    | some s2 =>
      simp only [hs] at h
      have hop : op.isLifecycle = true := hl op (List.mem_cons_self _ _)
      have hsb : stepBelow size s op = some s2 := by
        unfold stepBelow
        rw [if_pos hop]
        exact hs
      simp only [runBelow, hsb]
      exact ih (fun o ho => hl o (List.mem_cons_of_mem _ ho)) h

/-- Every run of `runBelow` is a run of `runWithin` made of construct, assign and destroy
operations: what holds in the states reached by `runWithin` holds in those reached by
`runBelow`. -/
theorem runBelow_runWithin {size : Int} {s s1 : State} {ops : List Op}
    (h : runBelow size s ops = some s1) :
    runWithin size s ops = some s1 ∧ ∀ op ∈ ops, op.isLifecycle = true := by
  refine ⟨?_, (runBelow_run h).2⟩
  induction ops generalizing s with
  | nil => simpa [runWithin, runBelow] using h
  | cons op ops ih =>
    simp only [runBelow] at h
    cases hs : stepBelow size s op with
    | none => simp [hs] at h
    | some s2 =>
      simp only [hs] at h
      obtain ⟨-, h1, h2⟩ := stepBelow_eq_some hs
      have hsw : stepWithin size s op = some s2 := by
        unfold stepWithin
        rw [h1]
        simp [h2]
      simp only [runWithin, hsw]
      exact ih h

/-- The registry after `a = b` for two distinct live objects, in a state that satisfies
`WeakInv` and has fewer than `2^32` live objects. -/
theorem assignPointer_effect_core {s : State} (i : Nat) (this : Pointer) (j : Nat)
    (rv : Pointer) (hinv : WeakInv s) (hb : liveCount s.handles < UINT_MOD)
    (hi : s.handle i = some this) (hij : i ≠ j) :
    (this.addr = rv.addr → (assignPointer s i this j rv).refContainer = s.refContainer) ∧
    (this.addr ≠ rv.addr →
      (∀ r ∈ s.refContainer, r.memPtr = this.addr →
        (r.refcount = 1 →
          ∀ r1 ∈ (assignPointer s i this j rv).refContainer, r1.memPtr ≠ this.addr) ∧
        (r.refcount ≠ 1 →
          { r with refcount := r.refcount - 1 } ∈ (assignPointer s i this j rv).refContainer)) ∧
      (∀ r ∈ s.refContainer, r.memPtr = rv.addr →
        { r with refcount := r.refcount + 1 } ∈ (assignPointer s i this j rv).refContainer) ∧
      (∀ r ∈ s.refContainer, r.memPtr ≠ this.addr → r.memPtr ≠ rv.addr →
        r ∈ (assignPointer s i this j rv).refContainer) ∧
      (∀ r1 ∈ (assignPointer s i this j rv).refContainer,
        ∃ r ∈ s.refContainer, r.memPtr = r1.memPtr)) := by
  have hreg : (assignPointer s i this j rv).refContainer =
      (s.refContainer.map (fun r =>
        if r.memPtr = rv.addr then (if r.memPtr = this.addr then r.decr else r).incr
        else (if r.memPtr = this.addr then r.decr else r))).filter
          (fun p => decide (0 < p.refcount)) := by
    rw [assignPointer_refContainer s i this j rv hij,
      assignPointerRelease_eq_map this rv hinv.1.1 (fun r hr => (hinv.1.2 r hr).1)]
  have hlt := weakInv_refcount_lt hinv hb
  have hmp : ∀ r : PtrDetails,
      (if r.memPtr = rv.addr then (if r.memPtr = this.addr then r.decr else r).incr
        else (if r.memPtr = this.addr then r.decr else r)).memPtr = r.memPtr := by
    intro r
    split_ifs <;> simp [incr_memPtr, decr_memPtr]
  rw [hreg]
  constructor
  · intro heq
    have hid : s.refContainer.map (fun r =>
        if r.memPtr = rv.addr then (if r.memPtr = this.addr then r.decr else r).incr
        else (if r.memPtr = this.addr then r.decr else r)) = s.refContainer := by
      conv_rhs => rw [← List.map_id s.refContainer]
      apply List.map_congr_left
      intro r hr
      by_cases ha : r.memPtr = rv.addr
      · rw [if_pos ha, if_pos (ha.trans heq.symm)]
        exact incr_decr_eq_self (hinv.2 r hr) (hlt r hr)
      · rw [if_neg ha, if_neg (fun h => ha (h.trans heq))]
        rfl
    rw [hid]
    exact filter_positive_eq_self hinv.2
  · intro hne
    have hold : ∀ r ∈ s.refContainer, r.memPtr = this.addr →
        (if r.memPtr = rv.addr then (if r.memPtr = this.addr then r.decr else r).incr
          else (if r.memPtr = this.addr then r.decr else r)) =
        { r with refcount := r.refcount - 1 } := by
      intro r hr hra
      have h1 : ¬ r.memPtr = rv.addr := fun h => hne (hra.symm.trans h)
      rw [if_neg h1, if_pos hra]
      exact decr_eq_of_pos (hinv.2 r hr)
    have hnew : ∀ r ∈ s.refContainer, r.memPtr = rv.addr →
        (if r.memPtr = rv.addr then (if r.memPtr = this.addr then r.decr else r).incr
          else (if r.memPtr = this.addr then r.decr else r)) =
        { r with refcount := r.refcount + 1 } := by
      intro r hr hrt
      have h1 : ¬ r.memPtr = this.addr := fun h => hne (h.symm.trans hrt)
      rw [if_pos hrt, if_neg h1]
      apply incr_eq_of_lt
      have e := liveAt_set s.handles i this
        (some { addr := rv.addr, isArray := rv.isArray, arraySize := rv.arraySize }) rv.addr hi
      rw [liveAt_cons_some, liveAt_nil] at e
      simp only [hne, if_false, if_true] at e
      have hle := liveAt_le_liveCount (s.handles.set i
        (some { addr := rv.addr, isArray := rv.isArray, arraySize := rv.arraySize })) rv.addr
      rw [liveCount_set_some s.handles i this _ hi] at hle
      have hrc := (hinv.1.2 r hr).2
      rw [hrt] at hrc
      omega
    have hother : ∀ r ∈ s.refContainer, r.memPtr ≠ this.addr → r.memPtr ≠ rv.addr →
        (if r.memPtr = rv.addr then (if r.memPtr = this.addr then r.decr else r).incr
          else (if r.memPtr = this.addr then r.decr else r)) = r := by
      intro r _ h1 h2
      rw [if_neg h2, if_neg h1]
    refine ⟨?_, ?_, ?_, ?_⟩
    · intro r hr hra
      constructor
      · intro hone r1 hr1 hr1a
        obtain ⟨hmem, hp⟩ := List.mem_filter.1 hr1
        simp only [decide_eq_true_eq] at hp
        obtain ⟨r0, hr0, rfl⟩ := List.mem_map.1 hmem
        have hr0a : r0.memPtr = this.addr := (hmp r0).symm.trans hr1a
        have := eq_of_memPtr_eq hinv.1.1 hr0 hr (hr0a.trans hra.symm)
        subst this
        rw [hold r0 hr0 hra] at hp
        simp only at hp
        omega
      · intro hne1
        apply List.mem_filter.2
        refine ⟨List.mem_map.2 ⟨r, hr, hold r hr hra⟩, ?_⟩
        have := hinv.2 r hr
        simp only [decide_eq_true_eq]
        omega
    · intro r hr hrt
      apply List.mem_filter.2
      refine ⟨List.mem_map.2 ⟨r, hr, hnew r hr hrt⟩, ?_⟩
      simp only [decide_eq_true_eq]
      omega
    · intro r hr h1 h2
      apply List.mem_filter.2
      refine ⟨List.mem_map.2 ⟨r, hr, hother r hr h1 h2⟩, ?_⟩
      have := hinv.2 r hr
      simp only [decide_eq_true_eq]
      omega
    · intro r1 hr1
      obtain ⟨r0, hr0, rfl⟩ := List.mem_map.1 (List.mem_filter.1 hr1).1
      exact ⟨r0, hr0, (hmp r0).symm⟩

/-! ## The sweep at the end of a destructor or an assignment -/

theorem sweep_unique_zero_of_nodup {reg1 : List PtrDetails} (o : Int)
    (hnd : (reg1.map PtrDetails.memPtr).Nodup)
    (hall : ∀ r ∈ reg1, r.refcount = 0 → r.memPtr = o)
    (hzero : ∃ r ∈ reg1, r.refcount = 0) :
    (reg1.filter (fun p => decide (0 < p.refcount))).length + 1 = reg1.length ∧
      ∀ r ∈ reg1, r.refcount = 0 →
        ∀ r1 ∈ reg1.filter (fun p => decide (0 < p.refcount)), r1.memPtr ≠ r.memPtr := by
  refine ⟨filter_length_unique_zero o hnd hall hzero, ?_⟩
  intro r hr hz r1 hr1 heq
  obtain ⟨hr1mem, hr1pos⟩ := List.mem_filter.1 hr1
  have := eq_of_memPtr_eq hnd hr1mem hr heq
  subst this
  simp only [decide_eq_true_eq] at hr1pos
  omega

/-- In a state that satisfies `WeakInv` and has fewer than `2^32` live objects, the only
record that the decrement and increment of an assignment can bring to zero is the record of
the old address of the assigned object. -/
theorem release_zero_at_old {s : State} (i : Nat) (this : Pointer) (t : Int)
    (hinv : WeakInv s) (hb : liveCount s.handles < UINT_MOD) (hi : s.handle i = some this) :
    ∀ r ∈ s.refContainer,
      (if r.memPtr = t then (if r.memPtr = this.addr then r.decr else r).incr
        else (if r.memPtr = this.addr then r.decr else r)).refcount = 0 →
      r.memPtr = this.addr := by
  intro r hr hz
  by_contra hne
  have hpos := hinv.2 r hr
  rw [if_neg hne] at hz
  by_cases ht : r.memPtr = t
  · rw [if_pos ht] at hz
    have hta : ¬ this.addr = t := fun h => hne (ht.trans h.symm)
    have e := liveAt_set s.handles i this (some { this with addr := t }) t hi
    rw [liveAt_cons_some, liveAt_nil] at e
    simp only [hta, if_false, if_true] at e
    have hle := liveAt_le_liveCount (s.handles.set i (some { this with addr := t })) t
    rw [liveCount_set_some s.handles i this _ hi] at hle
    have hrc := (hinv.1.2 r hr).2
    rw [ht] at hrc
    have hlt : r.refcount + 1 < UINT_MOD := by omega
    rw [incr_eq_of_lt hlt] at hz
    simp only at hz
    omega
  · rw [if_neg ht] at hz
    omega

/-- The registry when `operator=(T *t)` calls `collect`, for pairwise distinct non-null
record addresses: the old address is decremented, the new address is incremented, and a
record is appended exactly when the new address is non-null and has no record. -/
theorem release_add_eq_append_of_nodup (size : Int) {reg : List PtrDetails} (this : Pointer)
    (t : Int) (hnd : (reg.map PtrDetails.memPtr).Nodup) (h0 : ∀ r ∈ reg, r.memPtr ≠ 0) :
    ∃ extra, ctorAddrRegistry size (dtorRelease reg this) t =
        reg.map (fun r =>
          if r.memPtr = t then (if r.memPtr = this.addr then r.decr else r).incr
          else (if r.memPtr = this.addr then r.decr else r)) ++ extra ∧
      ((t = 0 ∨ ∃ r ∈ reg, r.memPtr = t) → extra = []) ∧
      ((t ≠ 0 ∧ ∀ r ∈ reg, r.memPtr ≠ t) →
        extra = [PtrDetails.ctor t (toUnsigned size)]) := by
  have hmap := dtorRelease_map_memPtr reg this
  have hnd1 : ((dtorRelease reg this).map PtrDetails.memPtr).Nodup := by
    rw [hmap]
    exact hnd
  have hnn1 : ∀ r ∈ dtorRelease reg this, r.memPtr ≠ 0 := noNull_of_map_memPtr_eq hmap h0
  have hfun : (dtorRelease reg this).map (fun r => if r.memPtr = t then r.incr else r) =
      reg.map (fun r =>
        if r.memPtr = t then (if r.memPtr = this.addr then r.decr else r).incr
        else (if r.memPtr = this.addr then r.decr else r)) := by
    rw [dtorRelease_eq_map_of_nodup this hnd h0, List.map_map]
    apply List.map_congr_left
    intro r _
    have hm : (if r.memPtr = this.addr then r.decr else r).memPtr = r.memPtr := by
      split_ifs
      · exact decr_memPtr r
      · rfl
    simp only [Function.comp, hm]
  have hiff : (∃ r ∈ dtorRelease reg this, r.memPtr = t) ↔ ∃ r ∈ reg, r.memPtr = t := by
    constructor
    · rintro ⟨r, hr, h⟩
      obtain ⟨r0, hr0, h1⟩ := mem_of_map_memPtr_eq hmap hr
      exact ⟨r0, hr0, h1.trans h⟩
    · rintro ⟨r, hr, h⟩
      obtain ⟨r0, hr0, h1⟩ := mem_of_map_memPtr_eq hmap.symm hr
      exact ⟨r0, hr0, h1.trans h⟩
  by_cases htr : t = 0 ∨ ∃ r ∈ reg, r.memPtr = t
  · refine ⟨[], ?_, fun _ => rfl, ?_⟩
    · have htr1 : t = 0 ∨ ∃ r ∈ dtorRelease reg this, r.memPtr = t :=
        htr.imp id hiff.2
      rw [ctorAddrRegistry_eq_map size hnd1 hnn1 htr1, hfun, List.append_nil]
    · rintro ⟨ht0, hnone⟩
      rcases htr with h | ⟨r, hr, h⟩
      · exact absurd h ht0
      · exact absurd h (hnone r hr)
  · have ht0 : t ≠ 0 := fun h => htr (Or.inl h)
    have hnone : ∀ r ∈ dtorRelease reg this, r.memPtr ≠ t :=
      fun r hr h => htr (Or.inr (hiff.1 ⟨r, hr, h⟩))
    refine ⟨[PtrDetails.ctor t (toUnsigned size)], ?_, fun h => absurd h htr, fun _ => rfl⟩
    rw [ctorAddrRegistry_of_find_none size ht0 hnone, ← hfun, map_if_eq_self hnone]

/-- In a state that satisfies `WeakInv` and has fewer than `2^32` live objects, a destructor
or an assignment that calls `collect` with a record at zero has exactly one such record. -/
theorem release_sweep_weak {size : Int} {s : State} {op : Op} {reg1 : List PtrDetails}
    (hinv : WeakInv s) (hb : liveCount s.handles < UINT_MOD)
    (hrel : releaseRegistry size s op = some reg1) (hzero : ∃ r ∈ reg1, r.refcount = 0) :
    (reg1.filter (fun p => decide (0 < p.refcount))).length + 1 = reg1.length ∧
      ∀ r ∈ reg1, r.refcount = 0 →
        ∀ r1 ∈ reg1.filter (fun p => decide (0 < p.refcount)), r1.memPtr ≠ r.memPtr := by
  have hnd := hinv.1.1
  have h0 : ∀ r ∈ s.refContainer, r.memPtr ≠ 0 := fun r hr => (hinv.1.2 r hr).1
  cases op with
  | constructEmpty => simp [releaseRegistry] at hrel
  | constructAddr t => simp [releaseRegistry] at hrel
  | copyConstruct ob => simp [releaseRegistry] at hrel
  | collect => simp [releaseRegistry] at hrel
  | shutdown => simp [releaseRegistry] at hrel
  | destroy i =>
    simp only [releaseRegistry] at hrel
    cases hi : s.handle i with
    | none => simp [hi] at hrel
    | some this =>
      simp only [hi, Option.some.injEq] at hrel
      subst hrel
      apply sweep_unique_zero_of_nodup this.addr
        (by rw [dtorRelease_map_memPtr]; exact hnd) _ hzero
      rw [dtorRelease_eq_map_of_nodup this hnd h0]
      intro r1 hr1 hz
      obtain ⟨r, hr, rfl⟩ := List.mem_map.1 hr1
      by_cases ha : r.memPtr = this.addr
      · rw [if_pos ha, decr_memPtr]
        exact ha
      · rw [if_neg ha] at hz
        have := hinv.2 r hr
        omega
  | assignAddr i t =>
    simp only [releaseRegistry] at hrel
    cases hi : s.handle i with
    | none => simp [hi] at hrel
    | some this =>
      simp only [hi, Option.some.injEq] at hrel
      subst hrel
      apply sweep_unique_zero_of_nodup this.addr
        (assignAddrRelease_nodup size this t hnd) _ hzero
      rw [assignAddrRelease_eq]
      obtain ⟨extra, hreg, hex1, hex2⟩ := release_add_eq_append_of_nodup size this t hnd h0
      have hextra : ∀ x ∈ extra, x.refcount = 1 := by
        intro x hx
        by_cases htr : t = 0 ∨ ∃ r ∈ s.refContainer, r.memPtr = t
        · rw [hex1 htr] at hx
          simp at hx
        · have ht0 : t ≠ 0 := fun h => htr (Or.inl h)
          have hnone : ∀ r ∈ s.refContainer, r.memPtr ≠ t :=
            fun r hr h => htr (Or.inr ⟨r, hr, h⟩)
          rw [hex2 ⟨ht0, hnone⟩] at hx
          simp only [List.mem_singleton] at hx
          rw [hx]
          rfl
      rw [hreg]
      intro r1 hr1 hz
      rcases List.mem_append.1 hr1 with hm | hm
      · obtain ⟨r, hr, rfl⟩ := List.mem_map.1 hm
        have ha := release_zero_at_old i this t hinv hb hi r hr hz
        have hmp : (if r.memPtr = t then (if r.memPtr = this.addr then r.decr else r).incr
            else (if r.memPtr = this.addr then r.decr else r)).memPtr = r.memPtr := by
          split_ifs <;> simp [incr_memPtr, decr_memPtr]
        rw [hmp]
        exact ha
      · have := hextra r1 hm
        omega
  | assignPointer i j =>
    simp only [releaseRegistry] at hrel
    by_cases hij : i = j
    · simp [hij] at hrel
    · simp only [hij, if_false] at hrel
      cases hi : s.handle i with
      | none => simp [hi] at hrel
      | some this =>
        cases hj : s.handle j with
        | none => simp [hi, hj] at hrel
        | some rv =>
          simp only [hi, hj, Option.some.injEq] at hrel
          subst hrel
          apply sweep_unique_zero_of_nodup this.addr
            (by rw [assignPointerRelease_map_memPtr]; exact hnd) _ hzero
          rw [assignPointerRelease_eq_map this rv hnd h0]
          intro r1 hr1 hz
          obtain ⟨r, hr, rfl⟩ := List.mem_map.1 hr1
          have ha := release_zero_at_old i this rv.addr hinv hb hi r hr hz
          have hmp : (if r.memPtr = rv.addr then
              (if r.memPtr = this.addr then r.decr else r).incr
              else (if r.memPtr = this.addr then r.decr else r)).memPtr = r.memPtr := by
            split_ifs <;> simp [incr_memPtr, decr_memPtr]
          rw [hmp]
          exact ha

/-- The number of records when a destructor or an assignment calls `collect`: one more than
before the call for `operator=(T *t)` with `t` non-null and without a record, and the same
as before the call otherwise. -/
theorem releaseRegistry_length {size : Int} {s : State} {op : Op} {reg1 : List PtrDetails}
    (hrel : releaseRegistry size s op = some reg1) :
    ((∃ i t, op = Op.assignAddr i t ∧ t ≠ 0 ∧ ∀ r ∈ s.refContainer, r.memPtr ≠ t) →
      reg1.length = s.refContainer.length + 1) ∧
    (¬ (∃ i t, op = Op.assignAddr i t ∧ t ≠ 0 ∧ ∀ r ∈ s.refContainer, r.memPtr ≠ t) →
      reg1.length = s.refContainer.length) := by
  cases op with
  | constructEmpty => simp [releaseRegistry] at hrel
  | constructAddr t => simp [releaseRegistry] at hrel
  | copyConstruct ob => simp [releaseRegistry] at hrel
  | collect => simp [releaseRegistry] at hrel
  | shutdown => simp [releaseRegistry] at hrel
  | destroy i =>
    simp only [releaseRegistry] at hrel
    cases hi : s.handle i with
    | none => simp [hi] at hrel
    | some this =>
      simp only [hi, Option.some.injEq] at hrel
      subst hrel
      refine ⟨?_, fun _ => length_eq_of_map_memPtr_eq (dtorRelease_map_memPtr _ _)⟩
      rintro ⟨i1, t, h, -⟩
      cases h
  | assignAddr i t =>
    simp only [releaseRegistry] at hrel
    cases hi : s.handle i with
    | none => simp [hi] at hrel
    | some this =>
      simp only [hi, Option.some.injEq] at hrel
      subst hrel
      rw [assignAddrRelease_eq]
      have hmap := dtorRelease_map_memPtr s.refContainer this
      have hlen0 := length_eq_of_map_memPtr_eq hmap
      have hfresh : (∀ r ∈ dtorRelease s.refContainer this, r.memPtr ≠ t) ↔
          ∀ r ∈ s.refContainer, r.memPtr ≠ t := by
        constructor
        · intro h r hr heq
          have hmem : r.memPtr ∈ s.refContainer.map PtrDetails.memPtr :=
            List.mem_map.2 ⟨r, hr, rfl⟩
          rw [← hmap] at hmem
          obtain ⟨r0, hr0, h0⟩ := List.mem_map.1 hmem
          exact h r0 hr0 (h0.trans heq)
        · intro h r hr heq
          obtain ⟨r0, hr0, h0⟩ := mem_of_map_memPtr_eq hmap hr
          exact h r0 hr0 (h0.trans heq)
      have hl := ctorAddrRegistry_length size (dtorRelease s.refContainer this) t
      constructor
      · rintro ⟨i1, t1, h, ht0, hnone⟩
        cases h
        have hl1 := hl.1 ⟨ht0, hfresh.2 hnone⟩
        omega
      · intro hn
        have hn2 : ¬ (t ≠ 0 ∧ ∀ r ∈ dtorRelease s.refContainer this, r.memPtr ≠ t) := by
          rintro ⟨ht0, hnone⟩
          exact hn ⟨i, t, rfl, ht0, hfresh.1 hnone⟩
        have hl2 := hl.2 hn2
        omega
  | assignPointer i j =>
    simp only [releaseRegistry] at hrel
    by_cases hij : i = j
    · simp [hij] at hrel
    · simp only [hij, if_false] at hrel
      cases hi : s.handle i with
      | none => simp [hi] at hrel
      | some this =>
        cases hj : s.handle j with
        | none => simp [hi, hj] at hrel
        | some rv =>
          simp only [hi, hj, Option.some.injEq] at hrel
          subst hrel
          refine ⟨?_, fun _ =>
            length_eq_of_map_memPtr_eq (assignPointerRelease_map_memPtr _ _ _)⟩
          rintro ⟨i1, t, h, -⟩
          cases h

/-- A destructor or an assignment other than a self-assignment is a program step whenever
its release registry is defined. -/
theorem step_of_releaseRegistry {size : Int} {s : State} {op : Op} {reg1 : List PtrDetails}
    (hrel : releaseRegistry size s op = some reg1) : ∃ s1, step size s op = some s1 := by
  cases op with
  | constructEmpty => simp [releaseRegistry] at hrel
  | constructAddr t => simp [releaseRegistry] at hrel
  | copyConstruct ob => simp [releaseRegistry] at hrel
  | collect => simp [releaseRegistry] at hrel
  | shutdown => simp [releaseRegistry] at hrel
  | destroy i =>
    simp only [releaseRegistry] at hrel
    cases hi : s.handle i with
    | none => simp [hi] at hrel
    | some this => exact ⟨destroy s i this, by simp only [step, hi]⟩
  | assignAddr i t =>
    simp only [releaseRegistry] at hrel
    cases hi : s.handle i with
    | none => simp [hi] at hrel
    | some this => exact ⟨assignAddr size s i this t, by simp only [step, hi]⟩
  | assignPointer i j =>
    simp only [releaseRegistry] at hrel
    by_cases hij : i = j
    · simp [hij] at hrel
    · simp only [hij, if_false] at hrel
      cases hi : s.handle i with
      | none => simp [hi] at hrel
      | some this =>
        cases hj : s.handle j with
        | none => simp [hi, hj] at hrel
        | some rv => exact ⟨assignPointer s i this j rv, by simp only [step, hi, hj]⟩

/-- C4, amended. In a state reached by public operations through states with fewer than
`2^32` live objects, let a destructor or an assignment (not a self-assignment) call
`collect` while some record has `refcount = 0`. Then no record with that address is in the
registry when the call returns, and the registry has one record less than before the call,
except for `operator=(T *t)` with `t` non-null and without a record before the call: that
call appends the record of `t`, and the number of records is the same as before.
`refContainerSize()` follows the number of records: it is unchanged in the exceptional case,
and one less than before the call otherwise unless the registry held `2^31` records (modulo
`2^32`) before the call, where the returned `int` wraps. -/
theorem zero_refcount_record_erased (size : Int) (ops : List Op) (s : State) (op : Op)
    (reg1 : List PtrDetails)
    (hrun : runWithin size State.init ops = some s)
    (hrel : releaseRegistry size s op = some reg1)
    (hzero : ∃ r ∈ reg1, r.refcount = 0) :
    ∃ s1, step size s op = some s1 ∧
      (∀ r ∈ reg1, r.refcount = 0 → ∀ r1 ∈ s1.refContainer, r1.memPtr ≠ r.memPtr) ∧
      ((∃ i t, op = Op.assignAddr i t ∧ t ≠ 0 ∧ ∀ r ∈ s.refContainer, r.memPtr ≠ t) →
        s1.refContainer.length = s.refContainer.length ∧
        refContainerSize s1.refContainer = refContainerSize s.refContainer) ∧
      (¬ (∃ i t, op = Op.assignAddr i t ∧ t ≠ 0 ∧ ∀ r ∈ s.refContainer, r.memPtr ≠ t) →
        s1.refContainer.length + 1 = s.refContainer.length ∧
        (s.refContainer.length % 4294967296 ≠ 2147483648 →
          refContainerSize s1.refContainer + 1 = refContainerSize s.refContainer)) := by
  obtain ⟨hinv, hb⟩ := weakInv_runWithin weakInv_init
    (by simp [State.init, liveCount, UINT_MOD]) hrun
  obtain ⟨s1, hstep⟩ := step_of_releaseRegistry hrel
  have hreg := step_eq_sweep_of_release hstep hrel
  obtain ⟨hlen, hgone⟩ := release_sweep_weak hinv hb hrel hzero
  obtain ⟨hl1, hl2⟩ := releaseRegistry_length hrel
  refine ⟨s1, hstep, ?_, ?_, ?_⟩
  · rw [hreg]
    exact hgone
  · intro hf
    have hL : s1.refContainer.length = s.refContainer.length := by
      have := hl1 hf
      rw [hreg]
      omega
    exact ⟨hL, refContainerSize_eq_of_length hL⟩
  · intro hf
    have hL : s1.refContainer.length + 1 = s.refContainer.length := by
      have := hl2 hf
      rw [hreg]
      omega
    exact ⟨hL, refContainerSize_succ_of_length hL⟩

theorem zero_refcount_record_erased_witness :
    runWithin 0 State.init [Op.constructAddr 1, Op.copyConstruct 0, Op.constructAddr 2] =
        some demoState ∧
      releaseRegistry 0 demoState (Op.destroy 2) =
        some [{ refcount := 2, memPtr := 1, isArray := false, arraySize := 0 },
              { refcount := 0, memPtr := 2, isArray := false, arraySize := 0 }] ∧
      ∃ s1, step 0 demoState (Op.destroy 2) = some s1 ∧
        (∀ r1 ∈ s1.refContainer, r1.memPtr ≠ 2) ∧
        s1.refContainer.length + 1 = demoState.refContainer.length ∧
        refContainerSize s1.refContainer + 1 = refContainerSize demoState.refContainer := by
  refine ⟨by decide, by decide, ?_⟩
  obtain ⟨s1, hs, hgone, -, hlen⟩ := zero_refcount_record_erased 0
    [Op.constructAddr 1, Op.copyConstruct 0, Op.constructAddr 2] demoState (Op.destroy 2)
    [{ refcount := 2, memPtr := 1, isArray := false, arraySize := 0 },
     { refcount := 0, memPtr := 2, isArray := false, arraySize := 0 }]
    (by decide) (by decide) (by decide)
  have hnot : ¬ ∃ i t, Op.destroy 2 = Op.assignAddr i t ∧ t ≠ 0 ∧
      ∀ r ∈ demoState.refContainer, r.memPtr ≠ t := by
    rintro ⟨_, _, h, _⟩
    cases h
  refine ⟨s1, hs, ?_, (hlen hnot).1, (hlen hnot).2 (by decide)⟩
  exact hgone { refcount := 0, memPtr := 2, isArray := false, arraySize := 0 }
    (by decide) rfl

/-- C12, as stated, fails: after `2^32` objects have been constructed from the address `1`,
its record is in the registry with `refcount = 0`; the assignment `a = b` between the
distinct objects named `0` and `1`, which hold the same address, empties the registry
instead of leaving it unchanged. Moreover, after `Pointer<T, 0> a(1), b(2); shutdown();` the
registry is empty while `b` still holds the non-null address `2`: the assignment `a = b`
finds no record for that address and increments nothing. -/
theorem assign_pointer_same_address_erases :
    (run 0 State.init (List.replicate 4294967296 (Op.constructAddr 1)) =
        some (sameAddrState 4294967296) ∧
      (sameAddrState 4294967296).handle 0 =
        some { addr := 1, isArray := false, arraySize := 0 } ∧
      (sameAddrState 4294967296).handle 1 =
        some { addr := 1, isArray := false, arraySize := 0 } ∧
      (sameAddrState 4294967296).refContainer =
        [{ refcount := 0, memPtr := 1, isArray := false, arraySize := 0 }] ∧
      ∃ s1, step 0 (sameAddrState 4294967296) (Op.assignPointer 0 1) = some s1 ∧
        s1.refContainer = []) ∧
    (run 0 State.init [Op.constructAddr 1, Op.constructAddr 2, Op.shutdown] =
        some { refContainer := []
               first := false
               exitHooks := 1
               handles := [some { addr := 1, isArray := false, arraySize := 0 },
                           some { addr := 2, isArray := false, arraySize := 0 }]
               deallocs := [Dealloc.scalarDelete 1, Dealloc.scalarDelete 2] } ∧
      step 0
          { refContainer := []
            first := false
            exitHooks := 1
            handles := [some { addr := 1, isArray := false, arraySize := 0 },
                        some { addr := 2, isArray := false, arraySize := 0 }]
            deallocs := [Dealloc.scalarDelete 1, Dealloc.scalarDelete 2] }
          (Op.assignPointer 0 1) =
        some { refContainer := []
               first := false
               exitHooks := 1
               handles := [some { addr := 2, isArray := false, arraySize := 0 },
                           some { addr := 2, isArray := false, arraySize := 0 }]
               deallocs := [Dealloc.scalarDelete 1, Dealloc.scalarDelete 2] }) := by
  have hh0 : (sameAddrState 4294967296).handle 0 =
      some { addr := 1, isArray := false, arraySize := 0 } := by
    have h := sameAddrState_handle_zero 4294967295
    simpa only [Nat.reduceAdd] using h
  have hh1 : (sameAddrState 4294967296).handle 1 =
      some { addr := 1, isArray := false, arraySize := 0 } := by
    have h := sameAddrState_handle_one 4294967294
    simpa only [Nat.reduceAdd] using h
  have hreg : (sameAddrState 4294967296).refContainer =
      [{ refcount := 0, memPtr := 1, isArray := false, arraySize := 0 }] := by
    rw [sameAddrState_refContainer]
    simp only [UINT_MOD, Nat.reduceMod]
  refine ⟨⟨?_, hh0, hh1, hreg, ?_⟩, by decide, by decide⟩
  · have h := run_replicate_constructAddr 4294967295
    simpa only [Nat.reduceAdd] using h
  · refine ⟨assignPointer (sameAddrState 4294967296) 0
      { addr := 1, isArray := false, arraySize := 0 } 1
      { addr := 1, isArray := false, arraySize := 0 }, by simp only [step, hh0, hh1], ?_⟩
    rw [assignPointer_refContainer _ _ _ _ _ (by decide), hreg]
    decide

/-- C12, amended. In a state reached by public operations (explicit `collect` and
`shutdown` included) through states with fewer than `2^32` live objects, `a = b` for
distinct live objects gives `a` the `addr`, `isArray` and `arraySize` of `b` and leaves `b`
as it is. If the two addresses are equal the registry is unchanged. Otherwise the record of
the old address of `a`, if any, is erased if its `refcount` was 1 and else has
`refcount - 1`; the record of the address of `b`, if any, has `refcount + 1`; all other
records are unchanged and no record is added. Both records exist, for non-null addresses,
when the state was reached by construct, assign and destroy operations only. -/
theorem assign_pointer_effect (size : Int) (ops : List Op) (s : State) (i j : Nat)
    (this rv : Pointer) (hrun : runWithin size State.init ops = some s)
    (hi : s.handle i = some this) (hj : s.handle j = some rv) (hij : i ≠ j) :
    ∃ s1, step size s (Op.assignPointer i j) = some s1 ∧
      s1.handle i =
        some { addr := rv.addr, isArray := rv.isArray, arraySize := rv.arraySize } ∧
      s1.handle j = some rv ∧
      (this.addr = rv.addr → s1.refContainer = s.refContainer) ∧
      (this.addr ≠ rv.addr →
        (∀ r ∈ s.refContainer, r.memPtr = this.addr →
          (r.refcount = 1 → ∀ r1 ∈ s1.refContainer, r1.memPtr ≠ this.addr) ∧
          (r.refcount ≠ 1 → { r with refcount := r.refcount - 1 } ∈ s1.refContainer)) ∧
        (∀ r ∈ s.refContainer, r.memPtr = rv.addr →
          { r with refcount := r.refcount + 1 } ∈ s1.refContainer) ∧
        (∀ r ∈ s.refContainer, r.memPtr ≠ this.addr → r.memPtr ≠ rv.addr →
          r ∈ s1.refContainer) ∧
        (∀ r1 ∈ s1.refContainer, ∃ r ∈ s.refContainer, r.memPtr = r1.memPtr)) ∧
      ((∀ op ∈ ops, op.isLifecycle = true) →
        (this.addr ≠ 0 → ∃ r ∈ s.refContainer, r.memPtr = this.addr) ∧
        (rv.addr ≠ 0 → ∃ r ∈ s.refContainer, r.memPtr = rv.addr)) := by
  obtain ⟨hinv, hb⟩ := weakInv_runWithin weakInv_init
    (by simp [State.init, liveCount, UINT_MOD]) hrun
  have hcore := assignPointer_effect_core i this j rv hinv hb hi hij
  have hh : (assignPointer s i this j rv).handles = s.handles.set i
      (some { addr := rv.addr, isArray := rv.isArray, arraySize := rv.arraySize }) := by
    simp only [assignPointer, hij, if_false]
    rfl
  refine ⟨assignPointer s i this j rv, by simp only [step, hi, hj], ?_, ?_, hcore.1,
    hcore.2, ?_⟩
  · simp only [State.handle, hh]
    exact getD_set_self s.handles i this _ hi
  · simp only [State.handle, hh]
    rw [getD_set_ne s.handles i j _ hij]
    exact hj
  · intro hl
    have hri : RefInv s := refInv_runBelow refInv_init (runBelow_of_runWithin hl hrun)
    exact ⟨fun h0 => hri.1.2.2 this.addr h0 (liveAt_pos_of_getD s.handles i this hi),
      fun h0 => hri.1.2.2 rv.addr h0 (liveAt_pos_of_getD s.handles j rv hj)⟩

theorem assign_pointer_effect_witness :
    runWithin 0 State.init [Op.constructAddr 1, Op.copyConstruct 0, Op.constructAddr 2] =
        some demoState ∧
      ∃ s1, step 0 demoState (Op.assignPointer 2 0) = some s1 ∧
        s1.handle 2 = some { addr := 1, isArray := false, arraySize := 0 } ∧
        s1.handle 0 = some { addr := 1, isArray := false, arraySize := 0 } ∧
        ({ refcount := 2 + 1, memPtr := 1, isArray := false, arraySize := 0 } : PtrDetails) ∈
          s1.refContainer ∧
        ∀ r1 ∈ s1.refContainer, r1.memPtr ≠ 2 := by
  refine ⟨by decide, ?_⟩
  obtain ⟨s1, hs, h2, h0, -, hdiff, -⟩ := assign_pointer_effect 0
    [Op.constructAddr 1, Op.copyConstruct 0, Op.constructAddr 2] demoState 2 0
    { addr := 2, isArray := false, arraySize := 0 }
    { addr := 1, isArray := false, arraySize := 0 } (by decide) (by decide) (by decide)
    (by decide)
  obtain ⟨hold, hnew, -, -⟩ := hdiff (by decide)
  exact ⟨s1, hs, h2, h0,
    hnew { refcount := 2, memPtr := 1, isArray := false, arraySize := 0 } (by decide) rfl,
    (hold { refcount := 1, memPtr := 2, isArray := false, arraySize := 0 } (by decide) rfl).1
      rfl⟩

/-- C13, as stated, fails: after `2^32` objects have been constructed from the address
`1`, its record has `refcount = 0`; assigning the untracked address `2` to the object named
`0` leaves the record of the old address with `refcount = 2^32 - 1` (the decrement wraps),
neither decreased by one nor erased. -/
theorem assign_address_decrement_wraps :
    run 0 State.init (List.replicate 4294967296 (Op.constructAddr 1)) =
        some (sameAddrState 4294967296) ∧
      (sameAddrState 4294967296).handle 0 =
        some { addr := 1, isArray := false, arraySize := 0 } ∧
      (sameAddrState 4294967296).refContainer =
        [{ refcount := 0, memPtr := 1, isArray := false, arraySize := 0 }] ∧
      ∃ s1, step 0 (sameAddrState 4294967296) (Op.assignAddr 0 2) = some s1 ∧
        s1.refContainer =
          [{ refcount := 4294967295, memPtr := 1, isArray := false, arraySize := 0 },
           { refcount := 1, memPtr := 2, isArray := false, arraySize := 0 }] := by
  have hh : (sameAddrState 4294967296).handle 0 =
      some { addr := 1, isArray := false, arraySize := 0 } := by
    have h := sameAddrState_handle_zero 4294967295
    simpa only [Nat.reduceAdd] using h
  have hreg : (sameAddrState 4294967296).refContainer =
      [{ refcount := 0, memPtr := 1, isArray := false, arraySize := 0 }] := by
    rw [sameAddrState_refContainer]
    simp only [UINT_MOD, Nat.reduceMod]
  refine ⟨?_, hh, hreg, ?_⟩
  · have h := run_replicate_constructAddr 4294967295
    simpa only [Nat.reduceAdd] using h
  · refine ⟨assignAddr 0 (sameAddrState 4294967296) 0
      { addr := 1, isArray := false, arraySize := 0 } 2, by simp only [step, hh], ?_⟩
    rw [assignAddr_refContainer, hreg]
    decide


/-! ## `operator=(T *t)` in the states reached by all public operations -/

/-- An assignment whose new address equals the old one, that address being null or having a
record, leaves the registry as it is when `collect` is called. -/
theorem release_add_same_weak {s : State} (size : Int) (this : Pointer)
    (hinv : WeakInv s) (hb : liveCount s.handles < UINT_MOD)
    (htr : this.addr = 0 ∨ ∃ r ∈ s.refContainer, r.memPtr = this.addr) :
    ctorAddrRegistry size (dtorRelease s.refContainer this) this.addr = s.refContainer := by
  obtain ⟨extra, hreg, hex1, -⟩ := release_add_eq_append_of_nodup size this this.addr
    hinv.1.1 (fun r hr => (hinv.1.2 r hr).1)
  rw [hreg, hex1 htr, List.append_nil]
  apply map_eq_self_of_forall
  intro r hr
  by_cases h1 : r.memPtr = this.addr
  · simp only [h1, if_true]
    exact incr_decr_eq_self (hinv.2 r hr) (weakInv_refcount_lt hinv hb r hr)
  · simp [h1]

/-- Effect of `operator=(T *t)` on the registry when `t` differs from the address of the
assigned object, in a state that satisfies `WeakInv` and has fewer than `2^32` live
objects. -/
theorem assignAddr_effect_core {s : State} (size : Int) (i : Nat) (this : Pointer) (t : Int)
    (hinv : WeakInv s) (hb : liveCount s.handles < UINT_MOD) (hi : s.handle i = some this)
    (hne : this.addr ≠ t) :
    (∀ r ∈ s.refContainer, r.memPtr = this.addr →
      (r.refcount = 1 →
        ∀ r1 ∈ (ctorAddrRegistry size (dtorRelease s.refContainer this) t).filter
          (fun p => decide (0 < p.refcount)), r1.memPtr ≠ this.addr) ∧
      (r.refcount ≠ 1 →
        { r with refcount := r.refcount - 1 } ∈
          (ctorAddrRegistry size (dtorRelease s.refContainer this) t).filter
            (fun p => decide (0 < p.refcount)))) ∧
    (∀ r ∈ s.refContainer, r.memPtr = t →
      { r with refcount := r.refcount + 1 } ∈
        (ctorAddrRegistry size (dtorRelease s.refContainer this) t).filter
          (fun p => decide (0 < p.refcount))) ∧
    (∀ r ∈ s.refContainer, r.memPtr ≠ this.addr → r.memPtr ≠ t →
      r ∈ (ctorAddrRegistry size (dtorRelease s.refContainer this) t).filter
        (fun p => decide (0 < p.refcount))) := by
  obtain ⟨extra, hreg, hex1, hex2⟩ := release_add_eq_append_of_nodup size this t
    hinv.1.1 (fun r hr => (hinv.1.2 r hr).1)
  have hextra : ∀ x ∈ extra, x.memPtr = t := by
    intro x hx
    by_cases htr : t = 0 ∨ ∃ r ∈ s.refContainer, r.memPtr = t
    · rw [hex1 htr] at hx
      simp at hx
    · have h0 : t ≠ 0 := fun h => htr (Or.inl h)
      have hnone : ∀ r ∈ s.refContainer, r.memPtr ≠ t :=
        fun r hr h => htr (Or.inr ⟨r, hr, h⟩)
      rw [hex2 ⟨h0, hnone⟩] at hx
      simp only [List.mem_singleton] at hx
      rw [hx]
      rfl
  have hold : ∀ r ∈ s.refContainer, r.memPtr = this.addr →
      (if r.memPtr = t then (if r.memPtr = this.addr then r.decr else r).incr
        else (if r.memPtr = this.addr then r.decr else r)) =
      { r with refcount := r.refcount - 1 } := by
    intro r hr hra
    have h1 : ¬ r.memPtr = t := fun h => hne (hra.symm.trans h)
    rw [if_neg h1, if_pos hra]
    exact decr_eq_of_pos (hinv.2 r hr)
  have hnew : ∀ r ∈ s.refContainer, r.memPtr = t →
      (if r.memPtr = t then (if r.memPtr = this.addr then r.decr else r).incr
        else (if r.memPtr = this.addr then r.decr else r)) =
      { r with refcount := r.refcount + 1 } := by
    intro r hr hrt
    have h1 : ¬ r.memPtr = this.addr := fun h => hne (h.symm.trans hrt)
    rw [if_pos hrt, if_neg h1]
    apply incr_eq_of_lt
    have e := liveAt_set s.handles i this (some { this with addr := t }) t hi
    rw [liveAt_cons_some, liveAt_nil] at e
    simp only [hne, if_false, if_true] at e
    have hle := liveAt_le_liveCount (s.handles.set i (some { this with addr := t })) t
    rw [liveCount_set_some s.handles i this _ hi] at hle
    have hrc := (hinv.1.2 r hr).2
    rw [hrt] at hrc
    omega
  have hother : ∀ r ∈ s.refContainer, r.memPtr ≠ this.addr → r.memPtr ≠ t →
      (if r.memPtr = t then (if r.memPtr = this.addr then r.decr else r).incr
        else (if r.memPtr = this.addr then r.decr else r)) = r := by
    intro r _ h1 h2
    rw [if_neg h2, if_neg h1]
  have hmp : ∀ r : PtrDetails,
      (if r.memPtr = t then (if r.memPtr = this.addr then r.decr else r).incr
        else (if r.memPtr = this.addr then r.decr else r)).memPtr = r.memPtr := by
    intro r
    split_ifs <;> simp [incr_memPtr, decr_memPtr]
  rw [hreg]
  refine ⟨?_, ?_, ?_⟩
  · intro r hr hra
    constructor
    · intro hone r1 hr1 hr1a
      obtain ⟨hmem, hp⟩ := List.mem_filter.1 hr1
      simp only [decide_eq_true_eq] at hp
      rcases List.mem_append.1 hmem with hm | hm
      · obtain ⟨r0, hr0, rfl⟩ := List.mem_map.1 hm
        have hr0a : r0.memPtr = this.addr := (hmp r0).symm.trans hr1a
        have := eq_of_memPtr_eq hinv.1.1 hr0 hr (hr0a.trans hra.symm)
        subst this
        rw [hold r0 hr0 hra] at hp
        simp only at hp
        omega
      · exact hne ((hr1a.symm.trans (hextra r1 hm)))
    · intro hne1
      apply List.mem_filter.2
      refine ⟨List.mem_append.2 (Or.inl (List.mem_map.2 ⟨r, hr, hold r hr hra⟩)), ?_⟩
      have := hinv.2 r hr
      simp only [decide_eq_true_eq]
      omega
  · intro r hr hrt
    apply List.mem_filter.2
    refine ⟨List.mem_append.2 (Or.inl (List.mem_map.2 ⟨r, hr, hnew r hr hrt⟩)), ?_⟩
    simp only [decide_eq_true_eq]
    omega
  · intro r hr h1 h2
    apply List.mem_filter.2
    refine ⟨List.mem_append.2 (Or.inl (List.mem_map.2 ⟨r, hr, hother r hr h1 h2⟩)), ?_⟩
    have := hinv.2 r hr
    simp only [decide_eq_true_eq]
    omega

/-- C18, amended. In a state reached by public operations (explicit `collect` and `shutdown`
included) through states with fewer than `2^32` live objects, assigning to a live object the
non-null address it already holds, that address being tracked, leaves the state unchanged:
same records, same reference counts, same order, nothing reclaimed. The address is tracked
whenever the state was reached by construct, assign and destroy operations only. -/
theorem assign_same_address_unchanged (size : Int) (ops : List Op) (s : State) (i : Nat)
    (this : Pointer) (hrun : runWithin size State.init ops = some s)
    (hi : s.handle i = some this) (h0 : this.addr ≠ 0)
    (htr : (∀ op ∈ ops, op.isLifecycle = true) ∨ ∃ r ∈ s.refContainer, r.memPtr = this.addr) :
    (∃ r ∈ s.refContainer, r.memPtr = this.addr) ∧
    ∃ s1, step size s (Op.assignAddr i this.addr) = some s1 ∧
      s1.refContainer = s.refContainer ∧ s1.deallocs = s.deallocs ∧ s1 = s := by
  obtain ⟨hinv, hb⟩ := weakInv_runWithin weakInv_init
    (by simp [State.init, liveCount, UINT_MOD]) hrun
  have hrec : ∃ r ∈ s.refContainer, r.memPtr = this.addr := by
    rcases htr with hl | h
    · have hri : RefInv s := refInv_runBelow refInv_init (runBelow_of_runWithin hl hrun)
      exact hri.1.2.2 this.addr h0 (liveAt_pos_of_getD s.handles i this hi)
    · exact h
  have hs1 : assignAddr size s i this this.addr = s := by
    have hthis : ({ this with addr := this.addr } : Pointer) = this := by
      cases this; rfl
    have hstate : ({ s with
        refContainer := assignAddrRelease size s.refContainer this this.addr
        handles := s.handles.set i (some { this with addr := this.addr }) } : State) = s := by
      rw [hthis, set_getD_self s.handles i this hi, assignAddrRelease_eq,
        release_add_same_weak size this hinv hb (Or.inr hrec)]
    rw [assignAddr, hstate]
    exact collect_of_positive s hinv.2
  refine ⟨hrec, s, ?_, rfl, rfl, rfl⟩
  simp only [step, hi, hs1]

theorem assign_same_address_unchanged_witness :
    runWithin 0 State.init [Op.constructAddr 1, Op.copyConstruct 0, Op.constructAddr 2] =
        some demoState ∧
      (∃ r ∈ demoState.refContainer, r.memPtr = 2) ∧
      ∃ s1, step 0 demoState (Op.assignAddr 2 2) = some s1 ∧
        s1.refContainer = demoState.refContainer ∧ s1.deallocs = demoState.deallocs ∧
        s1 = demoState :=
  ⟨by decide,
    assign_same_address_unchanged 0
      [Op.constructAddr 1, Op.copyConstruct 0, Op.constructAddr 2] demoState 2
      { addr := 2, isArray := false, arraySize := 0 } (by decide) (by decide) (by decide)
      (Or.inl (by decide))⟩

/-- C13, amended. In a state reached by public operations (explicit `collect` and `shutdown`
included) through states with fewer than `2^32` live objects, `h = t` with `t` non-null and
different from the address of `h` sets `addr` of `h` to `t`; afterwards the registry has
exactly one record for `t`: the record it had, with `refcount + 1`, or, if it had none, a
record appended at the end with `refcount = 1`, and, when `0 <= size`,
`isArray = (size > 0)` and `arraySize = size`. The record of the old address of `h`, if any,
is erased if its `refcount` was 1 and else has `refcount - 1` (it exists if that address is
non-null and the state was reached by construct, assign and destroy operations only); the
other records are unchanged. -/
theorem assign_address_effect (size : Int) (ops : List Op) (s : State) (i : Nat)
    (this : Pointer) (t : Int) (hrun : runWithin size State.init ops = some s)
    (hi : s.handle i = some this) (ht0 : t ≠ 0) (hne : t ≠ this.addr) :
    ∃ s1, step size s (Op.assignAddr i t) = some s1 ∧
      s1.handle i = some { this with addr := t } ∧
      (∃ r ∈ s1.refContainer, r.memPtr = t ∧ ∀ r1 ∈ s1.refContainer, r1.memPtr = t → r1 = r) ∧
      (∀ r ∈ s.refContainer, r.memPtr = t →
        { r with refcount := r.refcount + 1 } ∈ s1.refContainer) ∧
      ((∀ r ∈ s.refContainer, r.memPtr ≠ t) →
        ∃ l x, s1.refContainer = l ++ [x] ∧ x.refcount = 1 ∧ x.memPtr = t ∧
          (0 ≤ size → size < 2147483648 →
            x.isArray = decide (size > 0) ∧ (x.arraySize : Int) = size)) ∧
      ((∀ op ∈ ops, op.isLifecycle = true) →
        this.addr ≠ 0 → ∃ r ∈ s.refContainer, r.memPtr = this.addr) ∧
      (∀ r ∈ s.refContainer, r.memPtr = this.addr →
        (r.refcount = 1 → ∀ r1 ∈ s1.refContainer, r1.memPtr ≠ this.addr) ∧
        (r.refcount ≠ 1 → { r with refcount := r.refcount - 1 } ∈ s1.refContainer)) ∧
      (∀ r ∈ s.refContainer, r.memPtr ≠ this.addr → r.memPtr ≠ t → r ∈ s1.refContainer) := by
  obtain ⟨hinv, hb⟩ := weakInv_runWithin weakInv_init
    (by simp [State.init, liveCount, UINT_MOD]) hrun
  have hne2 : this.addr ≠ t := fun h => hne h.symm
  have hreg := assignAddr_refContainer size s i this t
  have hh : (assignAddr size s i this t).handles =
      s.handles.set i (some { this with addr := t }) := rfl
  have hcore := assignAddr_effect_core size i this t hinv hb hi hne2
  have hnd : ((assignAddr size s i this t).refContainer.map PtrDetails.memPtr).Nodup := by
    rw [hreg]
    exact filter_map_memPtr_nodup _ (assignAddrRelease_nodup size this t hinv.1.1)
  have happ : (∀ r ∈ s.refContainer, r.memPtr ≠ t) →
      ∃ l, (assignAddr size s i this t).refContainer =
        l ++ [PtrDetails.ctor t (toUnsigned size)] := by
    intro hnone
    obtain ⟨extra, he, -, hex2⟩ := release_add_eq_append_of_nodup size this t
      hinv.1.1 (fun r hr => (hinv.1.2 r hr).1)
    have hf : [PtrDetails.ctor t (toUnsigned size)].filter
        (fun p => decide (0 < p.refcount)) = [PtrDetails.ctor t (toUnsigned size)] := by
      simp [PtrDetails.ctor]
    rw [hreg, he, hex2 ⟨ht0, hnone⟩, List.filter_append, hf]
    exact ⟨_, rfl⟩
  have hexist : ∃ r ∈ (assignAddr size s i this t).refContainer, r.memPtr = t := by
    by_cases htr : ∃ r ∈ s.refContainer, r.memPtr = t
    · obtain ⟨r, hr, hrt⟩ := htr
      rw [hreg]
      exact ⟨_, hcore.2.1 r hr hrt, hrt⟩
    · obtain ⟨l, hl⟩ := happ (fun r hr h => htr ⟨r, hr, h⟩)
      rw [hl]
      exact ⟨PtrDetails.ctor t (toUnsigned size), by simp, rfl⟩
  refine ⟨assignAddr size s i this t, by simp only [step, hi], ?_, ?_, ?_, ?_, ?_, ?_, ?_⟩
  · simp only [State.handle, hh]
    exact getD_set_self s.handles i this _ hi
  · obtain ⟨r, hr, hrt⟩ := hexist
    exact ⟨r, hr, hrt, fun r1 hr1 h1 => eq_of_memPtr_eq hnd hr1 hr (h1.trans hrt.symm)⟩
  · rw [hreg]
    exact hcore.2.1
  · intro hnone
    obtain ⟨l, hl⟩ := happ hnone
    refine ⟨l, PtrDetails.ctor t (toUnsigned size), hl, rfl, rfl, ?_⟩
    intro h0 h1
    have hu := @toUnsigned_of_nonneg size h0 (by omega)
    refine ⟨?_, hu⟩
    simp only [PtrDetails.ctor]
    by_cases hpos : size > 0
    · have : toUnsigned size > 0 := by omega
      simp [hpos, this]
    · have : ¬ toUnsigned size > 0 := by omega
      simp [hpos, this]
  · intro hl h0
    have hri : RefInv s := refInv_runBelow refInv_init (runBelow_of_runWithin hl hrun)
    exact hri.1.2.2 this.addr h0 (liveAt_pos_of_getD s.handles i this hi)
  · rw [hreg]
    exact hcore.1
  · rw [hreg]
    exact hcore.2.2

theorem assign_address_effect_witness :
    runWithin 0 State.init [Op.constructAddr 1, Op.copyConstruct 0, Op.constructAddr 2] =
        some demoState ∧
      ∃ s1, step 0 demoState (Op.assignAddr 2 1) = some s1 ∧
        s1.handle 2 = some { addr := 1, isArray := false, arraySize := 0 } ∧
        ({ refcount := 2 + 1, memPtr := 1, isArray := false, arraySize := 0 } : PtrDetails) ∈
          s1.refContainer ∧
        ∀ r1 ∈ s1.refContainer, r1.memPtr ≠ 2 := by
  refine ⟨by decide, ?_⟩
  obtain ⟨s1, hs, h2, -, hnew, -, -, hold, -⟩ := assign_address_effect 0
    [Op.constructAddr 1, Op.copyConstruct 0, Op.constructAddr 2] demoState 2
    { addr := 2, isArray := false, arraySize := 0 } 1 (by decide) (by decide) (by decide)
    (by decide)
  exact ⟨s1, hs, h2,
    hnew { refcount := 2, memPtr := 1, isArray := false, arraySize := 0 } (by decide) rfl,
    (hold { refcount := 1, memPtr := 2, isArray := false, arraySize := 0 } (by decide) rfl).1
      rfl⟩

end GC
